import Mathlib

/-!
# Fixed-length block and slot allocator (`relblock_fixed.c`)

A shallow embedding of `src/backend/access/heap/relblock_fixed.c`.

Modelling conventions

* `NUM_REL_BLOCK_ENTRIES` is a macro of `access/relblock.h`; every function
  that uses it takes it as its first argument `N`.
* A `RelationBlock` pointer held in a block list is modelled by the position of
  the block in that list, the pointee by the `RelationBlockData` value stored
  there.  An empty `List` is the C value `NIL` (`NULL`).
* `elog(ERROR, ...)` does not return to its caller.  Every function that can
  raise returns the pair of an `Except ElogError` result and the state of the
  shared memory at the moment of the raise (nothing is rolled back).
  `elog(WARNING, ...)` and `RelBlockTablePrint()` only log and are left out.
* `palloc` does not clear the memory it hands out; `palloc0` does.  The contents
  of the chunk returned by `palloc(sizeof(RelationBlockData))` are the argument
  `raw` of the allocating functions.
* `Size` is a 64-bit unsigned integer: `Size` arithmetic is taken modulo
  `SIZE_MODULUS`.  The field `rb_free_slots` is declared in `access/relblock.h`;
  it is modelled, as in the data model of the specification, by an integer.
  The source reads it into an `int` and prints it with `%d`: the additions and
  subtractions of the model are those of the source as long as the count stays
  within `INT_MIN` and `INT_MAX`, and a statement that lets the count reach
  `INT_MAX` before a `+= 1` carries that bound as a hypothesis.
-/

namespace Peloton

/-- Storage backends of a relation block (`RelationBlockBackend`).  `other`
stands for every enumeration value that is neither VM nor NVM. -/
inductive RelationBlockBackend where
  | STORAGE_BACKEND_VM
  | STORAGE_BACKEND_NVM
  | other (code : Nat)
  deriving DecidableEq, Repr

/-- Kinds of relation block (`RelationBlockType`).  `other` stands for every
enumeration value that is neither fixed nor variable. -/
inductive RelationBlockType where
  | RELATION_FIXED_BLOCK_TYPE
  | RELATION_VARIABLE_BLOCK_TYPE
  | other (code : Nat)
  deriving DecidableEq, Repr

/-- The two errors raised with `elog(ERROR, ...)` in `relblock_fixed.c`. -/
inductive ElogError where
  /-- Raised by `GetRelationBlockList`: "blockListPtr must not be %p". -/
  | blockListPtrNull
  /-- Raised by `GetFixedLengthSlotInBlock`: "No free slots in block %p". -/
  | noFreeSlots
  deriving DecidableEq, Repr

/-- Value of `2 ^ 64`, the modulus of `Size` arithmetic. -/
def SIZE_MODULUS : Nat := 2 ^ 64

/-- Largest value of a C `int` (32 bits). -/
def INT_MAX : Int := 2147483647

/-- One column group (`RelationColumnGroup`): only `cg_size`, the byte size of
one tuple of the group, is read by the allocator. -/
structure RelationColumnGroupData where
  cg_size : Nat
  deriving DecidableEq, Repr

/-- One relation block (`RelationBlockData`).

* `rb_slotmap` is the array behind the `bool *rb_slotmap` pointer;
* `rb_cg_locations` lists the per-column-group regions, each one represented by
  the byte length that was requested for it;
* `rb_stray_writes` is a ghost field: the indices of the stores `slotmap[i] = ...`
  that fell outside the slot-map array, most recent first. -/
structure RelationBlockData where
  rb_type : RelationBlockType
  rb_backend : RelationBlockBackend
  rb_slotmap : List Bool
  rb_free_slots : Int
  rb_size : Nat
  rb_cg_locations : List Nat
  rb_stray_writes : List Int
  deriving DecidableEq, Repr

/-- The four block lists and the column groups of a relation
(`RelationBlockInfoData`). -/
structure RelationBlockInfoData where
  rel_column_groups : List RelationColumnGroupData
  rel_fixed_blocks_on_VM : List RelationBlockData
  rel_variable_blocks_on_VM : List RelationBlockData
  rel_fixed_blocks_on_NVM : List RelationBlockData
  rel_variable_blocks_on_NVM : List RelationBlockData
  deriving DecidableEq, Repr

/-- The part of a relation descriptor (`RelationData`) the allocator uses. -/
structure RelationData where
  rd_relblock_info : RelationBlockInfoData
  deriving DecidableEq, Repr

/-- The value of a `List **` returned by `GetRelationBlockList`: the address of
one of the four list fields of the relation. -/
inductive BlockListPtr where
  | fixed_VM
  | variable_VM
  | fixed_NVM
  | variable_NVM
  deriving DecidableEq, Repr

/-- Reading `*blockListPtr`. -/
def BlockListPtr.deref (p : BlockListPtr) (relation : RelationData) :
    List RelationBlockData :=
  match p with
  | .fixed_VM => relation.rd_relblock_info.rel_fixed_blocks_on_VM
  | .variable_VM => relation.rd_relblock_info.rel_variable_blocks_on_VM
  | .fixed_NVM => relation.rd_relblock_info.rel_fixed_blocks_on_NVM
  | .variable_NVM => relation.rd_relblock_info.rel_variable_blocks_on_NVM

/-- Writing `*blockListPtr = blocks`. -/
def BlockListPtr.assign (p : BlockListPtr) (relation : RelationData)
    (blocks : List RelationBlockData) : RelationData :=
  match p with
  | .fixed_VM =>
    { relation with rd_relblock_info :=
        { relation.rd_relblock_info with rel_fixed_blocks_on_VM := blocks } }
  | .variable_VM =>
    { relation with rd_relblock_info :=
        { relation.rd_relblock_info with rel_variable_blocks_on_VM := blocks } }
  | .fixed_NVM =>
    { relation with rd_relblock_info :=
        { relation.rd_relblock_info with rel_fixed_blocks_on_NVM := blocks } }
  | .variable_NVM =>
    { relation with rd_relblock_info :=
        { relation.rd_relblock_info with rel_variable_blocks_on_NVM := blocks } }

/-- Source function `GetRelationBlockList` (lines 39-66): picks the list for a
backend and a block type; raises when no branch set `blockListPtr`. -/
def GetRelationBlockList (relblockbackend : RelationBlockBackend)
    (relblocktype : RelationBlockType) : Except ElogError BlockListPtr :=
  match relblockbackend, relblocktype with
  | .STORAGE_BACKEND_VM, .RELATION_FIXED_BLOCK_TYPE => .ok .fixed_VM
  | .STORAGE_BACKEND_VM, .RELATION_VARIABLE_BLOCK_TYPE => .ok .variable_VM
  | .STORAGE_BACKEND_NVM, .RELATION_FIXED_BLOCK_TYPE => .ok .fixed_NVM
  | .STORAGE_BACKEND_NVM, .RELATION_VARIABLE_BLOCK_TYPE => .ok .variable_NVM
  | _, _ => .error .blockListPtrNull

/-- The `foreach` loop of `RelationAllocateFixedLengthBlock` (lines 127-141):
for each column group in list order, add its block size to `rb_size` and append
a region of that size to `rb_cg_locations`. -/
def allocateColumnGroupBlocks (N : Nat) :
    List RelationColumnGroupData → RelationBlockData → RelationBlockData
  | [], relblock => relblock
  | rel_column_group :: rest, relblock =>
    let cg_tup_size := rel_column_group.cg_size % SIZE_MODULUS
    let cg_block_size := (cg_tup_size * N) % SIZE_MODULUS
    allocateColumnGroupBlocks N rest
      { relblock with
        rb_size := (relblock.rb_size + cg_block_size) % SIZE_MODULUS
        rb_cg_locations := relblock.rb_cg_locations ++ [cg_block_size] }

/-- Lines 120-141 of `RelationAllocateFixedLengthBlock`: the block as it stands
just before it is appended to a list.  `raw` is the content of the chunk
returned by `palloc`; `rb_type`, `rb_backend`, `rb_slotmap` and `rb_free_slots`
are assigned, `rb_size` and `rb_cg_locations` are only updated.  The slot map
comes from `palloc0`; no store has missed it yet. -/
def initFixedLengthBlock (N : Nat) (raw : RelationBlockData)
    (rel_column_groups : List RelationColumnGroupData)
    (relblockbackend : RelationBlockBackend) : RelationBlockData :=
  allocateColumnGroupBlocks N rel_column_groups
    { raw with
      rb_type := .RELATION_FIXED_BLOCK_TYPE
      rb_backend := relblockbackend
      rb_slotmap := List.replicate N false
      rb_free_slots := (N : Int)
      rb_stray_writes := [] }

/-- Source function `RelationAllocateFixedLengthBlock` (lines 100-154).
Returns the new block (its position in the list and its content) and the
updated relation; raises, with the relation unchanged, when
`GetRelationBlockList` does. -/
def RelationAllocateFixedLengthBlock (N : Nat) (raw : RelationBlockData)
    (relation : RelationData) (relblockbackend : RelationBlockBackend) :
    Except ElogError (Nat × RelationBlockData) × RelationData :=
  let relblock := initFixedLengthBlock N raw
    relation.rd_relblock_info.rel_column_groups relblockbackend
  match GetRelationBlockList relblockbackend .RELATION_FIXED_BLOCK_TYPE with
  | .error e => (.error e, relation)
  | .ok blockListPtr =>
    let blockList := blockListPtr.deref relation
    (.ok (blockList.length, relblock),
      blockListPtr.assign relation (blockList ++ [relblock]))

/-- The `for` loop of `GetFixedLengthSlotInBlock` (lines 169-177), without its
two stores: the value of `slot_itr` when the loop is left, which is the first
index below `N` whose entry is `false`, or `N`.  The first argument bounds the
number of iterations still to run; the loop starts with `N` of them.  A read
past the end of the array, which does not occur when the array has `N`
entries, is taken not to yield `false`. -/
def slotScan (N : Nat) (slotmap : List Bool) : Nat → Nat → Nat
  | 0, slot_itr => slot_itr
  | fuel + 1, slot_itr =>
    if slot_itr < N then
      if slotmap[slot_itr]? = some false then slot_itr
      else slotScan N slotmap fuel (slot_itr + 1)
    else slot_itr

/-- Source function `GetFixedLengthSlotInBlock` (lines 156-186). -/
def GetFixedLengthSlotInBlock (N : Nat) (relblock : RelationBlockData) :
    Except ElogError Int × RelationBlockData :=
  let free_slots := relblock.rb_free_slots
  let slotmap := relblock.rb_slotmap
  if free_slots = 0 then (.error .noFreeSlots, relblock)
  else
    let slot_itr := slotScan N slotmap N 0
    if slot_itr = N then (.error .noFreeSlots, relblock)
    else
      (.ok (slot_itr : Int),
        { relblock with
          rb_slotmap := slotmap.set slot_itr true
          rb_free_slots := relblock.rb_free_slots - 1 })

/-- Source function `ReleaseFixedLengthSlotInBlock` (lines 188-203).  The store
`slotmap[slot_id] = false` changes the array when `slot_id` is one of its
indices and is recorded in `rb_stray_writes` otherwise.  The addition
`rb_free_slots += 1` is the one of the source when the count is below
`INT_MAX`; at `INT_MAX` the `int` of the source overflows, which this
definition does not follow. -/
def ReleaseFixedLengthSlotInBlock (N : Nat) (relblock : RelationBlockData)
    (slot_id : Int) : Bool × RelationBlockData :=
  let slotmap := relblock.rb_slotmap
  if slot_id < 0 ∨ slot_id > (N : Int) then (false, relblock)
  else
    (true,
      { relblock with
        rb_slotmap := slotmap.set slot_id.toNat false
        rb_free_slots := relblock.rb_free_slots + 1
        rb_stray_writes :=
          if slot_id.toNat < slotmap.length then relblock.rb_stray_writes
          else slot_id :: relblock.rb_stray_writes })

/-- The `foreach` loop of `GetFixedLengthBlockWithFreeSlot` (lines 228-237):
the first block, in list order, whose `rb_free_slots` is not `0`, with its
position; `none` when the loop ends with `blockfound == false`. -/
def findBlockWithFreeSlot :
    List RelationBlockData → Nat → Option (Nat × RelationBlockData)
  | [], _ => none
  | relblock :: rest, pos =>
    if relblock.rb_free_slots ≠ 0 then some (pos, relblock)
    else findBlockWithFreeSlot rest (pos + 1)

/-- Source function `GetFixedLengthBlockWithFreeSlot` (lines 206-246). -/
def GetFixedLengthBlockWithFreeSlot (N : Nat) (raw : RelationBlockData)
    (relation : RelationData) (relblockbackend : RelationBlockBackend) :
    Except ElogError (Nat × RelationBlockData) × RelationData :=
  match GetRelationBlockList relblockbackend .RELATION_FIXED_BLOCK_TYPE with
  | .error e => (.error e, relation)
  | .ok blockListPtr =>
    if blockListPtr.deref relation = [] then
      RelationAllocateFixedLengthBlock N raw relation relblockbackend
    else
      let blockList := blockListPtr.deref relation
      match findBlockWithFreeSlot blockList 0 with
      | some found => (.ok found, relation)
      | none => RelationAllocateFixedLengthBlock N raw relation relblockbackend

/-- Source function `GetFixedLengthSlot` (lines 248-262): the returned value is
the slot index alone.  The block chosen by `GetFixedLengthBlockWithFreeSlot` is
updated in place, that is, at its position in the list it belongs to. -/
def GetFixedLengthSlot (N : Nat) (raw : RelationBlockData)
    (relation : RelationData) (relblockbackend : RelationBlockBackend) :
    Except ElogError Int × RelationData :=
  match GetFixedLengthBlockWithFreeSlot N raw relation relblockbackend with
  | (.error e, relation1) => (.error e, relation1)
  | (.ok (pos, relblock), relation1) =>
    let (relblock_offset, relblock1) := GetFixedLengthSlotInBlock N relblock
    match GetRelationBlockList relblockbackend .RELATION_FIXED_BLOCK_TYPE with
    | .error e => (.error e, relation1)
    | .ok blockListPtr =>
      (relblock_offset,
        blockListPtr.assign relation1
          ((blockListPtr.deref relation1).set pos relblock1))

/-! ## Sequences of calls -/

/-- Number of entries of a slot map that are `false`. -/
def freeEntries (slotmap : List Bool) : Nat := slotmap.count false

/-- A block is consistent when its slot map has `N` entries and `rb_free_slots`
is the number of them that are `false`. -/
def SlotMapConsistent (N : Nat) (relblock : RelationBlockData) : Prop :=
  relblock.rb_slotmap.length = N ∧
    relblock.rb_free_slots = (freeEntries relblock.rb_slotmap : Int)

instance (N : Nat) (relblock : RelationBlockData) :
    Decidable (SlotMapConsistent N relblock) := by
  unfold SlotMapConsistent; infer_instance

/-- A call on one block: `GetFixedLengthSlotInBlock(relblock)` or
`ReleaseFixedLengthSlotInBlock(relblock, slot_id)`. -/
inductive BlockCall where
  | claim
  | release (slot_id : Int)
  deriving DecidableEq, Repr

/-- The block after one call. -/
def BlockCall.run (N : Nat) (relblock : RelationBlockData) :
    BlockCall → RelationBlockData
  | .claim => (GetFixedLengthSlotInBlock N relblock).2
  | .release slot_id => (ReleaseFixedLengthSlotInBlock N relblock slot_id).2

/-- The block after a sequence of calls, first call first. -/
def runBlockCalls (N : Nat) :
    List BlockCall → RelationBlockData → RelationBlockData
  | [], relblock => relblock
  | call :: calls, relblock => runBlockCalls N calls (call.run N relblock)

/-- A release names an occupied slot of the block when its index lies in
`[0, N)` and the slot-map entry at that index is `true`. -/
def NamesOccupiedSlot (N : Nat) (relblock : RelationBlockData)
    (slot_id : Int) : Prop :=
  0 ≤ slot_id ∧ slot_id < (N : Int) ∧
    relblock.rb_slotmap[slot_id.toNat]? = some true

instance (N : Nat) (relblock : RelationBlockData) (slot_id : Int) :
    Decidable (NamesOccupiedSlot N relblock slot_id) := by
  unfold NamesOccupiedSlot; infer_instance

/-- A call is disciplined in a block state when it is a claim, a release
that names an occupied slot, or a release whose index is below `0` or above
`N`.  A release with index `N` is not disciplined. -/
def BlockCall.Disciplined (N : Nat) (relblock : RelationBlockData) :
    BlockCall → Prop
  | .claim => True
  | .release slot_id =>
    slot_id < 0 ∨ (N : Int) < slot_id ∨ NamesOccupiedSlot N relblock slot_id

instance (N : Nat) (relblock : RelationBlockData) (call : BlockCall) :
    Decidable (call.Disciplined N relblock) := by
  cases call <;> unfold BlockCall.Disciplined <;> infer_instance

/-- Every call of the sequence is disciplined in the state it is made in. -/
def DisciplinedBlockCalls (N : Nat) :
    List BlockCall → RelationBlockData → Prop
  | [], _ => True
  | call :: calls, relblock =>
    call.Disciplined N relblock ∧
      DisciplinedBlockCalls N calls (call.run N relblock)

instance decidableDisciplinedBlockCalls (N : Nat) :
    (calls : List BlockCall) → (relblock : RelationBlockData) →
      Decidable (DisciplinedBlockCalls N calls relblock)
  | [], _ => isTrue trivial
  | call :: calls, relblock =>
    @instDecidableAnd _ _ _
      (decidableDisciplinedBlockCalls N calls (call.run N relblock))

/-- A relation whose four block lists are empty. -/
def emptyRelation (rel_column_groups : List RelationColumnGroupData) :
    RelationData :=
  { rd_relblock_info :=
      { rel_column_groups := rel_column_groups
        rel_fixed_blocks_on_VM := []
        rel_variable_blocks_on_VM := []
        rel_fixed_blocks_on_NVM := []
        rel_variable_blocks_on_NVM := [] } }

/-- The backends that have block lists. -/
def RelationBlockBackend.IsTier (relblockbackend : RelationBlockBackend) : Prop :=
  relblockbackend = .STORAGE_BACKEND_VM ∨ relblockbackend = .STORAGE_BACKEND_NVM

instance (relblockbackend : RelationBlockBackend) :
    Decidable relblockbackend.IsTier := by
  unfold RelationBlockBackend.IsTier; infer_instance

/-- The fixed-block list of a backend; empty for a backend without lists. -/
def fixedBlocks (relation : RelationData)
    (relblockbackend : RelationBlockBackend) : List RelationBlockData :=
  match GetRelationBlockList relblockbackend .RELATION_FIXED_BLOCK_TYPE with
  | .ok blockListPtr => blockListPtr.deref relation
  | .error _ => []

/-- Result of `n` successive calls `GetFixedLengthSlot(relation, backend)`, the
chunk handed out by `palloc` in call number `i` (from `0`) being `raws i`: the
values returned so far, in call order, and the relation.  A raise ends the
sequence. -/
def claimSlots (N : Nat) (raws : Nat → RelationBlockData)
    (relblockbackend : RelationBlockBackend) :
    Nat → RelationData → Except ElogError (List Int) × RelationData
  | 0, relation => (.ok [], relation)
  | n + 1, relation =>
    match claimSlots N raws relblockbackend n relation with
    | (.error e, relation1) => (.error e, relation1)
    | (.ok offsets, relation1) =>
      match GetFixedLengthSlot N (raws n) relation1 relblockbackend with
      | (.error e, relation2) => (.error e, relation2)
      | (.ok relblock_offset, relation2) =>
        (.ok (offsets ++ [relblock_offset]), relation2)

/-- A call on a relation: `GetFixedLengthSlot(relation, backend)`, with the
chunk `palloc` would hand out, or `ReleaseFixedLengthSlotInBlock` on the block
at position `pos` of the fixed-block list of a backend. -/
inductive RelationCall where
  | claim_slot (raw : RelationBlockData) (relblockbackend : RelationBlockBackend)
  | release_slot (relblockbackend : RelationBlockBackend) (pos : Nat)
      (slot_id : Int)
  deriving DecidableEq, Repr

/-- The relation after a release on the block at position `pos` of a list; a
position that holds no block leaves the relation as it is. -/
def releaseAt (N : Nat) (blockListPtr : BlockListPtr) (relation : RelationData)
    (pos : Nat) (slot_id : Int) : RelationData :=
  match (blockListPtr.deref relation)[pos]? with
  | none => relation
  | some relblock =>
    blockListPtr.assign relation
      ((blockListPtr.deref relation).set pos
        (ReleaseFixedLengthSlotInBlock N relblock slot_id).2)

/-- The relation after one call. -/
def RelationCall.run (N : Nat) (relation : RelationData) :
    RelationCall → RelationData
  | .claim_slot raw relblockbackend =>
    (GetFixedLengthSlot N raw relation relblockbackend).2
  | .release_slot relblockbackend pos slot_id =>
    match GetRelationBlockList relblockbackend .RELATION_FIXED_BLOCK_TYPE with
    | .error _ => relation
    | .ok blockListPtr => releaseAt N blockListPtr relation pos slot_id

/-- The relation after a sequence of calls, first call first. -/
def runRelationCalls (N : Nat) :
    List RelationCall → RelationData → RelationData
  | [], relation => relation
  | call :: calls, relation => runRelationCalls N calls (call.run N relation)

/-- A call on a relation is disciplined when it is a claim, or a release on
a block of a fixed-block list that is disciplined for that block. -/
def RelationCall.Disciplined (N : Nat) (relation : RelationData) :
    RelationCall → Prop
  | .claim_slot _ _ => True
  | .release_slot relblockbackend pos slot_id =>
    ∃ relblock, (fixedBlocks relation relblockbackend)[pos]? = some relblock ∧
      (BlockCall.release slot_id).Disciplined N relblock

/-- Every call of the sequence is disciplined in the state it is made in. -/
def DisciplinedRelationCalls (N : Nat) :
    List RelationCall → RelationData → Prop
  | [], _ => True
  | call :: calls, relation =>
    call.Disciplined N relation ∧
      DisciplinedRelationCalls N calls (call.run N relation)

/-- A chunk whose bytes are all zero. -/
def zeroedChunk : RelationBlockData :=
  { rb_type := .RELATION_FIXED_BLOCK_TYPE
    rb_backend := .other 0
    rb_slotmap := []
    rb_free_slots := 0
    rb_size := 0
    rb_cg_locations := []
    rb_stray_writes := [] }

/-- Every block of the four block lists has the property `P`. -/
def AllBlocks (P : RelationBlockData → Prop) (relation : RelationData) : Prop :=
  ∀ p : BlockListPtr, ∀ relblock ∈ p.deref relation, P relblock

/-- The count `rb_free_slots` is at least the number of `false` entries of the
slot map. -/
def CountCovers (relblock : RelationBlockData) : Prop :=
  (freeEntries relblock.rb_slotmap : Int) ≤ relblock.rb_free_slots

/-- Slot map of `N` entries whose first `k` entries are `true` and whose other
entries are `false`. -/
def claimedPrefix (k N : Nat) : List Bool :=
  List.replicate k true ++ List.replicate (N - k) false

/-- A new block on which the slots `0` to `k - 1` have been claimed: the block
made from the chunk `raw`, with slot map `claimedPrefix k N` and count
`N - k`. -/
def blockAfterClaims (N : Nat) (raw : RelationBlockData)
    (rel_column_groups : List RelationColumnGroupData)
    (relblockbackend : RelationBlockBackend) (k : Nat) : RelationBlockData :=
  { initFixedLengthBlock N raw rel_column_groups relblockbackend with
    rb_slotmap := claimedPrefix k N
    rb_free_slots := (N : Int) - (k : Int) }

/-! ## Sample states -/

/-- A block of three slots whose first slot is occupied. -/
def blockOneOfThree : RelationBlockData :=
  { zeroedChunk with rb_slotmap := [true, false, false], rb_free_slots := 2 }

/-- A block of two slots whose first slot is occupied. -/
def blockOneOfTwo : RelationBlockData :=
  { zeroedChunk with rb_slotmap := [true, false], rb_free_slots := 1 }

/-- A full block of three slots. -/
def fullBlockOfThree : RelationBlockData :=
  { zeroedChunk with rb_slotmap := [true, true, true], rb_free_slots := 0 }

/-- Column groups of 16 and 8 bytes. -/
def sampleColumnGroups : List RelationColumnGroupData :=
  [{ cg_size := 16 }, { cg_size := 8 }]

/-- A full block of four slots on VM for `sampleColumnGroups`. -/
def fullBlockOfFour : RelationBlockData :=
  { rb_type := .RELATION_FIXED_BLOCK_TYPE
    rb_backend := .STORAGE_BACKEND_VM
    rb_slotmap := [true, true, true, true]
    rb_free_slots := 0
    rb_size := 96
    rb_cg_locations := [64, 32]
    rb_stray_writes := [] }

/-- A block of four slots on VM for `sampleColumnGroups`, slot `1` free. -/
def partialBlockOfFour : RelationBlockData :=
  { fullBlockOfFour with
    rb_slotmap := [true, false, true, true]
    rb_free_slots := 1 }

/-- A relation whose VM fixed-block list holds a full block, then two blocks
with a free slot. -/
def sampleRelation : RelationData :=
  { rd_relblock_info :=
      { rel_column_groups := sampleColumnGroups
        rel_fixed_blocks_on_VM :=
          [fullBlockOfFour, partialBlockOfFour, partialBlockOfFour]
        rel_variable_blocks_on_VM := []
        rel_fixed_blocks_on_NVM := []
        rel_variable_blocks_on_NVM := [] } }

/-- A chunk as `palloc` may hand it out: the bytes of `rb_size` hold `7`. -/
def staleChunk : RelationBlockData := { zeroedChunk with rb_size := 7 }

/-! ## Block identity -/

/-- The fields of a block that no function of `relblock_fixed.c` assigns once
the block has been appended to a list: its type, its backend, its size and its
column-group regions. -/
def RelationBlockData.shape (relblock : RelationBlockData) :
    RelationBlockType × RelationBlockBackend × Nat × List Nat :=
  (relblock.rb_type, relblock.rb_backend, relblock.rb_size,
    relblock.rb_cg_locations)

/-- The list in which the block at position `pos`, when there is one, is
replaced by `f` of that block; every other position holds the block it held,
and no position is added, removed or moved. -/
def updateAt (f : RelationBlockData → RelationBlockData) :
    List RelationBlockData → Nat → List RelationBlockData
  | [], _ => []
  | relblock :: rest, 0 => f relblock :: rest
  | relblock :: rest, pos + 1 => relblock :: updateAt f rest pos

/-- A relation whose VM fixed-block list holds one block of two slots with
slot `0` occupied. -/
def oneBlockRelation : RelationData :=
  { rd_relblock_info :=
      { rel_column_groups := []
        rel_fixed_blocks_on_VM := [blockOneOfTwo]
        rel_variable_blocks_on_VM := []
        rel_fixed_blocks_on_NVM := []
        rel_variable_blocks_on_NVM := [] } }

/-! ## Slot references -/

/-- Successive calls `GetFixedLengthSlot(relation, backend)` as in `claimSlots`,
recording for each call the position of the block that
`GetFixedLengthBlockWithFreeSlot` selected or created together with the value
the call returned.  The position is known inside `GetFixedLengthSlot` only; it
is not part of what the call returns. -/
def claimSlotRefs (N : Nat) (raws : Nat → RelationBlockData)
    (relblockbackend : RelationBlockBackend) :
    Nat → RelationData → Except ElogError (List (Nat × Int)) × RelationData
  | 0, relation => (.ok [], relation)
  | n + 1, relation =>
    match claimSlotRefs N raws relblockbackend n relation with
    | (.error e, relation1) => (.error e, relation1)
    | (.ok refs, relation1) =>
      match (GetFixedLengthBlockWithFreeSlot N (raws n) relation1
          relblockbackend).1,
        GetFixedLengthSlot N (raws n) relation1 relblockbackend with
      | .ok (pos, _), (.ok relblock_offset, relation2) =>
        (.ok (refs ++ [(pos, relblock_offset)]), relation2)
      | .error e, (_, relation2) => (.error e, relation2)
      | .ok _, (.error e, relation2) => (.error e, relation2)

/-- The slot at index `ref.2` of the block at position `ref.1` of a list is
occupied. -/
def SlotOccupied (blocks : List RelationBlockData) (ref : Nat × Int) : Prop :=
  ∃ relblock, blocks[ref.1]? = some relblock ∧ 0 ≤ ref.2 ∧
    relblock.rb_slotmap[ref.2.toNat]? = some true

/-! ## Index keys (`index.cpp`)

A shallow embedding of `Index::Compare` and `Index::SetLowerBoundTuple` of
`src/backend/index/index.cpp`.

* The classes `Value`, `storage::Tuple` and `catalog::Schema` are declared
  outside the source files.  Values are the elements of a type parameter
  `Value`; `lhs.Compare(rhs)` is a parameter `cmp`, `Value::GetMinValue` a
  parameter `GetMinValue`.
* An `oid_t` is a natural number.
* `operator[]` of `std::vector` past the end of the vector is undefined
  behaviour; a function that performs such a read ends with
  `IndexFault.outOfRange`.
-/

/-- Expression types (`ExpressionType`): the six comparisons that
`index.cpp` names; `other` stands for every other enumeration value. -/
inductive ExpressionType where
  | EXPRESSION_TYPE_COMPARE_EQ
  | EXPRESSION_TYPE_COMPARE_NE
  | EXPRESSION_TYPE_COMPARE_LT
  | EXPRESSION_TYPE_COMPARE_GT
  | EXPRESSION_TYPE_COMPARE_LTE
  | EXPRESSION_TYPE_COMPARE_GTE
  | other (code : Nat)
  deriving DecidableEq, Repr

/-- The `int` returned by `Value::Compare`, read against the three macros
`Index::Compare` tests it with; `other` stands for every other integer. -/
inductive ValueCompare where
  | VALUE_COMPARE_EQUAL
  | VALUE_COMPARE_LESSTHAN
  | VALUE_COMPARE_GREATERTHAN
  | other (code : Int)
  deriving DecidableEq, Repr

/-- The ways a function of `index.cpp` ends without returning. -/
inductive IndexFault where
  /-- Thrown by `Index::Compare`: "Unsupported expression type : ", with the
  expression type. -/
  | IndexException (expr_type : ExpressionType)
  /-- A read past the end of a vector. -/
  | outOfRange
  deriving DecidableEq, Repr

/-- The part of `catalog::Schema` that `index.cpp` uses: `GetColumnCount()` and
`GetType(column)`. -/
structure Schema (ValueType : Type) where
  column_count : Nat
  column_type : Nat → ValueType

/-- The part of `storage::Tuple` that `index.cpp` uses: `GetSchema()`, and the
value of each column, read by `GetValue(column)` and stored by
`SetValue(column, value)`. -/
structure Tuple (Value ValueType : Type) where
  schema : Schema ValueType
  data : Nat → Value

/-- Reading `tuple.GetValue(column_id)`. -/
def Tuple.GetValue {Value ValueType : Type} (tuple : Tuple Value ValueType)
    (column_id : Nat) : Value :=
  tuple.data column_id

/-- The tuple after `tuple->SetValue(column_id, value)`. -/
def Tuple.SetValue {Value ValueType : Type} (tuple : Tuple Value ValueType)
    (column_id : Nat) (value : Value) : Tuple Value ValueType :=
  { tuple with data := fun c => if c = column_id then value else tuple.data c }

/-- What one iteration of the loop of `Index::Compare` does after the
comparison. -/
inductive CompareStep where
  | next
  | returnFalse
  | throwUnsupported
  deriving DecidableEq, Repr

/-- The `if` chain on `diff` and its three `switch` statements (lines 40-87 of
`index.cpp`).  A `diff` that is none of the three macros enters no branch and
the loop goes on. -/
def compareSwitch (diff : ValueCompare) (expr_type : ExpressionType) :
    CompareStep :=
  match diff with
  | .VALUE_COMPARE_EQUAL =>
    match expr_type with
    | .EXPRESSION_TYPE_COMPARE_EQ => .next
    | .EXPRESSION_TYPE_COMPARE_LTE => .next
    | .EXPRESSION_TYPE_COMPARE_GTE => .next
    | .EXPRESSION_TYPE_COMPARE_NE => .returnFalse
    | .EXPRESSION_TYPE_COMPARE_LT => .returnFalse
    | .EXPRESSION_TYPE_COMPARE_GT => .returnFalse
    | .other _ => .throwUnsupported
  | .VALUE_COMPARE_LESSTHAN =>
    match expr_type with
    | .EXPRESSION_TYPE_COMPARE_NE => .next
    | .EXPRESSION_TYPE_COMPARE_LT => .next
    | .EXPRESSION_TYPE_COMPARE_LTE => .next
    | .EXPRESSION_TYPE_COMPARE_EQ => .returnFalse
    | .EXPRESSION_TYPE_COMPARE_GT => .returnFalse
    | .EXPRESSION_TYPE_COMPARE_GTE => .returnFalse
    | .other _ => .throwUnsupported
  | .VALUE_COMPARE_GREATERTHAN =>
    match expr_type with
    | .EXPRESSION_TYPE_COMPARE_NE => .next
    | .EXPRESSION_TYPE_COMPARE_GT => .next
    | .EXPRESSION_TYPE_COMPARE_GTE => .next
    | .EXPRESSION_TYPE_COMPARE_EQ => .returnFalse
    | .EXPRESSION_TYPE_COMPARE_LT => .returnFalse
    | .EXPRESSION_TYPE_COMPARE_LTE => .returnFalse
    | .other _ => .throwUnsupported
  | .other _ => .next

/-- The `for` loop of `Index::Compare` (lines 31-89) over the column ids still
to visit, `key_column_itr` being the position of the first of them. -/
def Index.compareLoop {Value ValueType : Type}
    (cmp : Value → Value → ValueCompare) (index_key : Tuple Value ValueType)
    (expr_types : List ExpressionType) (values : List Value) :
    List Nat → Nat → Except IndexFault Bool
  | [], _ => .ok true
  | column_itr :: rest, key_column_itr =>
    match values[key_column_itr]?, expr_types[key_column_itr]? with
    | some rhs, some expr_type =>
      let lhs := index_key.GetValue column_itr
      let diff := cmp lhs rhs
      match compareSwitch diff expr_type with
      | .next =>
        Index.compareLoop cmp index_key expr_types values rest
          (key_column_itr + 1)
      | .returnFalse => .ok false
      | .throwUnsupported => .error (.IndexException expr_type)
    | _, _ => .error .outOfRange

/-- Source function `Index::Compare` (lines 23-92). -/
def Index.Compare {Value ValueType : Type}
    (cmp : Value → Value → ValueCompare) (index_key : Tuple Value ValueType)
    (key_column_ids : List Nat) (expr_types : List ExpressionType)
    (values : List Value) : Except IndexFault Bool :=
  Index.compareLoop cmp index_key expr_types values key_column_ids 0

/-- The offset `std::distance(begin, std::find(begin, end, column_itr))`
(lines 107 and 113): the position of the first element equal to `column_itr`,
or the size of the vector when `std::find` returns `end`. -/
def findDistance : List Nat → Nat → Nat
  | [], _ => 0
  | column_id :: rest, column_itr =>
    if column_id = column_itr then 0 else findDistance rest column_itr + 1

/-- The `for` loop of `Index::SetLowerBoundTuple` (lines 105-134).  The first
argument bounds the number of iterations still to run; the loop starts with
`col_count` of them. -/
def Index.lowerBoundLoop {Value ValueType : Type}
    (GetMinValue : ValueType → Value) (schema : Schema ValueType)
    (values : List Value) (key_column_ids : List Nat)
    (expr_types : List ExpressionType) :
    Nat → Nat → Bool → Tuple Value ValueType →
      Except IndexFault (Bool × Tuple Value ValueType)
  | 0, _, all_equal, index_key => .ok (all_equal, index_key)
  | fuel + 1, column_itr, all_equal, index_key =>
    if column_itr < schema.column_count then
      let offset := findDistance key_column_ids column_itr
      if offset ≠ key_column_ids.length then
        match expr_types[offset]? with
        | none => .error .outOfRange
        | some expr_type =>
          if expr_type = .EXPRESSION_TYPE_COMPARE_EQ then
            match values[offset]? with
            | none => .error .outOfRange
            | some value =>
              Index.lowerBoundLoop GetMinValue schema values key_column_ids
                expr_types fuel (column_itr + 1) all_equal
                (index_key.SetValue column_itr value)
          else
            Index.lowerBoundLoop GetMinValue schema values key_column_ids
              expr_types fuel (column_itr + 1) false
              (index_key.SetValue column_itr
                (GetMinValue (schema.column_type column_itr)))
      else
        Index.lowerBoundLoop GetMinValue schema values key_column_ids
          expr_types fuel (column_itr + 1) all_equal
          (index_key.SetValue column_itr
            (GetMinValue (schema.column_type column_itr)))
    else .ok (all_equal, index_key)

/-- Source function `Index::SetLowerBoundTuple` (lines 94-141): the returned
`bool` and the key tuple as the call leaves it. -/
def Index.SetLowerBoundTuple {Value ValueType : Type}
    (GetMinValue : ValueType → Value) (index_key : Tuple Value ValueType)
    (values : List Value) (key_column_ids : List Nat)
    (expr_types : List ExpressionType) :
    Except IndexFault (Bool × Tuple Value ValueType) :=
  let schema := index_key.schema
  let col_count := schema.column_count
  match Index.lowerBoundLoop GetMinValue schema values key_column_ids
      expr_types col_count 0 true index_key with
  | .error e => .error e
  | .ok (all_equal, index_key1) =>
    if col_count > values.length then .ok (false, index_key1)
    else .ok (all_equal, index_key1)

/-! ### Vocabulary of the claims about index keys -/

/-- The six expression types `Index::Compare` supports. -/
def ExpressionType.IsComparison (expr_type : ExpressionType) : Prop :=
  ∀ code, expr_type ≠ .other code

instance (expr_type : ExpressionType) : Decidable expr_type.IsComparison := by
  cases expr_type
  case other code => exact isFalse (fun h => h code rfl)
  all_goals exact isTrue (fun code h => by cases h)

/-- The comparison yields one of `VALUE_COMPARE_EQUAL`,
`VALUE_COMPARE_LESSTHAN`, `VALUE_COMPARE_GREATERTHAN`. -/
def ValueCompare.IsOrdering (diff : ValueCompare) : Prop :=
  diff = .VALUE_COMPARE_EQUAL ∨ diff = .VALUE_COMPARE_LESSTHAN ∨
    diff = .VALUE_COMPARE_GREATERTHAN

instance (diff : ValueCompare) : Decidable diff.IsOrdering := by
  unfold ValueCompare.IsOrdering; infer_instance

/-- The left value stands in the relation named by the expression type to the
right value, `diff` being the comparison of the left value with the right
one: equal for EQ, less or greater for NE, less for LT, less or equal for LTE,
greater for GT, greater or equal for GTE.  No relation is named by another
expression type. -/
def ExpressionType.Holds (expr_type : ExpressionType) (diff : ValueCompare) :
    Prop :=
  match expr_type with
  | .EXPRESSION_TYPE_COMPARE_EQ => diff = .VALUE_COMPARE_EQUAL
  | .EXPRESSION_TYPE_COMPARE_NE =>
    diff = .VALUE_COMPARE_LESSTHAN ∨ diff = .VALUE_COMPARE_GREATERTHAN
  | .EXPRESSION_TYPE_COMPARE_LT => diff = .VALUE_COMPARE_LESSTHAN
  | .EXPRESSION_TYPE_COMPARE_LTE =>
    diff = .VALUE_COMPARE_LESSTHAN ∨ diff = .VALUE_COMPARE_EQUAL
  | .EXPRESSION_TYPE_COMPARE_GT => diff = .VALUE_COMPARE_GREATERTHAN
  | .EXPRESSION_TYPE_COMPARE_GTE =>
    diff = .VALUE_COMPARE_GREATERTHAN ∨ diff = .VALUE_COMPARE_EQUAL
  | .other _ => False

instance (expr_type : ExpressionType) (diff : ValueCompare) :
    Decidable (expr_type.Holds diff) := by
  cases expr_type <;> unfold ExpressionType.Holds <;> infer_instance

/-- At position `i` the value of the key at column `key_column_ids[i]` stands
in relation `expr_types[i]` to `values[i]`. -/
def HoldsAt {Value ValueType : Type} (cmp : Value → Value → ValueCompare)
    (index_key : Tuple Value ValueType) (key_column_ids : List Nat)
    (expr_types : List ExpressionType) (values : List Value) (i : Nat) : Prop :=
  ∃ (column_id : Nat) (expr_type : ExpressionType) (rhs : Value),
    key_column_ids[i]? = some column_id ∧
    expr_types[i]? = some expr_type ∧ values[i]? = some rhs ∧
    expr_type.Holds (cmp (index_key.GetValue column_id) rhs)

/-- Every comparison `Index::Compare` makes yields one of the three
orderings. -/
def ComparesAsOrdering {Value ValueType : Type}
    (cmp : Value → Value → ValueCompare) (index_key : Tuple Value ValueType)
    (key_column_ids : List Nat) (values : List Value) : Prop :=
  ∀ (i column_id : Nat) (rhs : Value), key_column_ids[i]? = some column_id →
    values[i]? = some rhs → (cmp (index_key.GetValue column_id) rhs).IsOrdering

/-- At position `i` the comparison of the value of the key at column
`key_column_ids[i]` with `values[i]` yields none of `VALUE_COMPARE_EQUAL`,
`VALUE_COMPARE_LESSTHAN`, `VALUE_COMPARE_GREATERTHAN`. -/
def SkippedAt {Value ValueType : Type} (cmp : Value → Value → ValueCompare)
    (index_key : Tuple Value ValueType) (key_column_ids : List Nat)
    (values : List Value) (i : Nat) : Prop :=
  ∃ (column_id : Nat) (rhs : Value), key_column_ids[i]? = some column_id ∧
    values[i]? = some rhs ∧
    ¬ (cmp (index_key.GetValue column_id) rhs).IsOrdering

/-- Position `offset` is the first occurrence of `column_id` in the list. -/
def IsFirstOccurrence (key_column_ids : List Nat) (column_id offset : Nat) :
    Prop :=
  key_column_ids[offset]? = some column_id ∧
    ∀ j : Nat, j < offset → key_column_ids[j]? ≠ some column_id

/-! ### Sample keys -/

/-- Comparison of integers. -/
def compareInt (lhs rhs : Int) : ValueCompare :=
  if lhs = rhs then .VALUE_COMPARE_EQUAL
  else if lhs < rhs then .VALUE_COMPARE_LESSTHAN
  else .VALUE_COMPARE_GREATERTHAN

/-- Comparison of integers that may be null: a comparison with a null value
yields `-2`, which is none of the three macros. -/
def compareNullable : Option Int → Option Int → ValueCompare
  | some lhs, some rhs => compareInt lhs rhs
  | _, _ => .other (-2)

/-- A key of two nullable integer columns holding null and `8`. -/
def nullableKey : Tuple (Option Int) Unit :=
  { schema := { column_count := 2, column_type := fun _ => () }
    data := fun c => if c = 0 then none else some 8 }

/-- Minimum value of the sample column type. -/
def sampleMinValue (_ : Unit) : Int := -1000

/-- A key of two integer columns holding `3` and `8`. -/
def sampleKey : Tuple Int Unit :=
  { schema := { column_count := 2, column_type := fun _ => () }
    data := fun c => if c = 0 then 3 else 8 }

/-- Column `column_id` does not make `Index::SetLowerBoundTuple` clear
`all_equal`: `std::find` returns `end` for it, or the expression type at the
offset found is EQ. -/
def EqOrAbsentAt (key_column_ids : List Nat) (expr_types : List ExpressionType)
    (column_id : Nat) : Prop :=
  findDistance key_column_ids column_id = key_column_ids.length ∨
    expr_types[findDistance key_column_ids column_id]? =
      some .EXPRESSION_TYPE_COMPARE_EQ

/-- The value stored in column `column_id` by one iteration of the loop of
`Index::SetLowerBoundTuple` is `value`. -/
def LowerBoundCell {Value ValueType : Type} (GetMinValue : ValueType → Value)
    (schema : Schema ValueType) (values : List Value)
    (key_column_ids : List Nat) (expr_types : List ExpressionType)
    (column_id : Nat) (value : Value) : Prop :=
  (findDistance key_column_ids column_id ≠ key_column_ids.length ∧
    expr_types[findDistance key_column_ids column_id]? =
      some .EXPRESSION_TYPE_COMPARE_EQ ∧
    values[findDistance key_column_ids column_id]? = some value) ∨
  (¬ (findDistance key_column_ids column_id ≠ key_column_ids.length ∧
      expr_types[findDistance key_column_ids column_id]? =
        some .EXPRESSION_TYPE_COMPARE_EQ) ∧
    value = GetMinValue (schema.column_type column_id))

/-! ## Slot maps -/

theorem getElem?_set_self_of_lt (slotmap : List Bool) (i : Nat) (v : Bool)
    (h : i < slotmap.length) : (slotmap.set i v)[i]? = some v := by
  simp [h]

theorem getElem?_set_of_ne (slotmap : List Bool) (i j : Nat) (v : Bool)
    (h : j ≠ i) : (slotmap.set i v)[j]? = slotmap[j]? := by
  simp [List.getElem?_set, h.symm]

theorem set_eq_self_of_getElem? (slotmap : List Bool) (i : Nat) (v : Bool)
    (h : slotmap[i]? = some v) : slotmap.set i v = slotmap := by
  induction slotmap generalizing i with
  | nil => simp
  | cons a t ih =>
    cases i with
    | zero => simp at h; subst h; simp
    | succ k => simp at h; simp [ih k h]

theorem freeEntries_set_false_of_true (slotmap : List Bool) (i : Nat)
    (h : slotmap[i]? = some true) :
    freeEntries (slotmap.set i false) = freeEntries slotmap + 1 := by
  unfold freeEntries
  induction slotmap generalizing i with
  | nil => simp at h
  | cons a t ih =>
    cases i with
    | zero => simp at h; subst h; simp
    | succ k =>
      simp at h
      simp [List.count_cons, ih k h]
      omega

theorem freeEntries_set_true_of_false (slotmap : List Bool) (i : Nat)
    (h : slotmap[i]? = some false) :
    freeEntries (slotmap.set i true) + 1 = freeEntries slotmap := by
  unfold freeEntries
  induction slotmap generalizing i with
  | nil => simp at h
  | cons a t ih =>
    cases i with
    | zero => simp at h; subst h; simp
    | succ k =>
      simp at h
      have := ih k h
      simp [List.count_cons]
      omega

theorem freeEntries_replicate_false (N : Nat) :
    freeEntries (List.replicate N false) = N := by
  simp [freeEntries, List.count_replicate]

theorem freeEntries_set_false_le (slotmap : List Bool) (i : Nat) :
    freeEntries (slotmap.set i false) ≤ freeEntries slotmap + 1 := by
  by_cases hlt : i < slotmap.length
  · have hsome : slotmap[i]? = some slotmap[i] := by simp [hlt]
    cases hv : slotmap[i] with
    | true =>
      rw [hv] at hsome
      rw [freeEntries_set_false_of_true slotmap i hsome]
    | false =>
      rw [hv] at hsome
      rw [set_eq_self_of_getElem? slotmap i false hsome]
      omega
  · rw [List.set_eq_of_length_le (by omega)]
    omega

/-- An entry that is `false` makes the count of free entries positive. -/
theorem freeEntries_pos_of_getElem? (slotmap : List Bool) (i : Nat)
    (h : slotmap[i]? = some false) : 0 < freeEntries slotmap := by
  unfold freeEntries
  rw [List.count_pos_iff]
  obtain ⟨hlt, hget⟩ := List.getElem?_eq_some.mp h
  exact hget ▸ List.getElem_mem hlt

/-- A slot map with a free entry has one at some index. -/
theorem exists_getElem?_of_freeEntries_pos (slotmap : List Bool)
    (h : 0 < freeEntries slotmap) : ∃ i : Nat, slotmap[i]? = some false := by
  unfold freeEntries at h
  rw [List.count_pos_iff] at h
  obtain ⟨i, hi, hget⟩ := List.getElem_of_mem h
  exact ⟨i, by simp [hi, hget]⟩

/-! ## The scan of `GetFixedLengthSlotInBlock` -/

/-- What the scan loop computes when it is given the iterations it needs:
started at `slot_itr` with `N - slot_itr` iterations, it stops at an index in
`[slot_itr, N]`, no entry it passed was `false`, and it stops below `N` only at
an entry that is `false`. -/
theorem slotScan_spec (N : Nat) (slotmap : List Bool) :
    ∀ fuel slot_itr : Nat, slot_itr + fuel = N →
      slot_itr ≤ slotScan N slotmap fuel slot_itr ∧
      slotScan N slotmap fuel slot_itr ≤ N ∧
      (∀ j, slot_itr ≤ j → j < slotScan N slotmap fuel slot_itr →
        slotmap[j]? ≠ some false) ∧
      (slotScan N slotmap fuel slot_itr < N →
        slotmap[slotScan N slotmap fuel slot_itr]? = some false) := by
  intro fuel
  induction fuel with
  | zero =>
    intro slot_itr h
    simp only [slotScan]
    refine ⟨le_refl _, by omega, ?_, ?_⟩
    · intro j h1 h2; omega
    · intro h1; omega
  | succ fuel ih =>
    intro slot_itr h
    have hlt : slot_itr < N := by omega
    simp only [slotScan, hlt, if_true]
    by_cases hf : slotmap[slot_itr]? = some false
    · simp only [hf, if_true]
      refine ⟨le_refl _, by omega, ?_, fun _ => trivial⟩
      intro j h1 h2; omega
    · simp only [hf, if_false]
      obtain ⟨h1, h2, h3, h4⟩ := ih (slot_itr + 1) (by omega)
      refine ⟨by omega, h2, ?_, h4⟩
      intro j hj1 hj2
      by_cases hj : j = slot_itr
      · subst hj; exact hf
      · exact h3 j (by omega) hj2

/-- The scan stops at the first free entry. -/
theorem slotScan_eq_first_free (N : Nat) (slotmap : List Bool) (i : Nat)
    (hi : i < N) (hfree : slotmap[i]? = some false)
    (hfirst : ∀ j, j < i → slotmap[j]? ≠ some false) :
    slotScan N slotmap N 0 = i := by
  obtain ⟨_, h2, h3, h4⟩ := slotScan_spec N slotmap N 0 (by omega)
  by_contra hne
  rcases Nat.lt_or_gt_of_ne hne with hlt | hgt
  · exact hfirst _ hlt (h4 (by omega))
  · exact h3 i (Nat.zero_le _) hgt hfree

/-- The scan runs to `N` exactly when no entry below `N` is free. -/
theorem slotScan_eq_N_iff (N : Nat) (slotmap : List Bool) :
    slotScan N slotmap N 0 = N ↔ ∀ j, j < N → slotmap[j]? ≠ some false := by
  obtain ⟨_, h2, h3, h4⟩ := slotScan_spec N slotmap N 0 (by omega)
  constructor
  · intro h j hj
    exact h3 j (Nat.zero_le _) (by omega)
  · intro h
    by_contra hne
    have hlt : slotScan N slotmap N 0 < N := by omega
    exact h _ hlt (h4 hlt)

/-! ## Single calls on a block -/

/-- A release with an index below `0` or above `N` is rejected and changes
nothing. -/
theorem release_rejected (N : Nat) (relblock : RelationBlockData) (slot_id : Int)
    (h : slot_id < 0 ∨ (N : Int) < slot_id) :
    ReleaseFixedLengthSlotInBlock N relblock slot_id = (false, relblock) := by
  unfold ReleaseFixedLengthSlotInBlock
  have h2 : slot_id < 0 ∨ slot_id > (N : Int) := h
  simp only [h2, if_true]

/-- A release with an index in `[0, N]` is accepted: this is the state it
leaves. -/
theorem release_accepted (N : Nat) (relblock : RelationBlockData) (slot_id : Int)
    (h0 : 0 ≤ slot_id) (hN : slot_id ≤ (N : Int)) :
    ReleaseFixedLengthSlotInBlock N relblock slot_id =
      (true,
        { relblock with
          rb_slotmap := relblock.rb_slotmap.set slot_id.toNat false
          rb_free_slots := relblock.rb_free_slots + 1
          rb_stray_writes :=
            if slot_id.toNat < relblock.rb_slotmap.length then
              relblock.rb_stray_writes
            else slot_id :: relblock.rb_stray_writes }) := by
  unfold ReleaseFixedLengthSlotInBlock
  have h2 : ¬ (slot_id < 0 ∨ slot_id > (N : Int)) := by omega
  simp only [h2, if_false]

/-- A claim on a block whose count is not `0` and whose map has a free entry
below `N`: the result and the state, in terms of the first free index. -/
theorem claim_of_first_free (N : Nat) (relblock : RelationBlockData) (i : Nat)
    (hcount : relblock.rb_free_slots ≠ 0) (hi : i < N)
    (hfree : relblock.rb_slotmap[i]? = some false)
    (hfirst : ∀ j : Nat, j < i → relblock.rb_slotmap[j]? ≠ some false) :
    GetFixedLengthSlotInBlock N relblock =
      (.ok (i : Int),
        { relblock with
          rb_slotmap := relblock.rb_slotmap.set i true
          rb_free_slots := relblock.rb_free_slots - 1 }) := by
  have hscan := slotScan_eq_first_free N relblock.rb_slotmap i hi hfree hfirst
  unfold GetFixedLengthSlotInBlock
  have hne : i ≠ N := by omega
  simp only [hcount, if_false, hscan, hne]

/-- A claim on a block with no free entry below `N` raises and changes
nothing. -/
theorem claim_raises_of_no_free (N : Nat) (relblock : RelationBlockData)
    (hnone : ∀ j : Nat, j < N → relblock.rb_slotmap[j]? ≠ some false) :
    GetFixedLengthSlotInBlock N relblock = (.error .noFreeSlots, relblock) := by
  have hscan := (slotScan_eq_N_iff N relblock.rb_slotmap).mpr hnone
  unfold GetFixedLengthSlotInBlock
  by_cases hcount : relblock.rb_free_slots = 0
  · simp only [hcount, if_true]
  · simp only [hcount, if_false, hscan, if_true]

/-- Among the indices below `N`, a free entry has a first one. -/
theorem exists_first_free (N : Nat) (slotmap : List Bool)
    (h : ∃ i : Nat, i < N ∧ slotmap[i]? = some false) :
    ∃ i : Nat, i < N ∧ slotmap[i]? = some false ∧
      ∀ j : Nat, j < i → slotmap[j]? ≠ some false := by
  classical
  let P : Nat → Prop := fun i => i < N ∧ slotmap[i]? = some false
  have hP : ∃ i, P i := h
  refine ⟨Nat.find hP, (Nat.find_spec hP).1, (Nat.find_spec hP).2, ?_⟩
  intro j hj hfalse
  have hmin := Nat.find_min hP hj
  exact hmin ⟨lt_trans hj (Nat.find_spec hP).1, hfalse⟩

/-- An accepted claim keeps a consistent block consistent; so does a claim
that raises. -/
theorem claim_consistent (N : Nat) (relblock : RelationBlockData)
    (h : SlotMapConsistent N relblock) :
    SlotMapConsistent N (GetFixedLengthSlotInBlock N relblock).2 := by
  by_cases hex : ∃ i : Nat, i < N ∧ relblock.rb_slotmap[i]? = some false
  · obtain ⟨i, hi, hfree, hfirst⟩ := exists_first_free N _ hex
    have hpos := freeEntries_pos_of_getElem? _ i hfree
    have hcount : relblock.rb_free_slots ≠ 0 := by rw [h.2]; omega
    rw [claim_of_first_free N relblock i hcount hi hfree hfirst]
    refine ⟨by simpa using h.1, ?_⟩
    have hset := freeEntries_set_true_of_false _ i hfree
    simp only
    rw [h.2]
    omega
  · have hnone : ∀ j : Nat, j < N → relblock.rb_slotmap[j]? ≠ some false :=
      fun j hj hf => hex ⟨j, hj, hf⟩
    rw [claim_raises_of_no_free N relblock hnone]
    exact h

/-- A release that names an occupied slot keeps a consistent block
consistent. -/
theorem release_consistent (N : Nat) (relblock : RelationBlockData)
    (slot_id : Int) (h : SlotMapConsistent N relblock)
    (hocc : NamesOccupiedSlot N relblock slot_id) :
    SlotMapConsistent N (ReleaseFixedLengthSlotInBlock N relblock slot_id).2 := by
  obtain ⟨h0, hN, htrue⟩ := hocc
  rw [release_accepted N relblock slot_id h0 (by omega)]
  refine ⟨by simpa using h.1, ?_⟩
  have hset := freeEntries_set_false_of_true _ _ htrue
  simp only
  rw [h.2, hset]
  push_cast
  ring

/-- A disciplined call keeps a consistent block consistent. -/
theorem disciplined_call_consistent (N : Nat) (relblock : RelationBlockData)
    (call : BlockCall) (h : SlotMapConsistent N relblock)
    (hd : call.Disciplined N relblock) :
    SlotMapConsistent N (call.run N relblock) := by
  cases call with
  | claim => exact claim_consistent N relblock h
  | release slot_id =>
    simp only [BlockCall.run]
    rcases hd with hlt | hgt | hocc
    · rw [release_rejected N relblock slot_id (Or.inl hlt)]; exact h
    · rw [release_rejected N relblock slot_id (Or.inr hgt)]; exact h
    · exact release_consistent N relblock slot_id h hocc

/-! ## New blocks -/

/-- The loop over the column groups leaves the fields other than `rb_size`
and `rb_cg_locations` as they are. -/
theorem allocateColumnGroupBlocks_frame (N : Nat)
    (groups : List RelationColumnGroupData) (relblock : RelationBlockData) :
    (allocateColumnGroupBlocks N groups relblock).rb_type = relblock.rb_type ∧
    (allocateColumnGroupBlocks N groups relblock).rb_backend =
      relblock.rb_backend ∧
    (allocateColumnGroupBlocks N groups relblock).rb_slotmap =
      relblock.rb_slotmap ∧
    (allocateColumnGroupBlocks N groups relblock).rb_free_slots =
      relblock.rb_free_slots ∧
    (allocateColumnGroupBlocks N groups relblock).rb_stray_writes =
      relblock.rb_stray_writes := by
  induction groups generalizing relblock with
  | nil => simp [allocateColumnGroupBlocks]
  | cons g rest ih =>
    simp only [allocateColumnGroupBlocks]
    obtain ⟨h1, h2, h3, h4, h5⟩ := ih
      { relblock with
        rb_size := (relblock.rb_size + g.cg_size % SIZE_MODULUS * N % SIZE_MODULUS)
          % SIZE_MODULUS
        rb_cg_locations := relblock.rb_cg_locations ++
          [g.cg_size % SIZE_MODULUS * N % SIZE_MODULUS] }
    exact ⟨h1, h2, h3, h4, h5⟩

/-- A new block has an all-free slot map of `N` entries and a count of `N`. -/
theorem initFixedLengthBlock_slots (N : Nat) (raw : RelationBlockData)
    (groups : List RelationColumnGroupData) (backend : RelationBlockBackend) :
    (initFixedLengthBlock N raw groups backend).rb_slotmap =
      List.replicate N false ∧
    (initFixedLengthBlock N raw groups backend).rb_free_slots = (N : Int) := by
  unfold initFixedLengthBlock
  obtain ⟨_, _, h3, h4, _⟩ := allocateColumnGroupBlocks_frame N groups
    { raw with
      rb_type := .RELATION_FIXED_BLOCK_TYPE
      rb_backend := backend
      rb_slotmap := List.replicate N false
      rb_free_slots := (N : Int)
      rb_stray_writes := [] }
  exact ⟨h3, h4⟩

/-- A new block is consistent. -/
theorem initFixedLengthBlock_consistent (N : Nat) (raw : RelationBlockData)
    (groups : List RelationColumnGroupData) (backend : RelationBlockBackend) :
    SlotMapConsistent N (initFixedLengthBlock N raw groups backend) := by
  obtain ⟨h1, h2⟩ := initFixedLengthBlock_slots N raw groups backend
  refine ⟨by rw [h1]; simp, ?_⟩
  rw [h1, h2, freeEntries_replicate_false]

/-! ## Claims about one block -/

/-- C2: on a block whose `rb_free_slots` is not `0` and whose slot map has a
`false` entry below `N`, `GetFixedLengthSlotInBlock` returns the smallest index
`i` below `N` whose entry is `false`; in the block it leaves, entry `i` is
`true`, `rb_free_slots` is one less, every other entry of the slot map is as
before, and so is every other field. -/
theorem C2_claim_returns_first_free (N : Nat) (relblock : RelationBlockData)
    (hcount : relblock.rb_free_slots ≠ 0)
    (hfree : ∃ i : Nat, i < N ∧ relblock.rb_slotmap[i]? = some false) :
    ∃ i : Nat, i < N ∧ relblock.rb_slotmap[i]? = some false ∧
      (∀ j : Nat, j < i → relblock.rb_slotmap[j]? = some true) ∧
      (GetFixedLengthSlotInBlock N relblock).1 = .ok (i : Int) ∧
      (GetFixedLengthSlotInBlock N relblock).2.rb_slotmap[i]? = some true ∧
      (GetFixedLengthSlotInBlock N relblock).2.rb_free_slots =
        relblock.rb_free_slots - 1 ∧
      (∀ j : Nat, j ≠ i →
        (GetFixedLengthSlotInBlock N relblock).2.rb_slotmap[j]? =
          relblock.rb_slotmap[j]?) ∧
      (GetFixedLengthSlotInBlock N relblock).2 =
        { relblock with
          rb_slotmap := relblock.rb_slotmap.set i true
          rb_free_slots := relblock.rb_free_slots - 1 } := by
  obtain ⟨i, hi, hfalse, hfirst⟩ := exists_first_free N _ hfree
  have hlen : i < relblock.rb_slotmap.length :=
    (List.getElem?_eq_some.mp hfalse).1
  refine ⟨i, hi, hfalse, ?_, ?_⟩
  · intro j hj
    have hjlen : j < relblock.rb_slotmap.length := lt_trans hj hlen
    have hne := hfirst j hj
    rw [List.getElem?_eq_getElem hjlen] at hne ⊢
    cases hv : relblock.rb_slotmap[j] with
    | true => rfl
    | false => rw [hv] at hne; exact absurd rfl hne
  · rw [claim_of_first_free N relblock i hcount hi hfalse hfirst]
    refine ⟨rfl, getElem?_set_self_of_lt _ i true hlen, rfl, ?_, rfl⟩
    intro j hj
    exact getElem?_set_of_ne _ i j true hj

/-- Witness for C2: a block of three slots with slot `0` occupied; the claim
returns index `1`. -/
theorem C2_claim_returns_first_free_witness :
    ∃ i : Nat, i < 3 ∧ blockOneOfThree.rb_slotmap[i]? = some false ∧
      (∀ j : Nat, j < i → blockOneOfThree.rb_slotmap[j]? = some true) ∧
      (GetFixedLengthSlotInBlock 3 blockOneOfThree).1 = .ok (i : Int) ∧
      (GetFixedLengthSlotInBlock 3 blockOneOfThree).2.rb_slotmap[i]? = some true ∧
      (GetFixedLengthSlotInBlock 3 blockOneOfThree).2.rb_free_slots =
        blockOneOfThree.rb_free_slots - 1 ∧
      (∀ j : Nat, j ≠ i →
        (GetFixedLengthSlotInBlock 3 blockOneOfThree).2.rb_slotmap[j]? =
          blockOneOfThree.rb_slotmap[j]?) ∧
      (GetFixedLengthSlotInBlock 3 blockOneOfThree).2 =
        { blockOneOfThree with
          rb_slotmap := blockOneOfThree.rb_slotmap.set i true
          rb_free_slots := blockOneOfThree.rb_free_slots - 1 } :=
  C2_claim_returns_first_free 3 blockOneOfThree (by decide)
    ⟨1, by decide, by decide⟩

/-- C3, at the index `N` itself: on a new block of four slots,
`ReleaseFixedLengthSlotInBlock` with `slot_id = 4` returns `true`, raises
`rb_free_slots` from `4` to `5`, and its store `slotmap[4] = false` falls
outside the four-entry slot map. -/
theorem C3_release_at_capacity_accepted :
    ReleaseFixedLengthSlotInBlock 4
        (initFixedLengthBlock 4 zeroedChunk [] .STORAGE_BACKEND_VM) 4 =
      (true,
        { initFixedLengthBlock 4 zeroedChunk [] .STORAGE_BACKEND_VM with
          rb_free_slots := 5
          rb_stray_writes := [4] }) ∧
    (initFixedLengthBlock 4 zeroedChunk [] .STORAGE_BACKEND_VM).rb_free_slots = 4 ∧
    (initFixedLengthBlock 4 zeroedChunk [] .STORAGE_BACKEND_VM).rb_slotmap.length
      = 4 := by
  decide

/-- The index `N` is accepted by every block: the call returns `true` and adds
one to `rb_free_slots`; when the slot map has `N` entries its store misses the
map. -/
theorem release_at_capacity (N : Nat) (relblock : RelationBlockData) :
    (ReleaseFixedLengthSlotInBlock N relblock (N : Int)).1 = true ∧
    (ReleaseFixedLengthSlotInBlock N relblock (N : Int)).2.rb_free_slots =
      relblock.rb_free_slots + 1 ∧
    (relblock.rb_slotmap.length = N →
      (ReleaseFixedLengthSlotInBlock N relblock (N : Int)).2.rb_slotmap =
        relblock.rb_slotmap ∧
      (ReleaseFixedLengthSlotInBlock N relblock (N : Int)).2.rb_stray_writes =
        (N : Int) :: relblock.rb_stray_writes) := by
  rw [release_accepted N relblock (N : Int) (by omega) (le_refl _)]
  refine ⟨rfl, rfl, ?_⟩
  intro hlen
  simp only [Int.toNat_ofNat, hlen, lt_irrefl, if_false]
  refine ⟨?_, trivial⟩
  rw [List.set_eq_of_length_le (by omega)]

/-- C4 as stated fails: on a new block of two slots, a claim followed by two
releases of slot `0` leaves `rb_free_slots = 3` while the slot map has two
`false` entries. -/
theorem C4_double_release_breaks_count :
    (runBlockCalls 2 [.claim, .release 0, .release 0]
        (initFixedLengthBlock 2 zeroedChunk [] .STORAGE_BACKEND_VM)).rb_free_slots
      = 3 ∧
    freeEntries (runBlockCalls 2 [.claim, .release 0, .release 0]
        (initFixedLengthBlock 2 zeroedChunk [] .STORAGE_BACKEND_VM)).rb_slotmap
      = 2 ∧
    (runBlockCalls 2 [.claim, .release 0, .release 0]
        (initFixedLengthBlock 2 zeroedChunk [] .STORAGE_BACKEND_VM)).rb_slotmap.length
      = 2 := by
  decide

/-- C4, amended: in every block state reached from a new block by a sequence
of claims and releases in which each release names an occupied slot or has an
index below `0` or above `N`, the slot map has `N` entries and `rb_free_slots`
is the number of them that are `false`. -/
theorem C4_count_matches_free_entries (N : Nat) (raw : RelationBlockData)
    (groups : List RelationColumnGroupData) (backend : RelationBlockBackend)
    (calls : List BlockCall)
    (hd : DisciplinedBlockCalls N calls
      (initFixedLengthBlock N raw groups backend)) :
    (runBlockCalls N calls
        (initFixedLengthBlock N raw groups backend)).rb_slotmap.length = N ∧
    (runBlockCalls N calls
        (initFixedLengthBlock N raw groups backend)).rb_free_slots =
      (freeEntries (runBlockCalls N calls
        (initFixedLengthBlock N raw groups backend)).rb_slotmap : Int) := by
  have key : ∀ (calls : List BlockCall) (relblock : RelationBlockData),
      SlotMapConsistent N relblock → DisciplinedBlockCalls N calls relblock →
      SlotMapConsistent N (runBlockCalls N calls relblock) := by
    intro calls
    induction calls with
    | nil => intro relblock h _; exact h
    | cons call rest ih =>
      intro relblock h hdisc
      exact ih _ (disciplined_call_consistent N relblock call h hdisc.1) hdisc.2
  exact key calls _ (initFixedLengthBlock_consistent N raw groups backend) hd

/-- Witness for C4, amended: four slots; two claims, a release of slot `0`, a
claim, and two rejected releases. -/
theorem C4_count_matches_free_entries_witness :
    (runBlockCalls 4
        [.claim, .claim, .release 0, .claim, .release 5, .release (-1)]
        (initFixedLengthBlock 4 zeroedChunk sampleColumnGroups
          .STORAGE_BACKEND_VM)).rb_slotmap.length = 4 ∧
    (runBlockCalls 4
        [.claim, .claim, .release 0, .claim, .release 5, .release (-1)]
        (initFixedLengthBlock 4 zeroedChunk sampleColumnGroups
          .STORAGE_BACKEND_VM)).rb_free_slots =
      (freeEntries (runBlockCalls 4
        [.claim, .claim, .release 0, .claim, .release 5, .release (-1)]
        (initFixedLengthBlock 4 zeroedChunk sampleColumnGroups
          .STORAGE_BACKEND_VM)).rb_slotmap : Int) :=
  C4_count_matches_free_entries 4 zeroedChunk sampleColumnGroups .STORAGE_BACKEND_VM
    [.claim, .claim, .release 0, .claim, .release 5, .release (-1)] (by decide)

/-- C7: on a full block (slot map of `N` entries, all `true`, and
`rb_free_slots = 0`), for an index `i` below `N`,
`ReleaseFixedLengthSlotInBlock(block, i)` is accepted and the
`GetFixedLengthSlotInBlock` that follows returns `i` and leaves the block
exactly as it was before the release. -/
theorem C7_release_then_claim_restores (N : Nat) (relblock : RelationBlockData)
    (i : Nat) (hi : i < N)
    (hfull : relblock.rb_slotmap = List.replicate N true)
    (hcount : relblock.rb_free_slots = 0) :
    (ReleaseFixedLengthSlotInBlock N relblock (i : Int)).1 = true ∧
    GetFixedLengthSlotInBlock N
        (ReleaseFixedLengthSlotInBlock N relblock (i : Int)).2 =
      (.ok (i : Int), relblock) := by
  have hlen : relblock.rb_slotmap.length = N := by rw [hfull]; simp
  rw [release_accepted N relblock (i : Int) (by omega) (by omega)]
  refine ⟨rfl, ?_⟩
  simp only [Int.toNat_ofNat, hlen, hi, if_true]
  have hilen : i < relblock.rb_slotmap.length := by omega
  have hget : ∀ j : Nat, j < N → relblock.rb_slotmap[j]? = some true := by
    intro j hj
    rw [hfull]
    simp [hj]
  rw [claim_of_first_free N _ i (by simp only [hcount]; decide) hi
    (getElem?_set_self_of_lt _ i false hilen)
    (by
      intro j hj
      simp only
      rw [getElem?_set_of_ne _ i j false (by omega), hget j (by omega)]
      simp)]
  simp only [List.set_set, hcount]
  rw [set_eq_self_of_getElem? _ i true (hget i hi)]
  cases relblock
  simp_all

/-- Witness for C7: a full block of three slots, index `1`. -/
theorem C7_release_then_claim_restores_witness :
    (ReleaseFixedLengthSlotInBlock 3 fullBlockOfThree ((1 : Nat) : Int)).1 = true ∧
    GetFixedLengthSlotInBlock 3
        (ReleaseFixedLengthSlotInBlock 3 fullBlockOfThree ((1 : Nat) : Int)).2 =
      (.ok ((1 : Nat) : Int), fullBlockOfThree) :=
  C7_release_then_claim_restores 3 fullBlockOfThree 1 (by decide) rfl rfl

/-- C8: on a block whose `rb_free_slots` is `0`, whatever its slot map holds,
`GetFixedLengthSlotInBlock` raises "No free slots in block", returns no index,
and leaves the block, slot map and count included, as it was. -/
theorem C8_claim_on_zero_count_raises (N : Nat) (relblock : RelationBlockData)
    (hcount : relblock.rb_free_slots = 0) :
    GetFixedLengthSlotInBlock N relblock = (.error .noFreeSlots, relblock) := by
  unfold GetFixedLengthSlotInBlock
  simp only [hcount, if_true]

/-- Witness for C8: a count of `0` over a slot map with free entries. -/
theorem C8_claim_on_zero_count_raises_witness :
    GetFixedLengthSlotInBlock 3 { blockOneOfThree with rb_free_slots := 0 } =
      (.error .noFreeSlots, { blockOneOfThree with rb_free_slots := 0 }) :=
  C8_claim_on_zero_count_raises 3 { blockOneOfThree with rb_free_slots := 0 } rfl

/-- C9: for a block whose slot map has `N` entries and whose count is below
`INT_MAX` (so that `rb_free_slots += 1` does not overflow the `int`), and an
index `i` below `N`, `ReleaseFixedLengthSlotInBlock(block, i)` returns `true`,
leaves entry `i` `false`, adds exactly one to `rb_free_slots` whatever entry
`i` was, and leaves every other entry and the length of the map as they were;
if moreover the second addition does not overflow either and the count was at
least the number of `false` entries before (as it is when the slot was claimed
in a consistent block), then after releasing `i` twice the count is strictly
greater than the number of `false` entries. -/
theorem C9_release_in_range (N : Nat) (relblock : RelationBlockData) (i : Nat)
    (hi : i < N) (hlen : relblock.rb_slotmap.length = N)
    (hmax : relblock.rb_free_slots < INT_MAX) :
    (ReleaseFixedLengthSlotInBlock N relblock (i : Int)).1 = true ∧
    (ReleaseFixedLengthSlotInBlock N relblock (i : Int)).2.rb_slotmap[i]? =
      some false ∧
    (ReleaseFixedLengthSlotInBlock N relblock (i : Int)).2.rb_free_slots =
      relblock.rb_free_slots + 1 ∧
    (ReleaseFixedLengthSlotInBlock N relblock (i : Int)).2.rb_free_slots ≤
      INT_MAX ∧
    (∀ j : Nat, j ≠ i →
      (ReleaseFixedLengthSlotInBlock N relblock (i : Int)).2.rb_slotmap[j]? =
        relblock.rb_slotmap[j]?) ∧
    (ReleaseFixedLengthSlotInBlock N relblock (i : Int)).2.rb_slotmap.length = N ∧
    (relblock.rb_free_slots + 1 < INT_MAX →
      (freeEntries relblock.rb_slotmap : Int) ≤ relblock.rb_free_slots →
      (ReleaseFixedLengthSlotInBlock N
          (ReleaseFixedLengthSlotInBlock N relblock (i : Int)).2
          (i : Int)).2.rb_free_slots = relblock.rb_free_slots + 2 ∧
      (ReleaseFixedLengthSlotInBlock N
          (ReleaseFixedLengthSlotInBlock N relblock (i : Int)).2
          (i : Int)).2.rb_free_slots ≤ INT_MAX ∧
      (freeEntries (ReleaseFixedLengthSlotInBlock N
          (ReleaseFixedLengthSlotInBlock N relblock (i : Int)).2
          (i : Int)).2.rb_slotmap : Int) <
        (ReleaseFixedLengthSlotInBlock N
          (ReleaseFixedLengthSlotInBlock N relblock (i : Int)).2
          (i : Int)).2.rb_free_slots) := by
  have hilen : i < relblock.rb_slotmap.length := by omega
  rw [release_accepted N relblock (i : Int) (by omega) (by omega)]
  rw [release_accepted N _ (i : Int) (by omega) (by omega)]
  simp only [Int.toNat_ofNat, List.set_set, List.length_set]
  refine ⟨trivial, getElem?_set_self_of_lt _ i false hilen, trivial, by omega,
    ?_, hlen, ?_⟩
  · intro j hj
    exact getElem?_set_of_ne _ i j false hj
  · intro hmax2 hle
    have hbound := freeEntries_set_false_le relblock.rb_slotmap i
    refine ⟨by omega, by omega, by omega⟩

/-- Witness for C9: slot `0` of a consistent block of two slots with count
`1`, claimed before, released twice: the count becomes `2`, then `3`, with two
`false` entries. -/
theorem C9_release_in_range_witness :
    (ReleaseFixedLengthSlotInBlock 2 blockOneOfTwo ((0 : Nat) : Int)).1 = true ∧
    (ReleaseFixedLengthSlotInBlock 2 blockOneOfTwo
      ((0 : Nat) : Int)).2.rb_slotmap[0]? = some false ∧
    (ReleaseFixedLengthSlotInBlock 2 blockOneOfTwo
      ((0 : Nat) : Int)).2.rb_free_slots = blockOneOfTwo.rb_free_slots + 1 ∧
    (ReleaseFixedLengthSlotInBlock 2 blockOneOfTwo
      ((0 : Nat) : Int)).2.rb_free_slots ≤ INT_MAX ∧
    (∀ j : Nat, j ≠ 0 →
      (ReleaseFixedLengthSlotInBlock 2 blockOneOfTwo
        ((0 : Nat) : Int)).2.rb_slotmap[j]? = blockOneOfTwo.rb_slotmap[j]?) ∧
    (ReleaseFixedLengthSlotInBlock 2 blockOneOfTwo
      ((0 : Nat) : Int)).2.rb_slotmap.length = 2 ∧
    (blockOneOfTwo.rb_free_slots + 1 < INT_MAX →
      (freeEntries blockOneOfTwo.rb_slotmap : Int) ≤ blockOneOfTwo.rb_free_slots →
      (ReleaseFixedLengthSlotInBlock 2
          (ReleaseFixedLengthSlotInBlock 2 blockOneOfTwo ((0 : Nat) : Int)).2
          ((0 : Nat) : Int)).2.rb_free_slots = blockOneOfTwo.rb_free_slots + 2 ∧
      (ReleaseFixedLengthSlotInBlock 2
          (ReleaseFixedLengthSlotInBlock 2 blockOneOfTwo ((0 : Nat) : Int)).2
          ((0 : Nat) : Int)).2.rb_free_slots ≤ INT_MAX ∧
      (freeEntries (ReleaseFixedLengthSlotInBlock 2
          (ReleaseFixedLengthSlotInBlock 2 blockOneOfTwo ((0 : Nat) : Int)).2
          ((0 : Nat) : Int)).2.rb_slotmap : Int) <
        (ReleaseFixedLengthSlotInBlock 2
          (ReleaseFixedLengthSlotInBlock 2 blockOneOfTwo ((0 : Nat) : Int)).2
          ((0 : Nat) : Int)).2.rb_free_slots) :=
  C9_release_in_range 2 blockOneOfTwo 0 (by decide) rfl (by decide)

/-! ## Block lists -/

theorem deref_assign (p q : BlockListPtr) (relation : RelationData)
    (blocks : List RelationBlockData) :
    p.deref (q.assign relation blocks) =
      if p = q then blocks else p.deref relation := by
  cases p <;> cases q <;> rfl

theorem assign_assign (p : BlockListPtr) (relation : RelationData)
    (blocks1 blocks2 : List RelationBlockData) :
    p.assign (p.assign relation blocks1) blocks2 = p.assign relation blocks2 := by
  cases p <;> rfl

theorem assign_deref (p : BlockListPtr) (relation : RelationData) :
    p.assign relation (p.deref relation) = relation := by
  cases p <;> rfl

theorem column_groups_assign (p : BlockListPtr) (relation : RelationData)
    (blocks : List RelationBlockData) :
    (p.assign relation blocks).rd_relblock_info.rel_column_groups =
      relation.rd_relblock_info.rel_column_groups := by
  cases p <;> rfl

/-- A backend with block lists has its fixed-block list selected without a
raise, and only such a backend has. -/
theorem GetRelationBlockList_fixed_of_tier (backend : RelationBlockBackend)
    (htier : backend.IsTier) :
    ∃ p, GetRelationBlockList backend .RELATION_FIXED_BLOCK_TYPE = .ok p ∧
      (p = .fixed_VM ∨ p = .fixed_NVM) := by
  rcases htier with h | h <;> subst h
  · exact ⟨.fixed_VM, rfl, Or.inl rfl⟩
  · exact ⟨.fixed_NVM, rfl, Or.inr rfl⟩

theorem fixedBlocks_of_ptr (relation : RelationData)
    (backend : RelationBlockBackend) (p : BlockListPtr)
    (h : GetRelationBlockList backend .RELATION_FIXED_BLOCK_TYPE = .ok p) :
    fixedBlocks relation backend = p.deref relation := by
  unfold fixedBlocks
  rw [h]

theorem set_length_append (blocks : List RelationBlockData)
    (relblock relblock1 : RelationBlockData) :
    (blocks ++ [relblock]).set blocks.length relblock1 = blocks ++ [relblock1] := by
  induction blocks with
  | nil => rfl
  | cons b rest ih => simp [ih]

/-- What the search loop returns: a block whose count is not `0`, at its
position, every block before it having count `0`. -/
theorem findBlockWithFreeSlot_some (blocks : List RelationBlockData) :
    ∀ (start pos : Nat) (relblock : RelationBlockData),
      findBlockWithFreeSlot blocks start = some (pos, relblock) →
      start ≤ pos ∧ blocks[pos - start]? = some relblock ∧
        relblock.rb_free_slots ≠ 0 ∧
        ∀ (j : Nat) (b : RelationBlockData), j < pos - start →
          blocks[j]? = some b → b.rb_free_slots = 0 := by
  induction blocks with
  | nil => intro start pos relblock h; simp [findBlockWithFreeSlot] at h
  | cons b rest ih =>
    intro start pos relblock h
    simp only [findBlockWithFreeSlot] at h
    by_cases hb : b.rb_free_slots = 0
    · simp only [hb, ne_eq, not_true_eq_false, if_false] at h
      obtain ⟨h1, h2, h3, h4⟩ := ih (start + 1) pos relblock h
      have hpos : pos - start = (pos - (start + 1)) + 1 := by omega
      refine ⟨by omega, ?_, h3, ?_⟩
      · rw [hpos]; simpa using h2
      · intro j b1 hj hget
        cases j with
        | zero => simp at hget; subst hget; exact hb
        | succ j => exact h4 j b1 (by omega) (by simpa using hget)
    · simp only [ne_eq, hb, not_false_eq_true, if_true, Option.some.injEq,
        Prod.mk.injEq] at h
      obtain ⟨h1, h2⟩ := h
      subst h1 h2
      refine ⟨le_refl _, by simp, hb, ?_⟩
      intro j b1 hj; omega

/-- The search loop finds nothing exactly when every block has count `0`. -/
theorem findBlockWithFreeSlot_none (blocks : List RelationBlockData) :
    ∀ start : Nat, findBlockWithFreeSlot blocks start = none ↔
      ∀ b ∈ blocks, b.rb_free_slots = 0 := by
  induction blocks with
  | nil => intro start; simp [findBlockWithFreeSlot]
  | cons b rest ih =>
    intro start
    simp only [findBlockWithFreeSlot]
    by_cases hb : b.rb_free_slots = 0
    · simp only [hb, ne_eq, not_true_eq_false, if_false, ih (start + 1)]
      simp [hb]
    · simp [hb]

/-- Function `GetFixedLengthBlockWithFreeSlot` in terms of the search loop:
the empty list is the case where the loop finds nothing. -/
theorem GetFixedLengthBlockWithFreeSlot_eq (N : Nat) (raw : RelationBlockData)
    (relation : RelationData) (backend : RelationBlockBackend)
    (p : BlockListPtr)
    (h : GetRelationBlockList backend .RELATION_FIXED_BLOCK_TYPE = .ok p) :
    GetFixedLengthBlockWithFreeSlot N raw relation backend =
      match findBlockWithFreeSlot (p.deref relation) 0 with
      | some found => (.ok found, relation)
      | none =>
        (.ok ((p.deref relation).length,
            initFixedLengthBlock N raw
              relation.rd_relblock_info.rel_column_groups backend),
          p.assign relation (p.deref relation ++
            [initFixedLengthBlock N raw
              relation.rd_relblock_info.rel_column_groups backend])) := by
  unfold GetFixedLengthBlockWithFreeSlot RelationAllocateFixedLengthBlock
  simp only [h]
  by_cases hnil : p.deref relation = []
  · simp only [hnil, if_true, findBlockWithFreeSlot]
  · simp only [hnil, if_false]

/-- Function `GetFixedLengthSlot` in terms of the search loop and of the claim
on the block that is selected or created. -/
theorem GetFixedLengthSlot_eq (N : Nat) (raw : RelationBlockData)
    (relation : RelationData) (backend : RelationBlockBackend)
    (p : BlockListPtr)
    (h : GetRelationBlockList backend .RELATION_FIXED_BLOCK_TYPE = .ok p) :
    GetFixedLengthSlot N raw relation backend =
      match findBlockWithFreeSlot (p.deref relation) 0 with
      | some (pos, relblock) =>
        ((GetFixedLengthSlotInBlock N relblock).1,
          p.assign relation
            ((p.deref relation).set pos (GetFixedLengthSlotInBlock N relblock).2))
      | none =>
        ((GetFixedLengthSlotInBlock N (initFixedLengthBlock N raw
            relation.rd_relblock_info.rel_column_groups backend)).1,
          p.assign relation (p.deref relation ++
            [(GetFixedLengthSlotInBlock N (initFixedLengthBlock N raw
              relation.rd_relblock_info.rel_column_groups backend)).2])) := by
  unfold GetFixedLengthSlot
  rw [GetFixedLengthBlockWithFreeSlot_eq N raw relation backend p h]
  cases hfind : findBlockWithFreeSlot (p.deref relation) 0 with
  | some found =>
    obtain ⟨pos, relblock⟩ := found
    simp only [h]
  | none =>
    simp only [h, deref_assign, if_true, assign_assign, set_length_append]

/-- A raise of `GetRelationBlockList` is passed on by `GetFixedLengthSlot`,
with the relation unchanged. -/
theorem GetFixedLengthSlot_of_raise (N : Nat) (raw : RelationBlockData)
    (relation : RelationData) (backend : RelationBlockBackend) (e : ElogError)
    (h : GetRelationBlockList backend .RELATION_FIXED_BLOCK_TYPE = .error e) :
    GetFixedLengthSlot N raw relation backend = (.error e, relation) := by
  unfold GetFixedLengthSlot GetFixedLengthBlockWithFreeSlot
  simp only [h]

/-! ## Finding or creating a block -/

/-- C6: for a backend with block lists and a relation whose listed blocks have
non-negative counts, `GetFixedLengthBlockWithFreeSlot` returns, when some
listed block has `rb_free_slots > 0`, the earliest such block in list order
(every block before it has count `0`) and leaves the relation unchanged; when
the list is empty or every listed block has count `0`, it returns a new block
with `rb_free_slots = N`, appended as the last element of the list. -/
theorem C6_find_or_create_block (N : Nat) (raw : RelationBlockData)
    (relation : RelationData) (backend : RelationBlockBackend)
    (htier : backend.IsTier)
    (hnonneg : ∀ b ∈ fixedBlocks relation backend, 0 ≤ b.rb_free_slots) :
    ((∃ b ∈ fixedBlocks relation backend, 0 < b.rb_free_slots) →
      ∃ (pos : Nat) (relblock : RelationBlockData),
        GetFixedLengthBlockWithFreeSlot N raw relation backend =
          (.ok (pos, relblock), relation) ∧
        (fixedBlocks relation backend)[pos]? = some relblock ∧
        0 < relblock.rb_free_slots ∧
        ∀ (j : Nat) (b : RelationBlockData), j < pos →
          (fixedBlocks relation backend)[j]? = some b → b.rb_free_slots = 0) ∧
    ((∀ b ∈ fixedBlocks relation backend, b.rb_free_slots = 0) →
      ∃ (relblock : RelationBlockData) (relation1 : RelationData),
        GetFixedLengthBlockWithFreeSlot N raw relation backend =
          (.ok ((fixedBlocks relation backend).length, relblock), relation1) ∧
        relblock = initFixedLengthBlock N raw
          relation.rd_relblock_info.rel_column_groups backend ∧
        relblock.rb_free_slots = (N : Int) ∧
        fixedBlocks relation1 backend =
          fixedBlocks relation backend ++ [relblock]) := by
  obtain ⟨p, hp, _⟩ := GetRelationBlockList_fixed_of_tier backend htier
  rw [fixedBlocks_of_ptr relation backend p hp] at hnonneg ⊢
  rw [GetFixedLengthBlockWithFreeSlot_eq N raw relation backend p hp]
  constructor
  · rintro ⟨b, hb, hpos⟩
    cases hfind : findBlockWithFreeSlot (p.deref relation) 0 with
    | none =>
      have hzero := (findBlockWithFreeSlot_none _ 0).mp hfind b hb
      omega
    | some found =>
      obtain ⟨pos, relblock⟩ := found
      obtain ⟨_, hget, hne, hbefore⟩ :=
        findBlockWithFreeSlot_some _ 0 pos relblock hfind
      simp only [Nat.sub_zero] at hget hbefore
      have hmem : relblock ∈ p.deref relation := by
        obtain ⟨hlt, heq⟩ := List.getElem?_eq_some.mp hget
        exact heq ▸ List.getElem_mem hlt
      have h0 := hnonneg relblock hmem
      exact ⟨pos, relblock, rfl, hget, by omega, hbefore⟩
  · intro hall
    have hfind := (findBlockWithFreeSlot_none _ 0).mpr hall
    rw [hfind]
    refine ⟨_, _, rfl, rfl, (initFixedLengthBlock_slots N raw _ backend).2, ?_⟩
    rw [fixedBlocks_of_ptr _ backend p hp, deref_assign]
    simp

/-- Witness for C6: in `sampleRelation` the first block is full; the block at
position `1` is returned and the relation is unchanged. -/
theorem C6_find_or_create_block_witness :
    ∃ (pos : Nat) (relblock : RelationBlockData),
      GetFixedLengthBlockWithFreeSlot 4 zeroedChunk sampleRelation
          .STORAGE_BACKEND_VM = (.ok (pos, relblock), sampleRelation) ∧
      (fixedBlocks sampleRelation .STORAGE_BACKEND_VM)[pos]? = some relblock ∧
      0 < relblock.rb_free_slots ∧
      ∀ (j : Nat) (b : RelationBlockData), j < pos →
        (fixedBlocks sampleRelation .STORAGE_BACKEND_VM)[j]? = some b →
        b.rb_free_slots = 0 :=
  (C6_find_or_create_block 4 zeroedChunk sampleRelation .STORAGE_BACKEND_VM
    (by decide) (by decide)).1 ⟨partialBlockOfFour, by decide, by decide⟩

/-! ## The shape of a new block -/

/-- Sum of the per-group block sizes `cg_size * N`. -/
theorem allocateColumnGroupBlocks_sizes (N : Nat)
    (groups : List RelationColumnGroupData) (relblock : RelationBlockData)
    (hfit : relblock.rb_size + (groups.map (fun g => g.cg_size * N)).sum <
      SIZE_MODULUS) :
    (allocateColumnGroupBlocks N groups relblock).rb_size =
      relblock.rb_size + (groups.map (fun g => g.cg_size * N)).sum ∧
    (allocateColumnGroupBlocks N groups relblock).rb_cg_locations =
      relblock.rb_cg_locations ++ groups.map (fun g => g.cg_size * N) := by
  induction groups generalizing relblock with
  | nil => simp [allocateColumnGroupBlocks]
  | cons g rest ih =>
    simp only [List.map_cons, List.sum_cons] at hfit
    have hprod : g.cg_size % SIZE_MODULUS * N % SIZE_MODULUS = g.cg_size * N := by
      rcases Nat.eq_zero_or_pos N with hN | hN
      · subst hN; simp
      · have hle : g.cg_size ≤ g.cg_size * N := Nat.le_mul_of_pos_right _ hN
        have hmod : g.cg_size % SIZE_MODULUS = g.cg_size :=
          Nat.mod_eq_of_lt (by omega)
        rw [hmod]
        exact Nat.mod_eq_of_lt (by omega)
    simp only [allocateColumnGroupBlocks, hprod]
    have hsum : (relblock.rb_size + g.cg_size * N) % SIZE_MODULUS =
        relblock.rb_size + g.cg_size * N := Nat.mod_eq_of_lt (by omega)
    obtain ⟨h1, h2⟩ := ih
      { relblock with
        rb_size := (relblock.rb_size + g.cg_size * N) % SIZE_MODULUS
        rb_cg_locations := relblock.rb_cg_locations ++ [g.cg_size * N] }
      (by simp only [hsum]; omega)
    rw [h1, h2]
    simp only [hsum, List.map_cons, List.sum_cons, List.append_assoc,
      List.singleton_append]
    exact ⟨by omega, trivial⟩

/-- When the chunk handed out by `palloc` happens to hold `0` in `rb_size` and
`NIL` in `rb_cg_locations`, and the sizes fit in a `Size`, the new block has
the shape the column groups and `N` dictate: one region of `cg_size * N` bytes
per group, in group order, and `rb_size` their sum. -/
theorem RelationAllocateFixedLengthBlock_of_zeroed (N : Nat)
    (raw : RelationBlockData) (relation : RelationData)
    (backend : RelationBlockBackend) (htier : backend.IsTier)
    (hsize : raw.rb_size = 0) (hlocs : raw.rb_cg_locations = [])
    (hfit : (relation.rd_relblock_info.rel_column_groups.map
      (fun g => g.cg_size * N)).sum < SIZE_MODULUS) :
    ∃ (relblock : RelationBlockData) (relation1 : RelationData),
      RelationAllocateFixedLengthBlock N raw relation backend =
        (.ok ((fixedBlocks relation backend).length, relblock), relation1) ∧
      fixedBlocks relation1 backend = fixedBlocks relation backend ++ [relblock] ∧
      relblock.rb_type = .RELATION_FIXED_BLOCK_TYPE ∧
      relblock.rb_backend = backend ∧
      relblock.rb_slotmap = List.replicate N false ∧
      relblock.rb_free_slots = (N : Int) ∧
      relblock.rb_cg_locations =
        relation.rd_relblock_info.rel_column_groups.map
          (fun g => g.cg_size * N) ∧
      relblock.rb_size =
        (relation.rd_relblock_info.rel_column_groups.map
          (fun g => g.cg_size * N)).sum := by
  obtain ⟨p, hp, _⟩ := GetRelationBlockList_fixed_of_tier backend htier
  unfold RelationAllocateFixedLengthBlock
  simp only [hp]
  refine ⟨_, _, by rw [fixedBlocks_of_ptr relation backend p hp], ?_, ?_⟩
  · rw [fixedBlocks_of_ptr _ backend p hp, fixedBlocks_of_ptr _ backend p hp,
      deref_assign]
    simp
  · unfold initFixedLengthBlock
    obtain ⟨f1, f2, f3, f4, _⟩ := allocateColumnGroupBlocks_frame N
      relation.rd_relblock_info.rel_column_groups
      { raw with
        rb_type := .RELATION_FIXED_BLOCK_TYPE
        rb_backend := backend
        rb_slotmap := List.replicate N false
        rb_free_slots := (N : Int)
        rb_stray_writes := [] }
    obtain ⟨s1, s2⟩ := allocateColumnGroupBlocks_sizes N
      relation.rd_relblock_info.rel_column_groups
      { raw with
        rb_type := .RELATION_FIXED_BLOCK_TYPE
        rb_backend := backend
        rb_slotmap := List.replicate N false
        rb_free_slots := (N : Int)
        rb_stray_writes := [] }
      (by simp only [hsize]; omega)
    refine ⟨f1, f2, f3, f4, ?_, ?_⟩
    · rw [s2]; simp [hlocs]
    · rw [s1]; simp [hsize]

/-- On a zeroed chunk, column groups of 16 and 8 bytes and `N = 4` give regions
of 64 and 32 bytes and `rb_size = 96`. -/
theorem RelationAllocateFixedLengthBlock_sample_zeroed :
    (RelationAllocateFixedLengthBlock 4 zeroedChunk
        (emptyRelation sampleColumnGroups) .STORAGE_BACKEND_VM).1 =
      .ok (0,
        { rb_type := .RELATION_FIXED_BLOCK_TYPE
          rb_backend := .STORAGE_BACKEND_VM
          rb_slotmap := [false, false, false, false]
          rb_free_slots := 4
          rb_size := 96
          rb_cg_locations := [64, 32]
          rb_stray_writes := [] }) :=
  rfl

/-- C10, on a chunk that is not zeroed: for column groups of 16 and 8 bytes
and `N = 4`, `RelationAllocateFixedLengthBlock` on a chunk whose `rb_size`
bytes hold `7` creates a block with regions of 64 and 32 bytes whose `rb_size`
is `103`, not the sum `96` of the region sizes. -/
theorem C10_rb_size_starts_from_chunk_content :
    (RelationAllocateFixedLengthBlock 4 staleChunk
        (emptyRelation sampleColumnGroups) .STORAGE_BACKEND_VM).1 =
      .ok (0,
        { rb_type := .RELATION_FIXED_BLOCK_TYPE
          rb_backend := .STORAGE_BACKEND_VM
          rb_slotmap := [false, false, false, false]
          rb_free_slots := 4
          rb_size := 103
          rb_cg_locations := [64, 32]
          rb_stray_writes := [] }) ∧
    fixedBlocks (RelationAllocateFixedLengthBlock 4 staleChunk
        (emptyRelation sampleColumnGroups) .STORAGE_BACKEND_VM).2
        .STORAGE_BACKEND_VM =
      [{ rb_type := .RELATION_FIXED_BLOCK_TYPE
         rb_backend := .STORAGE_BACKEND_VM
         rb_slotmap := [false, false, false, false]
         rb_free_slots := 4
         rb_size := 103
         rb_cg_locations := [64, 32]
         rb_stray_writes := [] }] ∧
    (sampleColumnGroups.map (fun g => g.cg_size * 4)).sum = 96 :=
  ⟨rfl, rfl, rfl⟩

/-! ## Sequences of calls on a relation -/

theorem emptyRelation_allBlocks (P : RelationBlockData → Prop)
    (groups : List RelationColumnGroupData) :
    AllBlocks P (emptyRelation groups) := by
  intro p relblock hmem
  cases p <;> simp [BlockListPtr.deref, emptyRelation] at hmem

/-- Replacing one list by a list of blocks with the property keeps the
property of the relation. -/
theorem assign_allBlocks (P : RelationBlockData → Prop) (relation : RelationData)
    (p : BlockListPtr) (blocks : List RelationBlockData)
    (h : AllBlocks P relation) (hblocks : ∀ relblock ∈ blocks, P relblock) :
    AllBlocks P (p.assign relation blocks) := by
  intro q relblock hmem
  rw [deref_assign] at hmem
  by_cases hq : q = p
  · simp only [hq, if_true] at hmem
    exact hblocks relblock hmem
  · simp only [hq, if_false] at hmem
    exact h q relblock hmem

theorem mem_of_getElem?_eq_some (blocks : List RelationBlockData) (pos : Nat)
    (relblock : RelationBlockData) (h : blocks[pos]? = some relblock) :
    relblock ∈ blocks := by
  obtain ⟨hlt, heq⟩ := List.getElem?_eq_some.mp h
  exact heq ▸ List.getElem_mem hlt

/-- Function `GetFixedLengthSlot` keeps a property of all blocks that new
blocks have and that a claim on a block keeps. -/
theorem GetFixedLengthSlot_allBlocks (N : Nat) (P : RelationBlockData → Prop)
    (hnew : ∀ raw groups backend, P (initFixedLengthBlock N raw groups backend))
    (hclaim : ∀ relblock, P relblock → P (GetFixedLengthSlotInBlock N relblock).2)
    (raw : RelationBlockData) (relation : RelationData)
    (backend : RelationBlockBackend) (h : AllBlocks P relation) :
    AllBlocks P (GetFixedLengthSlot N raw relation backend).2 := by
  cases hp : GetRelationBlockList backend .RELATION_FIXED_BLOCK_TYPE with
  | error e => rw [GetFixedLengthSlot_of_raise N raw relation backend e hp]; exact h
  | ok p =>
    rw [GetFixedLengthSlot_eq N raw relation backend p hp]
    cases hfind : findBlockWithFreeSlot (p.deref relation) 0 with
    | some found =>
      obtain ⟨pos, relblock⟩ := found
      obtain ⟨_, hget, _, _⟩ := findBlockWithFreeSlot_some _ 0 pos relblock hfind
      have hmem := mem_of_getElem?_eq_some _ _ _ hget
      apply assign_allBlocks P relation p _ h
      intro b hb
      rcases List.mem_or_eq_of_mem_set hb with hold | hnew1
      · exact h p b hold
      · rw [hnew1]; exact hclaim relblock (h p relblock hmem)
    | none =>
      apply assign_allBlocks P relation p _ h
      intro b hb
      rcases List.mem_append.mp hb with hold | hnew1
      · exact h p b hold
      · rw [List.mem_singleton.mp hnew1]
        exact hclaim _ (hnew raw _ backend)

/-- A release on a listed block keeps a property of all blocks that the
release keeps on that block. -/
theorem releaseAt_allBlocks (N : Nat) (P : RelationBlockData → Prop)
    (relation : RelationData) (p : BlockListPtr) (pos : Nat) (slot_id : Int)
    (h : AllBlocks P relation)
    (hrelease : ∀ relblock, (p.deref relation)[pos]? = some relblock →
      P relblock → P (ReleaseFixedLengthSlotInBlock N relblock slot_id).2) :
    AllBlocks P (releaseAt N p relation pos slot_id) := by
  unfold releaseAt
  cases hget : (p.deref relation)[pos]? with
  | none => exact h
  | some relblock =>
    apply assign_allBlocks P relation p _ h
    intro b hb
    rcases List.mem_or_eq_of_mem_set hb with hold | hnew
    · exact h p b hold
    · rw [hnew]
      exact hrelease relblock hget
        (h p relblock (mem_of_getElem?_eq_some _ _ _ hget))

/-- A disciplined call keeps a consistent relation consistent. -/
theorem disciplined_relation_call_consistent (N : Nat) (relation : RelationData)
    (call : RelationCall) (h : AllBlocks (SlotMapConsistent N) relation)
    (hd : call.Disciplined N relation) :
    AllBlocks (SlotMapConsistent N) (call.run N relation) := by
  cases call with
  | claim_slot raw backend =>
    exact GetFixedLengthSlot_allBlocks N _
      (initFixedLengthBlock_consistent N) (claim_consistent N) raw relation
      backend h
  | release_slot backend pos slot_id =>
    simp only [RelationCall.run]
    cases hp : GetRelationBlockList backend .RELATION_FIXED_BLOCK_TYPE with
    | error e => exact h
    | ok p =>
      obtain ⟨relblock, hget, hdisc⟩ := hd
      rw [fixedBlocks_of_ptr relation backend p hp] at hget
      apply releaseAt_allBlocks N _ relation p pos slot_id h
      intro b hb hcons
      rw [hget] at hb
      cases hb
      exact disciplined_call_consistent N relblock (.release slot_id) hcons hdisc

/-- Disciplined calls keep a consistent relation consistent. -/
theorem disciplined_relation_calls_consistent (N : Nat) :
    ∀ (calls : List RelationCall) (relation : RelationData),
      AllBlocks (SlotMapConsistent N) relation →
      DisciplinedRelationCalls N calls relation →
      AllBlocks (SlotMapConsistent N) (runRelationCalls N calls relation) := by
  intro calls
  induction calls with
  | nil => intro relation h _; exact h
  | cons call rest ih =>
    intro relation h hd
    exact ih _ (disciplined_relation_call_consistent N relation call h hd.1) hd.2

/-- A claim keeps the count at or above the number of free entries. -/
theorem claim_countCovers (N : Nat) (relblock : RelationBlockData)
    (h : CountCovers relblock) :
    CountCovers (GetFixedLengthSlotInBlock N relblock).2 := by
  by_cases hcount : relblock.rb_free_slots = 0
  · unfold GetFixedLengthSlotInBlock
    simp only [hcount, if_true]
    exact h
  · by_cases hex : ∃ i : Nat, i < N ∧ relblock.rb_slotmap[i]? = some false
    · obtain ⟨i, hi, hfree, hfirst⟩ := exists_first_free N _ hex
      rw [claim_of_first_free N relblock i hcount hi hfree hfirst]
      have hset := freeEntries_set_true_of_false _ i hfree
      unfold CountCovers at h ⊢
      simp only
      omega
    · have hnone : ∀ j : Nat, j < N → relblock.rb_slotmap[j]? ≠ some false :=
        fun j hj hf => hex ⟨j, hj, hf⟩
      rw [claim_raises_of_no_free N relblock hnone]
      exact h

/-- A release, whatever its index, keeps the count at or above the number of
free entries. -/
theorem release_countCovers (N : Nat) (relblock : RelationBlockData)
    (slot_id : Int) (h : CountCovers relblock) :
    CountCovers (ReleaseFixedLengthSlotInBlock N relblock slot_id).2 := by
  by_cases hrej : slot_id < 0 ∨ (N : Int) < slot_id
  · rw [release_rejected N relblock slot_id hrej]; exact h
  · rw [release_accepted N relblock slot_id (by omega) (by omega)]
    have hbound := freeEntries_set_false_le relblock.rb_slotmap slot_id.toNat
    unfold CountCovers at h ⊢
    simp only
    omega

/-- A new block has a count equal to its number of free entries. -/
theorem initFixedLengthBlock_countCovers (N : Nat) (raw : RelationBlockData)
    (groups : List RelationColumnGroupData) (backend : RelationBlockBackend) :
    CountCovers (initFixedLengthBlock N raw groups backend) := by
  have h := (initFixedLengthBlock_consistent N raw groups backend).2
  unfold CountCovers
  omega

/-- In every relation state reached from the empty block lists by calls with
arbitrary arguments, every listed block has a count at or above its number of
free entries; in particular no count is negative. -/
theorem reachable_countCovers (N : Nat) (groups : List RelationColumnGroupData)
    (calls : List RelationCall) :
    AllBlocks CountCovers (runRelationCalls N calls (emptyRelation groups)) := by
  have key : ∀ (calls : List RelationCall) (relation : RelationData),
      AllBlocks CountCovers relation →
      AllBlocks CountCovers (runRelationCalls N calls relation) := by
    intro calls
    induction calls with
    | nil => intro relation h; exact h
    | cons call rest ih =>
      intro relation h
      apply ih
      cases call with
      | claim_slot raw backend =>
        exact GetFixedLengthSlot_allBlocks N _
          (initFixedLengthBlock_countCovers N) (claim_countCovers N) raw
          relation backend h
      | release_slot backend pos slot_id =>
        simp only [RelationCall.run]
        cases hp : GetRelationBlockList backend .RELATION_FIXED_BLOCK_TYPE with
        | error e => exact h
        | ok p =>
          exact releaseAt_allBlocks N _ relation p pos slot_id h
            (fun b _ hb => release_countCovers N b slot_id hb)
  exact key calls _ (emptyRelation_allBlocks _ groups)

/-- In every reachable relation state the counts of the listed blocks are
non-negative. -/
theorem reachable_free_slots_nonneg (N : Nat)
    (groups : List RelationColumnGroupData) (calls : List RelationCall)
    (backend : RelationBlockBackend) :
    ∀ b ∈ fixedBlocks (runRelationCalls N calls (emptyRelation groups)) backend,
      0 ≤ b.rb_free_slots := by
  intro b hb
  unfold fixedBlocks at hb
  cases hp : GetRelationBlockList backend .RELATION_FIXED_BLOCK_TYPE with
  | error e => rw [hp] at hb; simp at hb
  | ok p =>
    rw [hp] at hb
    have h := reachable_countCovers N groups calls p b hb
    unfold CountCovers at h
    omega

/-- A claim on a consistent block whose count is not `0` returns an index
below `N`. -/
theorem claim_ok_of_consistent (N : Nat) (relblock : RelationBlockData)
    (h : SlotMapConsistent N relblock) (hcount : relblock.rb_free_slots ≠ 0) :
    ∃ off : Nat, off < N ∧
      (GetFixedLengthSlotInBlock N relblock).1 = .ok (off : Int) := by
  have hpos : 0 < freeEntries relblock.rb_slotmap := by
    have := h.2
    omega
  obtain ⟨i, hi⟩ := exists_getElem?_of_freeEntries_pos _ hpos
  have hlt : i < N := by
    have := (List.getElem?_eq_some.mp hi).1
    rw [h.1] at this
    exact this
  obtain ⟨i0, hi0, hfree, hfirst⟩ := exists_first_free N _ ⟨i, hlt, hi⟩
  exact ⟨i0, hi0, by rw [claim_of_first_free N relblock i0 hcount hi0 hfree hfirst]⟩

/-- On a consistent relation, with `N` at least `1`, `GetFixedLengthSlot` on a
backend with block lists returns an index below `N`. -/
theorem GetFixedLengthSlot_ok_of_consistent (N : Nat) (hN : 0 < N)
    (raw : RelationBlockData) (relation : RelationData)
    (backend : RelationBlockBackend) (htier : backend.IsTier)
    (h : AllBlocks (SlotMapConsistent N) relation) :
    ∃ off : Nat, off < N ∧
      (GetFixedLengthSlot N raw relation backend).1 = .ok (off : Int) := by
  obtain ⟨p, hp, _⟩ := GetRelationBlockList_fixed_of_tier backend htier
  rw [GetFixedLengthSlot_eq N raw relation backend p hp]
  cases hfind : findBlockWithFreeSlot (p.deref relation) 0 with
  | some found =>
    obtain ⟨pos, relblock⟩ := found
    obtain ⟨_, hget, hne, _⟩ := findBlockWithFreeSlot_some _ 0 pos relblock hfind
    exact claim_ok_of_consistent N relblock
      (h p relblock (mem_of_getElem?_eq_some _ _ _ hget)) hne
  | none =>
    apply claim_ok_of_consistent N _
      (initFixedLengthBlock_consistent N raw _ backend)
    rw [(initFixedLengthBlock_slots N raw _ backend).2]
    omega

/-- With `N = 0` the first `GetFixedLengthSlot` on an empty relation raises:
the block it creates has no slot. -/
theorem GetFixedLengthSlot_raises_without_slots :
    (GetFixedLengthSlot 0 zeroedChunk (emptyRelation sampleColumnGroups)
      .STORAGE_BACKEND_VM).1 = .error .noFreeSlots :=
  rfl

/-- C5 as stated fails: with `N = 1`, after a claim, two releases of slot `0`
of the block and another claim, the only block is full with
`rb_free_slots = 1`, and a further `GetFixedLengthSlot` raises "No free slots
in block". -/
theorem C5_claim_slot_raises_after_double_release :
    (GetFixedLengthSlot 1 zeroedChunk
      (runRelationCalls 1
        [.claim_slot zeroedChunk .STORAGE_BACKEND_VM,
          .release_slot .STORAGE_BACKEND_VM 0 0,
          .release_slot .STORAGE_BACKEND_VM 0 0,
          .claim_slot zeroedChunk .STORAGE_BACKEND_VM]
        (emptyRelation sampleColumnGroups))
      .STORAGE_BACKEND_VM).1 = .error .noFreeSlots ∧
    (fixedBlocks (runRelationCalls 1
        [.claim_slot zeroedChunk .STORAGE_BACKEND_VM,
          .release_slot .STORAGE_BACKEND_VM 0 0,
          .release_slot .STORAGE_BACKEND_VM 0 0,
          .claim_slot zeroedChunk .STORAGE_BACKEND_VM]
        (emptyRelation sampleColumnGroups)) .STORAGE_BACKEND_VM).map
      (fun b => (b.rb_slotmap, b.rb_free_slots)) = [([true], 1)] :=
  ⟨rfl, rfl⟩

/-- C5, amended: with `N` at least `1`, in every relation state reached from
the empty block lists by a sequence of `GetFixedLengthSlot` calls and of
releases each of which names an occupied slot of a listed block or has an
index below `0` or above `N`, a further `GetFixedLengthSlot` never raises
"No free slots in block", and on a backend with block lists it returns a slot
index below `N`. -/
theorem C5_claim_slot_succeeds (N : Nat) (hN : 0 < N)
    (groups : List RelationColumnGroupData) (calls : List RelationCall)
    (hd : DisciplinedRelationCalls N calls (emptyRelation groups))
    (raw : RelationBlockData) (backend : RelationBlockBackend) :
    (GetFixedLengthSlot N raw (runRelationCalls N calls (emptyRelation groups))
      backend).1 ≠ .error .noFreeSlots ∧
    (backend.IsTier → ∃ off : Nat, off < N ∧
      (GetFixedLengthSlot N raw (runRelationCalls N calls (emptyRelation groups))
        backend).1 = .ok (off : Int)) := by
  have hcons := disciplined_relation_calls_consistent N calls _
    (emptyRelation_allBlocks _ groups) hd
  have hok := fun htier => GetFixedLengthSlot_ok_of_consistent N hN raw
    (runRelationCalls N calls (emptyRelation groups)) backend htier hcons
  refine ⟨?_, hok⟩
  by_cases htier : backend.IsTier
  · obtain ⟨off, _, heq⟩ := hok htier
    rw [heq]
    intro hcontra
    cases hcontra
  · have hraise : GetRelationBlockList backend .RELATION_FIXED_BLOCK_TYPE =
        .error .blockListPtrNull := by
      cases backend with
      | STORAGE_BACKEND_VM => exact absurd (Or.inl rfl) htier
      | STORAGE_BACKEND_NVM => exact absurd (Or.inr rfl) htier
      | other code => rfl
    rw [GetFixedLengthSlot_of_raise N raw _ backend _ hraise]
    intro hcontra
    cases hcontra

/-- Witness for C5, amended: two slots per block; two claims on VM, a release
of the occupied slot `0`, a rejected release, a claim on NVM. -/
theorem C5_claim_slot_succeeds_witness :
    (GetFixedLengthSlot 2 zeroedChunk
      (runRelationCalls 2
        [.claim_slot zeroedChunk .STORAGE_BACKEND_VM,
          .claim_slot zeroedChunk .STORAGE_BACKEND_VM,
          .release_slot .STORAGE_BACKEND_VM 0 0,
          .release_slot .STORAGE_BACKEND_VM 0 7,
          .claim_slot zeroedChunk .STORAGE_BACKEND_NVM]
        (emptyRelation sampleColumnGroups))
      .STORAGE_BACKEND_VM).1 ≠ .error .noFreeSlots ∧
    (RelationBlockBackend.STORAGE_BACKEND_VM.IsTier → ∃ off : Nat, off < 2 ∧
      (GetFixedLengthSlot 2 zeroedChunk
        (runRelationCalls 2
          [.claim_slot zeroedChunk .STORAGE_BACKEND_VM,
            .claim_slot zeroedChunk .STORAGE_BACKEND_VM,
            .release_slot .STORAGE_BACKEND_VM 0 0,
            .release_slot .STORAGE_BACKEND_VM 0 7,
            .claim_slot zeroedChunk .STORAGE_BACKEND_NVM]
          (emptyRelation sampleColumnGroups))
        .STORAGE_BACKEND_VM).1 = .ok (off : Int)) :=
  C5_claim_slot_succeeds 2 (by decide) sampleColumnGroups
    [.claim_slot zeroedChunk .STORAGE_BACKEND_VM,
      .claim_slot zeroedChunk .STORAGE_BACKEND_VM,
      .release_slot .STORAGE_BACKEND_VM 0 0,
      .release_slot .STORAGE_BACKEND_VM 0 7,
      .claim_slot zeroedChunk .STORAGE_BACKEND_NVM]
    ⟨trivial, trivial,
      ⟨_, rfl, Or.inr (Or.inr (by decide))⟩,
      ⟨_, rfl, Or.inr (Or.inl (by decide))⟩,
      trivial, trivial⟩
    zeroedChunk .STORAGE_BACKEND_VM

/-! ## Successive claims on an empty list -/

theorem claimedPrefix_getElem?_self (k N : Nat) (h : k < N) :
    (claimedPrefix k N)[k]? = some false := by
  unfold claimedPrefix
  rw [List.getElem?_append_right (by simp)]
  have hsplit : N - k = (N - (k + 1)) + 1 := by omega
  rw [hsplit, List.replicate_succ]
  simp

theorem claimedPrefix_getElem?_lt (k N j : Nat) (h : j < k) :
    (claimedPrefix k N)[j]? = some true := by
  unfold claimedPrefix
  rw [List.getElem?_append_left (by simpa using h)]
  simp [h]

theorem claimedPrefix_set (k N : Nat) (h : k < N) :
    (claimedPrefix k N).set k true = claimedPrefix (k + 1) N := by
  unfold claimedPrefix
  have hsplit : N - k = (N - (k + 1)) + 1 := by omega
  rw [hsplit, List.replicate_succ, List.replicate_succ']
  rw [List.set_append_right _ _ (by simp)]
  simp

theorem claimedPrefix_zero (N : Nat) :
    claimedPrefix 0 N = List.replicate N false := by
  simp [claimedPrefix]

theorem claimedPrefix_full (N : Nat) :
    claimedPrefix N N = List.replicate N true := by
  simp [claimedPrefix]

/-- A claim on a block whose slot map is `claimedPrefix k N` and whose count
is `N - k`, with `k < N`, returns `k` and moves the block to the next
prefix. -/
theorem claim_on_claimedPrefix (N k : Nat) (hk : k < N)
    (relblock : RelationBlockData)
    (hmap : relblock.rb_slotmap = claimedPrefix k N)
    (hcount : relblock.rb_free_slots = (N : Int) - (k : Int)) :
    GetFixedLengthSlotInBlock N relblock =
      (.ok (k : Int),
        { relblock with
          rb_slotmap := claimedPrefix (k + 1) N
          rb_free_slots := (N : Int) - ((k + 1 : Nat) : Int) }) := by
  rw [claim_of_first_free N relblock k (by rw [hcount]; omega) hk
    (by rw [hmap]; exact claimedPrefix_getElem?_self k N hk)
    (by
      intro j hj
      rw [hmap, claimedPrefix_getElem?_lt k N j hj]
      simp)]
  rw [hmap, claimedPrefix_set k N hk, hcount]
  congr 2
  push_cast
  ring

theorem blockAfterClaims_zero (N : Nat) (raw : RelationBlockData)
    (groups : List RelationColumnGroupData) (backend : RelationBlockBackend) :
    blockAfterClaims N raw groups backend 0 =
      initFixedLengthBlock N raw groups backend := by
  obtain ⟨h1, h2⟩ := initFixedLengthBlock_slots N raw groups backend
  unfold blockAfterClaims
  rw [claimedPrefix_zero, ← h1]
  have h3 : (N : Int) - ((0 : Nat) : Int) =
      (initFixedLengthBlock N raw groups backend).rb_free_slots := by
    rw [h2]; simp
  rw [h3]

/-- A claim on `blockAfterClaims ... k` with `k < N` returns `k` and leaves
`blockAfterClaims ... (k + 1)`. -/
theorem claim_on_blockAfterClaims (N : Nat) (raw : RelationBlockData)
    (groups : List RelationColumnGroupData) (backend : RelationBlockBackend)
    (k : Nat) (hk : k < N) :
    GetFixedLengthSlotInBlock N (blockAfterClaims N raw groups backend k) =
      (.ok (k : Int), blockAfterClaims N raw groups backend (k + 1)) := by
  rw [claim_on_claimedPrefix N k hk _ rfl rfl]
  rfl

/-- The first `N` claims on an empty list: call number `k + 1` returns `k`,
and the list then holds the single block `blockAfterClaims ... (k + 1)`. -/
theorem claimSlots_in_first_block (N : Nat) (raws : Nat → RelationBlockData)
    (relation : RelationData) (backend : RelationBlockBackend)
    (p : BlockListPtr)
    (hp : GetRelationBlockList backend .RELATION_FIXED_BLOCK_TYPE = .ok p)
    (hempty : p.deref relation = []) :
    ∀ k : Nat, k < N →
      claimSlots N raws backend (k + 1) relation =
        (.ok ((List.range (k + 1)).map Int.ofNat),
          p.assign relation
            [blockAfterClaims N (raws 0)
              relation.rd_relblock_info.rel_column_groups backend (k + 1)]) := by
  intro k
  induction k with
  | zero =>
    intro hk
    simp only [claimSlots]
    rw [GetFixedLengthSlot_eq N (raws 0) relation backend p hp, hempty]
    simp only [findBlockWithFreeSlot, List.nil_append]
    rw [← blockAfterClaims_zero, claim_on_blockAfterClaims N _ _ _ 0 hk]
    rfl
  | succ k ih =>
    intro hk
    have hprev := ih (by omega)
    rw [claimSlots, hprev]
    simp only
    rw [GetFixedLengthSlot_eq N (raws (k + 1)) _ backend p hp]
    simp only [deref_assign, if_true]
    have hcount : (blockAfterClaims N (raws 0)
        relation.rd_relblock_info.rel_column_groups backend
        (k + 1)).rb_free_slots ≠ 0 := by
      simp only [blockAfterClaims]
      omega
    simp only [findBlockWithFreeSlot, hcount, ne_eq, not_false_eq_true, if_true]
    rw [claim_on_blockAfterClaims N _ _ _ (k + 1) hk]
    simp only [assign_assign, List.set_cons_zero]
    rw [List.range_succ (k + 1), List.map_append]
    rfl

/-- C1: from a relation whose fixed-block list for the backend is empty, with
`N` at least `1`: for `1 ≤ k ≤ N`, the first `k` calls of
`GetFixedLengthSlot` return `0, 1, ..., k - 1` (so call `k` returns `k - 1`)
and the list then holds one block, in which exactly the slots `0` to `k - 1`
are claimed and whose count is `N - k`; the first `N + 1` calls return
`0, ..., N - 1, 0`, and the list then holds exactly two blocks: the first one
full with count `0`, the second one new with only its slot `0` claimed. -/
theorem C1_sequential_claims (N : Nat) (hN : 1 ≤ N)
    (raws : Nat → RelationBlockData) (relation : RelationData)
    (backend : RelationBlockBackend) (htier : backend.IsTier)
    (hempty : fixedBlocks relation backend = []) :
    (∀ k : Nat, 1 ≤ k → k ≤ N →
      (claimSlots N raws backend k relation).1 =
        .ok ((List.range k).map Int.ofNat) ∧
      ∃ relblock : RelationBlockData,
        fixedBlocks (claimSlots N raws backend k relation).2 backend =
          [relblock] ∧
        relblock.rb_slotmap =
          List.replicate k true ++ List.replicate (N - k) false ∧
        relblock.rb_free_slots = (N : Int) - (k : Int)) ∧
    (claimSlots N raws backend (N + 1) relation).1 =
      .ok ((List.range N).map Int.ofNat ++ [0]) ∧
    ∃ first second : RelationBlockData,
      fixedBlocks (claimSlots N raws backend (N + 1) relation).2 backend =
        [first, second] ∧
      first.rb_slotmap = List.replicate N true ∧
      first.rb_free_slots = 0 ∧
      second = blockAfterClaims N (raws N)
        relation.rd_relblock_info.rel_column_groups backend 1 ∧
      second.rb_slotmap = true :: List.replicate (N - 1) false ∧
      second.rb_free_slots = (N : Int) - 1 := by
  obtain ⟨p, hp, _⟩ := GetRelationBlockList_fixed_of_tier backend htier
  rw [fixedBlocks_of_ptr relation backend p hp] at hempty
  have hfirst := claimSlots_in_first_block N raws relation backend p hp hempty
  constructor
  · intro k hk1 hkN
    obtain ⟨j, rfl⟩ : ∃ j, k = j + 1 := ⟨k - 1, by omega⟩
    rw [hfirst j (by omega)]
    refine ⟨rfl, blockAfterClaims N (raws 0)
      relation.rd_relblock_info.rel_column_groups backend (j + 1), ?_, rfl, rfl⟩
    rw [fixedBlocks_of_ptr _ backend p hp, deref_assign]
    simp
  · obtain ⟨j, hj⟩ : ∃ j, N = j + 1 := ⟨N - 1, by omega⟩
    have hlast := hfirst j (by omega)
    rw [← hj] at hlast
    rw [claimSlots, hlast]
    simp only
    rw [GetFixedLengthSlot_eq N (raws N) _ backend p hp]
    simp only [deref_assign, if_true, column_groups_assign]
    have hcount : (blockAfterClaims N (raws 0)
        relation.rd_relblock_info.rel_column_groups backend N).rb_free_slots
        = 0 := by
      simp only [blockAfterClaims]
      omega
    simp only [findBlockWithFreeSlot, hcount, ne_eq, not_true_eq_false, if_false]
    rw [← blockAfterClaims_zero, claim_on_blockAfterClaims N _ _ _ 0 (by omega)]
    simp only [assign_assign]
    refine ⟨rfl, blockAfterClaims N (raws 0)
      relation.rd_relblock_info.rel_column_groups backend N,
      blockAfterClaims N (raws N)
      relation.rd_relblock_info.rel_column_groups backend (0 + 1),
      ?_, ?_, hcount, rfl, ?_, ?_⟩
    · rw [fixedBlocks_of_ptr _ backend p hp, deref_assign]
      simp
    · simp [blockAfterClaims, claimedPrefix]
    · simp [blockAfterClaims, claimedPrefix]
    · simp [blockAfterClaims]

/-- Witness for C1: `N = 4`, column groups of 16 and 8 bytes, five claims on
VM. -/
theorem C1_sequential_claims_witness :
    (claimSlots 4 (fun _ => zeroedChunk) .STORAGE_BACKEND_VM 5
      (emptyRelation sampleColumnGroups)).1 = .ok [0, 1, 2, 3, 0] ∧
    (claimSlots 4 (fun _ => zeroedChunk) .STORAGE_BACKEND_VM 4
      (emptyRelation sampleColumnGroups)).1 = .ok [0, 1, 2, 3] ∧
    ∃ first second : RelationBlockData,
      fixedBlocks (claimSlots 4 (fun _ => zeroedChunk) .STORAGE_BACKEND_VM 5
        (emptyRelation sampleColumnGroups)).2 .STORAGE_BACKEND_VM =
        [first, second] ∧
      first.rb_slotmap = [true, true, true, true] ∧
      first.rb_free_slots = 0 ∧
      second.rb_slotmap = [true, false, false, false] ∧
      second.rb_free_slots = 3 :=
  have h := C1_sequential_claims 4 (by decide) (fun _ => zeroedChunk)
    (emptyRelation sampleColumnGroups) .STORAGE_BACKEND_VM (by decide) rfl
  ⟨h.2.1, (h.1 4 (by decide) (by decide)).1,
    h.2.2.imp fun _ hx => hx.imp fun _ hy =>
      ⟨hy.1, hy.2.1, hy.2.2.1, hy.2.2.2.2.1, hy.2.2.2.2.2⟩⟩

/-! ## Block lists only grow -/

theorem claim_shape (N : Nat) (relblock : RelationBlockData) :
    (GetFixedLengthSlotInBlock N relblock).2.shape = relblock.shape := by
  unfold GetFixedLengthSlotInBlock
  by_cases hcount : relblock.rb_free_slots = 0
  · simp only [hcount, if_true]
  · simp only [hcount, if_false]
    by_cases hscan : slotScan N relblock.rb_slotmap N 0 = N
    · simp only [hscan, if_true]
    · simp only [hscan, if_false]
      rfl

theorem release_shape (N : Nat) (relblock : RelationBlockData) (slot_id : Int) :
    (ReleaseFixedLengthSlotInBlock N relblock slot_id).2.shape =
      relblock.shape := by
  unfold ReleaseFixedLengthSlotInBlock
  by_cases h : slot_id < 0 ∨ slot_id > (N : Int)
  · simp only [h, if_true]
  · simp only [h, if_false]
    rfl

/-- The relation left by `RelationAllocateFixedLengthBlock`: unchanged on a
raise, the selected list extended by the new block otherwise. -/
theorem RelationAllocateFixedLengthBlock_lists (N : Nat)
    (raw : RelationBlockData) (relation : RelationData)
    (backend : RelationBlockBackend) (p : BlockListPtr) :
    p.deref relation <+:
      p.deref (RelationAllocateFixedLengthBlock N raw relation backend).2 := by
  unfold RelationAllocateFixedLengthBlock
  cases hq : GetRelationBlockList backend .RELATION_FIXED_BLOCK_TYPE with
  | error e => exact List.prefix_refl _
  | ok q =>
    simp only [deref_assign]
    by_cases hpq : p = q
    · simp only [hpq, if_true]
      exact List.prefix_append _ _
    · simp only [hpq, if_false]
      exact List.prefix_refl _

theorem GetFixedLengthBlockWithFreeSlot_lists (N : Nat)
    (raw : RelationBlockData) (relation : RelationData)
    (backend : RelationBlockBackend) (p : BlockListPtr) :
    p.deref relation <+:
      p.deref (GetFixedLengthBlockWithFreeSlot N raw relation backend).2 := by
  cases hq : GetRelationBlockList backend .RELATION_FIXED_BLOCK_TYPE with
  | error e =>
    unfold GetFixedLengthBlockWithFreeSlot
    simp only [hq]
    exact List.prefix_refl _
  | ok q =>
    rw [GetFixedLengthBlockWithFreeSlot_eq N raw relation backend q hq]
    cases findBlockWithFreeSlot (q.deref relation) 0 with
    | some found => exact List.prefix_refl _
    | none =>
      simp only [deref_assign]
      by_cases hpq : p = q
      · simp only [hpq, if_true]
        exact List.prefix_append _ _
      · simp only [hpq, if_false]
        exact List.prefix_refl _

theorem updateAt_length (f : RelationBlockData → RelationBlockData)
    (blocks : List RelationBlockData) (pos : Nat) :
    (updateAt f blocks pos).length = blocks.length := by
  induction blocks generalizing pos with
  | nil => rfl
  | cons b rest ih =>
    cases pos with
    | zero => rfl
    | succ k => simp [updateAt, ih k]

/-- Position by position: `updateAt` changes the block at `pos` and no
other. -/
theorem updateAt_getElem? (f : RelationBlockData → RelationBlockData)
    (blocks : List RelationBlockData) (pos i : Nat) :
    (updateAt f blocks pos)[i]? =
      (blocks[i]?).map (fun relblock => if i = pos then f relblock else relblock) := by
  induction blocks generalizing pos i with
  | nil => simp [updateAt]
  | cons b rest ih =>
    cases pos with
    | zero =>
      cases i with
      | zero => simp [updateAt]
      | succ j => simp [updateAt]
    | succ k =>
      cases i with
      | zero => simp [updateAt]
      | succ j => simp [updateAt, ih k j]

theorem updateAt_of_length_le (f : RelationBlockData → RelationBlockData)
    (blocks : List RelationBlockData) (pos : Nat) (h : blocks.length ≤ pos) :
    updateAt f blocks pos = blocks := by
  induction blocks generalizing pos with
  | nil => rfl
  | cons b rest ih =>
    cases pos with
    | zero => simp at h
    | succ k =>
      simp only [updateAt, List.cons.injEq, true_and]
      exact ih k (by simpa using h)

theorem set_eq_updateAt (f : RelationBlockData → RelationBlockData)
    (blocks : List RelationBlockData) (pos : Nat) (relblock : RelationBlockData)
    (h : blocks[pos]? = some relblock) :
    blocks.set pos (f relblock) = updateAt f blocks pos := by
  induction blocks generalizing pos with
  | nil => simp at h
  | cons b rest ih =>
    cases pos with
    | zero =>
      simp only [List.getElem?_cons_zero, Option.some.injEq] at h
      subst h
      rfl
    | succ k =>
      simp only [List.getElem?_cons_succ] at h
      simp only [List.set_cons_succ, updateAt, List.cons.injEq, true_and]
      exact ih k h

/-- The list that `GetFixedLengthSlot` leaves: the list before the call in
which at most one block, at its own position, is replaced by the result of a
claim on it, followed by at most one new block. -/
theorem GetFixedLengthSlot_lists (N : Nat) (raw : RelationBlockData)
    (relation : RelationData) (backend : RelationBlockBackend)
    (p : BlockListPtr) :
    ∃ (claimed : Nat) (added : List RelationBlockData), added.length ≤ 1 ∧
      p.deref (GetFixedLengthSlot N raw relation backend).2 =
        updateAt (fun relblock => (GetFixedLengthSlotInBlock N relblock).2)
          (p.deref relation) claimed ++ added := by
  have hsame : ∀ blocks : List RelationBlockData,
      blocks = updateAt (fun relblock => (GetFixedLengthSlotInBlock N relblock).2)
        blocks blocks.length ++ [] := by
    intro blocks
    rw [updateAt_of_length_le _ _ _ (le_refl _), List.append_nil]
  cases hq : GetRelationBlockList backend .RELATION_FIXED_BLOCK_TYPE with
  | error e =>
    rw [GetFixedLengthSlot_of_raise N raw relation backend e hq]
    exact ⟨(p.deref relation).length, [], by simp, hsame _⟩
  | ok q =>
    rw [GetFixedLengthSlot_eq N raw relation backend q hq]
    by_cases hpq : p = q
    · subst hpq
      cases hfind : findBlockWithFreeSlot (p.deref relation) 0 with
      | some found =>
        obtain ⟨pos, relblock⟩ := found
        obtain ⟨_, hget, _, _⟩ := findBlockWithFreeSlot_some _ 0 pos relblock hfind
        simp only [Nat.sub_zero] at hget
        refine ⟨pos, [], by simp, ?_⟩
        simp only [deref_assign, if_true, List.append_nil]
        exact set_eq_updateAt
          (fun relblock => (GetFixedLengthSlotInBlock N relblock).2) _ pos
          relblock hget
      | none =>
        refine ⟨(p.deref relation).length,
          [(GetFixedLengthSlotInBlock N (initFixedLengthBlock N raw
            relation.rd_relblock_info.rel_column_groups backend)).2],
          by simp, ?_⟩
        simp only [deref_assign, if_true]
        rw [updateAt_of_length_le _ _ _ (le_refl _)]
    · cases findBlockWithFreeSlot (q.deref relation) 0 with
      | some found =>
        obtain ⟨pos, relblock⟩ := found
        refine ⟨(p.deref relation).length, [], by simp, ?_⟩
        simp only [deref_assign, hpq, if_false]
        exact hsame _
      | none =>
        refine ⟨(p.deref relation).length, [], by simp, ?_⟩
        simp only [deref_assign, hpq, if_false]
        exact hsame _

/-- The list that a release on the block at position `pos` of the list `q`
leaves: the list `q` with that block replaced by the result of the release on
it, every other list as it was. -/
theorem releaseAt_lists (N : Nat) (q : BlockListPtr) (relation : RelationData)
    (pos : Nat) (slot_id : Int) (p : BlockListPtr) :
    p.deref (releaseAt N q relation pos slot_id) =
      if p = q then
        updateAt (fun relblock =>
          (ReleaseFixedLengthSlotInBlock N relblock slot_id).2)
          (p.deref relation) pos
      else p.deref relation := by
  unfold releaseAt
  cases hget : (q.deref relation)[pos]? with
  | none =>
    by_cases hpq : p = q
    · subst hpq
      simp only [if_true]
      have hle : (p.deref relation).length ≤ pos := by
        by_contra hlt
        rw [List.getElem?_eq_getElem (by omega)] at hget
        cases hget
      rw [updateAt_of_length_le _ _ _ hle]
    · simp only [hpq, if_false]
  | some relblock =>
    simp only [deref_assign]
    by_cases hpq : p = q
    · subst hpq
      simp only [if_true]
      exact set_eq_updateAt
        (fun relblock => (ReleaseFixedLengthSlotInBlock N relblock slot_id).2)
        _ pos relblock hget
    · simp only [hpq, if_false]

/-- C11: for each of the four block lists `p` of a relation:
`RelationAllocateFixedLengthBlock` and `GetFixedLengthBlockWithFreeSlot` leave
the list before the call as a prefix of the list after it;
`GetFixedLengthSlot` leaves the list before the call, with at most one block
replaced at its own position by the result of a claim on that block, followed
by at most one new block, so every block of the list before the call is at the
position it had; a `ReleaseFixedLengthSlotInBlock` on the block at a position
of a list leaves that block, released, at its position, every other block of
every list as it was, and the length of every list unchanged, whatever the
slot map of the block becomes; a claim and a release leave the type, the
backend, the size and the regions of the block they act on as they were. -/
theorem C11_block_lists_append_only (N : Nat) (raw : RelationBlockData)
    (relation : RelationData) (backend : RelationBlockBackend)
    (p q : BlockListPtr) (pos : Nat) (slot_id : Int) :
    (p.deref relation <+:
      p.deref (RelationAllocateFixedLengthBlock N raw relation backend).2) ∧
    (p.deref relation <+:
      p.deref (GetFixedLengthBlockWithFreeSlot N raw relation backend).2) ∧
    (∃ (claimed : Nat) (added : List RelationBlockData), added.length ≤ 1 ∧
      p.deref (GetFixedLengthSlot N raw relation backend).2 =
        updateAt (fun relblock => (GetFixedLengthSlotInBlock N relblock).2)
          (p.deref relation) claimed ++ added ∧
      ∀ (i : Nat) (relblock : RelationBlockData),
        (p.deref relation)[i]? = some relblock →
        (p.deref (GetFixedLengthSlot N raw relation backend).2)[i]? =
          some (if i = claimed then (GetFixedLengthSlotInBlock N relblock).2
            else relblock)) ∧
    p.deref (releaseAt N q relation pos slot_id) =
      (if p = q then
        updateAt (fun relblock =>
          (ReleaseFixedLengthSlotInBlock N relblock slot_id).2)
          (p.deref relation) pos
      else p.deref relation) ∧
    (∀ (i : Nat) (relblock : RelationBlockData),
      (p.deref relation)[i]? = some relblock →
      (p.deref (releaseAt N q relation pos slot_id))[i]? =
        some (if p = q ∧ i = pos then
          (ReleaseFixedLengthSlotInBlock N relblock slot_id).2 else relblock)) ∧
    (p.deref (releaseAt N q relation pos slot_id)).length =
      (p.deref relation).length ∧
    (∀ relblock : RelationBlockData,
      (GetFixedLengthSlotInBlock N relblock).2.shape = relblock.shape ∧
      (ReleaseFixedLengthSlotInBlock N relblock slot_id).2.shape =
        relblock.shape) := by
  have hrel := releaseAt_lists N q relation pos slot_id p
  refine ⟨RelationAllocateFixedLengthBlock_lists N raw relation backend p,
    GetFixedLengthBlockWithFreeSlot_lists N raw relation backend p, ?_, hrel,
    ?_, ?_, fun relblock =>
      ⟨claim_shape N relblock, release_shape N relblock slot_id⟩⟩
  · obtain ⟨claimed, added, hadded, heq⟩ :=
      GetFixedLengthSlot_lists N raw relation backend p
    refine ⟨claimed, added, hadded, heq, ?_⟩
    intro i relblock hget
    have hlt : i < (p.deref relation).length := (List.getElem?_eq_some.mp hget).1
    rw [heq, List.getElem?_append_left (by rw [updateAt_length]; exact hlt),
      updateAt_getElem?, hget]
    rfl
  · intro i relblock hget
    rw [hrel]
    by_cases hpq : p = q
    · simp only [hpq, if_true, true_and]
      rw [updateAt_getElem?, ← hpq, hget]
      rfl
    · simp only [hpq, if_false, false_and]
      exact hget
  · rw [hrel]
    by_cases hpq : p = q
    · simp only [hpq, if_true, updateAt_length]
    · simp only [hpq, if_false]

/-- Releasing the only occupied slot of the only block of `oneBlockRelation`
leaves the block, now without any occupied slot, in its list. -/
theorem release_last_slot_keeps_block :
    fixedBlocks (releaseAt 2 .fixed_VM oneBlockRelation 0 0) .STORAGE_BACKEND_VM =
      [{ blockOneOfTwo with rb_slotmap := [false, false], rb_free_slots := 2 }] := by
  decide

/-! ## The lists a claim leaves alone -/

/-- The fixed-block list a backend selects is the only list that
`GetFixedLengthSlot` can change. -/
theorem GetFixedLengthSlot_frame (N : Nat) (raw : RelationBlockData)
    (relation : RelationData) (backend : RelationBlockBackend)
    (p q : BlockListPtr)
    (hq : GetRelationBlockList backend .RELATION_FIXED_BLOCK_TYPE = .ok q)
    (hne : p ≠ q) :
    p.deref (GetFixedLengthSlot N raw relation backend).2 = p.deref relation := by
  rw [GetFixedLengthSlot_eq N raw relation backend q hq]
  cases findBlockWithFreeSlot (q.deref relation) 0 with
  | some found =>
    obtain ⟨pos, relblock⟩ := found
    simp only [deref_assign, hne, if_false]
  | none => simp only [deref_assign, hne, if_false]

/-- The column groups of the relation are not changed by
`GetFixedLengthSlot`. -/
theorem GetFixedLengthSlot_column_groups (N : Nat) (raw : RelationBlockData)
    (relation : RelationData) (backend : RelationBlockBackend) :
    (GetFixedLengthSlot N raw relation backend).2.rd_relblock_info.rel_column_groups
      = relation.rd_relblock_info.rel_column_groups := by
  cases hq : GetRelationBlockList backend .RELATION_FIXED_BLOCK_TYPE with
  | error e => rw [GetFixedLengthSlot_of_raise N raw relation backend e hq]
  | ok q =>
    rw [GetFixedLengthSlot_eq N raw relation backend q hq]
    cases findBlockWithFreeSlot (q.deref relation) 0 with
    | some found =>
      obtain ⟨pos, relblock⟩ := found
      simp only [column_groups_assign]
    | none => simp only [column_groups_assign]

/-- C12: `GetFixedLengthSlot(relation, VM)` leaves the NVM fixed-block list
and both variable-block lists, hence every block in them with its slot map
and count, exactly as they were, and `GetFixedLengthSlot(relation, NVM)` does
the same for the VM fixed-block list and both variable-block lists; neither
changes the column groups. -/
theorem C12_claim_changes_one_list (N : Nat) (raw : RelationBlockData)
    (relation : RelationData) :
    ((GetFixedLengthSlot N raw relation
        .STORAGE_BACKEND_VM).2.rd_relblock_info.rel_fixed_blocks_on_NVM =
      relation.rd_relblock_info.rel_fixed_blocks_on_NVM ∧
    (GetFixedLengthSlot N raw relation
        .STORAGE_BACKEND_VM).2.rd_relblock_info.rel_variable_blocks_on_VM =
      relation.rd_relblock_info.rel_variable_blocks_on_VM ∧
    (GetFixedLengthSlot N raw relation
        .STORAGE_BACKEND_VM).2.rd_relblock_info.rel_variable_blocks_on_NVM =
      relation.rd_relblock_info.rel_variable_blocks_on_NVM ∧
    (GetFixedLengthSlot N raw relation
        .STORAGE_BACKEND_VM).2.rd_relblock_info.rel_column_groups =
      relation.rd_relblock_info.rel_column_groups) ∧
    ((GetFixedLengthSlot N raw relation
        .STORAGE_BACKEND_NVM).2.rd_relblock_info.rel_fixed_blocks_on_VM =
      relation.rd_relblock_info.rel_fixed_blocks_on_VM ∧
    (GetFixedLengthSlot N raw relation
        .STORAGE_BACKEND_NVM).2.rd_relblock_info.rel_variable_blocks_on_VM =
      relation.rd_relblock_info.rel_variable_blocks_on_VM ∧
    (GetFixedLengthSlot N raw relation
        .STORAGE_BACKEND_NVM).2.rd_relblock_info.rel_variable_blocks_on_NVM =
      relation.rd_relblock_info.rel_variable_blocks_on_NVM ∧
    (GetFixedLengthSlot N raw relation
        .STORAGE_BACKEND_NVM).2.rd_relblock_info.rel_column_groups =
      relation.rd_relblock_info.rel_column_groups) := by
  have hVM : GetRelationBlockList .STORAGE_BACKEND_VM .RELATION_FIXED_BLOCK_TYPE
      = .ok .fixed_VM := rfl
  have hNVM : GetRelationBlockList .STORAGE_BACKEND_NVM .RELATION_FIXED_BLOCK_TYPE
      = .ok .fixed_NVM := rfl
  refine ⟨⟨?_, ?_, ?_, ?_⟩, ⟨?_, ?_, ?_, ?_⟩⟩
  · exact GetFixedLengthSlot_frame N raw relation _ .fixed_NVM .fixed_VM hVM
      (by decide)
  · exact GetFixedLengthSlot_frame N raw relation _ .variable_VM .fixed_VM hVM
      (by decide)
  · exact GetFixedLengthSlot_frame N raw relation _ .variable_NVM .fixed_VM hVM
      (by decide)
  · exact GetFixedLengthSlot_column_groups N raw relation _
  · exact GetFixedLengthSlot_frame N raw relation _ .fixed_VM .fixed_NVM hNVM
      (by decide)
  · exact GetFixedLengthSlot_frame N raw relation _ .variable_VM .fixed_NVM hNVM
      (by decide)
  · exact GetFixedLengthSlot_frame N raw relation _ .variable_NVM .fixed_NVM hNVM
      (by decide)
  · exact GetFixedLengthSlot_column_groups N raw relation _

/-! ## Selecting a list -/

/-- C13: `GetRelationBlockList` maps (VM, fixed), (VM, variable),
(NVM, fixed) and (NVM, variable) to the four list fields of the relation of
that backend and type; these four are pairwise distinct locations (their
addresses differ, and a store to one of them leaves the other three as they
were); and the call raises exactly when the backend is neither VM nor NVM or
the type is neither fixed nor variable. -/
theorem C13_select_block_list :
    (GetRelationBlockList .STORAGE_BACKEND_VM .RELATION_FIXED_BLOCK_TYPE =
        .ok .fixed_VM ∧
      GetRelationBlockList .STORAGE_BACKEND_VM .RELATION_VARIABLE_BLOCK_TYPE =
        .ok .variable_VM ∧
      GetRelationBlockList .STORAGE_BACKEND_NVM .RELATION_FIXED_BLOCK_TYPE =
        .ok .fixed_NVM ∧
      GetRelationBlockList .STORAGE_BACKEND_NVM .RELATION_VARIABLE_BLOCK_TYPE =
        .ok .variable_NVM) ∧
    (∀ relation : RelationData,
      BlockListPtr.fixed_VM.deref relation =
        relation.rd_relblock_info.rel_fixed_blocks_on_VM ∧
      BlockListPtr.variable_VM.deref relation =
        relation.rd_relblock_info.rel_variable_blocks_on_VM ∧
      BlockListPtr.fixed_NVM.deref relation =
        relation.rd_relblock_info.rel_fixed_blocks_on_NVM ∧
      BlockListPtr.variable_NVM.deref relation =
        relation.rd_relblock_info.rel_variable_blocks_on_NVM) ∧
    [BlockListPtr.fixed_VM, .variable_VM, .fixed_NVM, .variable_NVM].Nodup ∧
    (∀ (p q : BlockListPtr) (relation : RelationData)
      (blocks : List RelationBlockData),
      p.deref (q.assign relation blocks) =
        if p = q then blocks else p.deref relation) ∧
    (∀ (backend : RelationBlockBackend) (type : RelationBlockType),
      (∃ e, GetRelationBlockList backend type = .error e) ↔
        (¬ (backend = .STORAGE_BACKEND_VM ∨ backend = .STORAGE_BACKEND_NVM) ∨
          ¬ (type = .RELATION_FIXED_BLOCK_TYPE ∨
            type = .RELATION_VARIABLE_BLOCK_TYPE))) := by
  refine ⟨⟨rfl, rfl, rfl, rfl⟩, fun _ => ⟨rfl, rfl, rfl, rfl⟩, by decide,
    deref_assign, ?_⟩
  intro backend type
  cases backend <;> cases type <;> simp [GetRelationBlockList]

/-! ## Well-formed use of a block -/

/-- Disciplined calls keep a consistent block consistent. -/
theorem disciplined_block_calls_consistent (N : Nat) :
    ∀ (calls : List BlockCall) (relblock : RelationBlockData),
      SlotMapConsistent N relblock → DisciplinedBlockCalls N calls relblock →
      SlotMapConsistent N (runBlockCalls N calls relblock) := by
  intro calls
  induction calls with
  | nil => intro relblock h _; exact h
  | cons call rest ih =>
    intro relblock h hdisc
    exact ih _ (disciplined_call_consistent N relblock call h hdisc.1) hdisc.2

/-- On a consistent block the count lies in `[0, N]`, and a claim raises
exactly when every slot is occupied. -/
theorem consistent_bounds_and_full (N : Nat) (relblock : RelationBlockData)
    (h : SlotMapConsistent N relblock) :
    0 ≤ relblock.rb_free_slots ∧ relblock.rb_free_slots ≤ (N : Int) ∧
    ((∃ e, (GetFixedLengthSlotInBlock N relblock).1 = .error e) ↔
      ∀ j : Nat, j < N → relblock.rb_slotmap[j]? = some true) := by
  obtain ⟨hlen, hcount⟩ := h
  have hle : freeEntries relblock.rb_slotmap ≤ N := by
    rw [← hlen]; exact List.count_le_length _ _
  refine ⟨by omega, by omega, ?_⟩
  constructor
  · rintro ⟨e, he⟩ j hj
    by_cases hzero : relblock.rb_free_slots = 0
    · have hj2 : j < relblock.rb_slotmap.length := by omega
      rw [List.getElem?_eq_getElem hj2]
      cases hv : relblock.rb_slotmap[j] with
      | true => rfl
      | false =>
        have hpos := freeEntries_pos_of_getElem? relblock.rb_slotmap j
          (by rw [List.getElem?_eq_getElem hj2, hv])
        omega
    · obtain ⟨off, _, hok⟩ := claim_ok_of_consistent N relblock ⟨hlen, hcount⟩ hzero
      rw [hok] at he
      cases he
  · intro hall
    refine ⟨.noFreeSlots, ?_⟩
    rw [claim_raises_of_no_free N relblock
      (fun j hj hf => by rw [hall j hj] at hf; cases hf)]

/-- C16: a block whose slot map has `N` entries and whose `rb_free_slots` is
its number of `false` entries is still such a block after
`GetFixedLengthSlotInBlock`, whether it returns or raises, and after
`ReleaseFixedLengthSlotInBlock(block, i)` for `i` below `N` with entry `i`
`true`; and in every state reached from a new block by calls in which each
release names an occupied slot (or is rejected for an index below `0` or above
`N`), `0 ≤ rb_free_slots ≤ N` and `GetFixedLengthSlotInBlock` raises exactly
when every slot is occupied. -/
theorem C16_well_formed_use_keeps_count (N : Nat) :
    (∀ relblock : RelationBlockData, SlotMapConsistent N relblock →
      SlotMapConsistent N (GetFixedLengthSlotInBlock N relblock).2) ∧
    (∀ (relblock : RelationBlockData) (i : Nat),
      SlotMapConsistent N relblock → i < N →
      relblock.rb_slotmap[i]? = some true →
      SlotMapConsistent N
        (ReleaseFixedLengthSlotInBlock N relblock (i : Int)).2) ∧
    (∀ (raw : RelationBlockData) (groups : List RelationColumnGroupData)
      (backend : RelationBlockBackend) (calls : List BlockCall),
      DisciplinedBlockCalls N calls (initFixedLengthBlock N raw groups backend) →
      0 ≤ (runBlockCalls N calls
        (initFixedLengthBlock N raw groups backend)).rb_free_slots ∧
      (runBlockCalls N calls
        (initFixedLengthBlock N raw groups backend)).rb_free_slots ≤ (N : Int) ∧
      ((∃ e, (GetFixedLengthSlotInBlock N (runBlockCalls N calls
          (initFixedLengthBlock N raw groups backend))).1 = .error e) ↔
        ∀ j : Nat, j < N → (runBlockCalls N calls
          (initFixedLengthBlock N raw groups backend)).rb_slotmap[j]? =
            some true)) := by
  refine ⟨claim_consistent N, ?_, ?_⟩
  · intro relblock i h hi htrue
    exact release_consistent N relblock (i : Int) h
      ⟨by omega, by omega, by simpa using htrue⟩
  · intro raw groups backend calls hd
    exact consistent_bounds_and_full N _
      (disciplined_block_calls_consistent N calls _
        (initFixedLengthBlock_consistent N raw groups backend) hd)

/-- Witness for C16: two slots; after claim, claim, release of slot `0`, claim
the block is full, its count is `0` and a further claim raises. -/
theorem C16_well_formed_use_keeps_count_witness :
    0 ≤ (runBlockCalls 2 [.claim, .claim, .release 0, .claim]
      (initFixedLengthBlock 2 zeroedChunk sampleColumnGroups
        .STORAGE_BACKEND_VM)).rb_free_slots ∧
    (runBlockCalls 2 [.claim, .claim, .release 0, .claim]
      (initFixedLengthBlock 2 zeroedChunk sampleColumnGroups
        .STORAGE_BACKEND_VM)).rb_free_slots ≤ ((2 : Nat) : Int) ∧
    ((∃ e, (GetFixedLengthSlotInBlock 2
        (runBlockCalls 2 [.claim, .claim, .release 0, .claim]
          (initFixedLengthBlock 2 zeroedChunk sampleColumnGroups
            .STORAGE_BACKEND_VM))).1 = .error e) ↔
      ∀ j : Nat, j < 2 →
        (runBlockCalls 2 [.claim, .claim, .release 0, .claim]
          (initFixedLengthBlock 2 zeroedChunk sampleColumnGroups
            .STORAGE_BACKEND_VM)).rb_slotmap[j]? = some true) :=
  (C16_well_formed_use_keeps_count 2).2.2 zeroedChunk sampleColumnGroups
    .STORAGE_BACKEND_VM [.claim, .claim, .release 0, .claim] (by decide)

/-! ## What a claim returns -/

/-- A claim that returns leaves the block with the returned entry, free
before, set. -/
theorem claim_ok_inv (N : Nat) (relblock : RelationBlockData) (off : Int)
    (h : (GetFixedLengthSlotInBlock N relblock).1 = .ok off) :
    ∃ i : Nat, off = (i : Int) ∧ i < N ∧
      relblock.rb_slotmap[i]? = some false ∧
      (GetFixedLengthSlotInBlock N relblock).2 =
        { relblock with
          rb_slotmap := relblock.rb_slotmap.set i true
          rb_free_slots := relblock.rb_free_slots - 1 } := by
  obtain ⟨_, hle, _, hfree⟩ := slotScan_spec N relblock.rb_slotmap N 0 (by omega)
  unfold GetFixedLengthSlotInBlock at h ⊢
  by_cases hcount : relblock.rb_free_slots = 0
  · simp only [hcount, if_true] at h
    cases h
  · simp only [hcount, if_false] at h ⊢
    by_cases hscan : slotScan N relblock.rb_slotmap N 0 = N
    · simp only [hscan, if_true] at h
      cases h
    · simp only [hscan, if_false] at h ⊢
      refine ⟨slotScan N relblock.rb_slotmap N 0, ?_, by omega,
        hfree (by omega), rfl⟩
      cases h
      rfl

/-- One successful `GetFixedLengthSlot` on a backend whose fixed-block list is
`p`: the slot it returns, in the block it selected, was not occupied before
the call, is occupied after it, and every slot occupied before still is. -/
theorem GetFixedLengthSlot_occupies (N : Nat) (raw : RelationBlockData)
    (relation relation1 : RelationData) (backend : RelationBlockBackend)
    (p : BlockListPtr)
    (hp : GetRelationBlockList backend .RELATION_FIXED_BLOCK_TYPE = .ok p)
    (pos : Nat) (snapshot : RelationBlockData) (off : Int)
    (hblock : (GetFixedLengthBlockWithFreeSlot N raw relation backend).1 =
      .ok (pos, snapshot))
    (hslot : GetFixedLengthSlot N raw relation backend = (.ok off, relation1)) :
    ¬ SlotOccupied (p.deref relation) (pos, off) ∧
    SlotOccupied (p.deref relation1) (pos, off) ∧
    ∀ ref, SlotOccupied (p.deref relation) ref →
      SlotOccupied (p.deref relation1) ref := by
  rw [GetFixedLengthBlockWithFreeSlot_eq N raw relation backend p hp] at hblock
  rw [GetFixedLengthSlot_eq N raw relation backend p hp] at hslot
  cases hfind : findBlockWithFreeSlot (p.deref relation) 0 with
  | some found =>
    obtain ⟨pos1, relblock⟩ := found
    rw [hfind] at hblock hslot
    simp only [Except.ok.injEq, Prod.mk.injEq] at hblock
    obtain ⟨hpos, _⟩ := hblock
    subst hpos
    simp only [Prod.mk.injEq] at hslot
    obtain ⟨hoff, hrel⟩ := hslot
    obtain ⟨_, hget, _, _⟩ := findBlockWithFreeSlot_some _ 0 pos1 relblock hfind
    simp only [Nat.sub_zero] at hget
    obtain ⟨i, hi, _, hfree, hstate⟩ := claim_ok_inv N relblock off hoff
    have hilen : i < relblock.rb_slotmap.length :=
      (List.getElem?_eq_some.mp hfree).1
    have hposlen : pos1 < (p.deref relation).length :=
      (List.getElem?_eq_some.mp hget).1
    subst hi
    rw [← hrel, hstate]
    simp only [deref_assign, if_true]
    refine ⟨?_, ?_, ?_⟩
    · rintro ⟨b, hb, _, htrue⟩
      simp only at hb htrue
      rw [hget] at hb
      cases hb
      simp only [Int.toNat_ofNat] at htrue
      rw [hfree] at htrue
      cases htrue
    · refine ⟨{ relblock with
        rb_slotmap := relblock.rb_slotmap.set i true
        rb_free_slots := relblock.rb_free_slots - 1 }, by simp [hposlen], by simp, ?_⟩
      simp [hilen]
    · rintro ⟨pos2, off2⟩ ⟨b, hb, h0, htrue⟩
      simp only at hb h0 htrue
      by_cases hpos : pos2 = pos1
      · subst hpos
        rw [hget] at hb
        cases hb
        refine ⟨{ relblock with
        rb_slotmap := relblock.rb_slotmap.set i true
        rb_free_slots := relblock.rb_free_slots - 1 }, by simp [hposlen], h0, ?_⟩
        simp only
        by_cases hidx : off2.toNat = i
        · rw [hidx]; simp [hilen]
        · rw [getElem?_set_of_ne _ i _ true hidx]; exact htrue
      · refine ⟨b, ?_, h0, htrue⟩
        simp only
        rw [List.getElem?_set_ne (fun h => hpos h.symm)]
        exact hb
  | none =>
    rw [hfind] at hblock hslot
    simp only [Except.ok.injEq, Prod.mk.injEq] at hblock
    obtain ⟨hpos, _⟩ := hblock
    subst hpos
    simp only [Prod.mk.injEq] at hslot
    obtain ⟨hoff, hrel⟩ := hslot
    obtain ⟨i, hi, _, hfree, hstate⟩ := claim_ok_inv N _ off hoff
    have hilen := (List.getElem?_eq_some.mp hfree).1
    subst hi
    rw [← hrel, hstate]
    simp only [deref_assign, if_true]
    refine ⟨?_, ?_, ?_⟩
    · rintro ⟨b, hb, _, _⟩
      simp at hb
    · refine ⟨{ initFixedLengthBlock N raw
          relation.rd_relblock_info.rel_column_groups backend with
        rb_slotmap := (initFixedLengthBlock N raw
          relation.rd_relblock_info.rel_column_groups backend).rb_slotmap.set
            i true
        rb_free_slots := (initFixedLengthBlock N raw
          relation.rd_relblock_info.rel_column_groups backend).rb_free_slots
            - 1 }, by simp, by simp, ?_⟩
      simp [hilen]
    · rintro ⟨pos2, off2⟩ ⟨b, hb, h0, htrue⟩
      simp only at hb h0 htrue
      have hlt := (List.getElem?_eq_some.mp hb).1
      refine ⟨b, ?_, h0, htrue⟩
      simp only
      rw [List.getElem?_append_left hlt]
      exact hb

/-- The trace of `claimSlotRefs` extends the one of `claimSlots`: same
relation, and the values returned are the second components. -/
theorem claimSlots_eq_of_refs (N : Nat) (raws : Nat → RelationBlockData)
    (backend : RelationBlockBackend) :
    ∀ (n : Nat) (relation relation1 : RelationData) (refs : List (Nat × Int)),
      claimSlotRefs N raws backend n relation = (.ok refs, relation1) →
      claimSlots N raws backend n relation =
        (.ok (refs.map Prod.snd), relation1) := by
  intro n
  induction n with
  | zero =>
    intro relation relation1 refs h
    simp only [claimSlotRefs, Prod.mk.injEq, Except.ok.injEq] at h
    obtain ⟨h1, h2⟩ := h
    subst h1 h2
    rfl
  | succ n ih =>
    intro relation relation1 refs h
    simp only [claimSlotRefs] at h
    cases hprev : claimSlotRefs N raws backend n relation with
    | mk res rel0 =>
      rw [hprev] at h
      cases res with
      | error e => simp at h
      | ok refs0 =>
        simp only at h
        have hprev1 := ih relation rel0 refs0 hprev
        simp only [claimSlots, hprev1]
        cases hblock : (GetFixedLengthBlockWithFreeSlot N (raws n) rel0
            backend).1 with
        | error e => rw [hblock] at h; simp at h
        | ok found =>
          obtain ⟨pos, snapshot⟩ := found
          rw [hblock] at h
          cases hslot : GetFixedLengthSlot N (raws n) rel0 backend with
          | mk res2 rel2 =>
            rw [hslot] at h
            cases res2 with
            | error e => simp at h
            | ok off =>
              simp only [Prod.mk.injEq, Except.ok.injEq] at h
              obtain ⟨h1, h2⟩ := h
              subst h1 h2
              simp

/-- Along the trace of `claimSlotRefs` the references are pairwise distinct,
and all of them are occupied slots of the final relation. -/
theorem claimSlotRefs_nodup (N : Nat) (raws : Nat → RelationBlockData)
    (backend : RelationBlockBackend) (p : BlockListPtr)
    (hp : GetRelationBlockList backend .RELATION_FIXED_BLOCK_TYPE = .ok p) :
    ∀ (n : Nat) (relation relation1 : RelationData) (refs : List (Nat × Int)),
      claimSlotRefs N raws backend n relation = (.ok refs, relation1) →
      refs.Nodup ∧ refs.length = n ∧
        ∀ ref ∈ refs, SlotOccupied (p.deref relation1) ref := by
  intro n
  induction n with
  | zero =>
    intro relation relation1 refs h
    simp only [claimSlotRefs, Prod.mk.injEq, Except.ok.injEq] at h
    obtain ⟨h1, _⟩ := h
    subst h1
    simp
  | succ n ih =>
    intro relation relation1 refs h
    simp only [claimSlotRefs] at h
    cases hprev : claimSlotRefs N raws backend n relation with
    | mk res rel0 =>
      rw [hprev] at h
      cases res with
      | error e => simp at h
      | ok refs0 =>
        simp only at h
        obtain ⟨hnodup, hlen, hocc⟩ := ih relation rel0 refs0 hprev
        cases hblock : (GetFixedLengthBlockWithFreeSlot N (raws n) rel0
            backend).1 with
        | error e => rw [hblock] at h; simp at h
        | ok found =>
          obtain ⟨pos, snapshot⟩ := found
          rw [hblock] at h
          cases hslot : GetFixedLengthSlot N (raws n) rel0 backend with
          | mk res2 rel2 =>
            rw [hslot] at h
            cases res2 with
            | error e => simp at h
            | ok off =>
              simp only [Prod.mk.injEq, Except.ok.injEq] at h
              obtain ⟨h1, h2⟩ := h
              subst h1 h2
              obtain ⟨hnot, hnew, hkeep⟩ := GetFixedLengthSlot_occupies N
                (raws n) rel0 rel2 backend p hp pos snapshot off hblock hslot
              refine ⟨?_, by simp [hlen], ?_⟩
              · rw [List.nodup_append]
                refine ⟨hnodup, List.nodup_singleton _, ?_⟩
                intro a ha hb
                rw [List.mem_singleton] at hb
                subst hb
                exact hnot (hocc _ ha)
              · intro ref href
                rcases List.mem_append.mp href with hold | hlast
                · exact hkeep ref (hocc ref hold)
                · rw [List.mem_singleton] at hlast
                  subst hlast
                  exact hnew

/-- C14 as stated fails: with `N = 4`, five successive calls of
`GetFixedLengthSlot` on an empty VM list all return, and the values they
return, `0, 1, 2, 3, 0`, are slot indices alone and are not pairwise
distinct. -/
theorem C14_returned_indices_repeat :
    (claimSlots 4 (fun _ => zeroedChunk) .STORAGE_BACKEND_VM 5
      (emptyRelation sampleColumnGroups)).1 = .ok [0, 1, 2, 3, 0] ∧
    ¬ ([0, 1, 2, 3, 0] : List Int).Nodup :=
  ⟨rfl, by decide⟩

/-- C14, amended: the value `GetFixedLengthSlot` returns is the claimed index
alone; along every sequence of `n` calls on one relation and backend that all
return, with no release in between, the pairs made of the position of the block
a call selected and of the value it returned are pairwise distinct, there are
`n` of them, and their second components are the returned values. -/
theorem C14_block_and_index_distinct (N : Nat) (raws : Nat → RelationBlockData)
    (backend : RelationBlockBackend) (n : Nat)
    (relation relation1 : RelationData) (refs : List (Nat × Int))
    (h : claimSlotRefs N raws backend n relation = (.ok refs, relation1)) :
    refs.Nodup ∧ refs.length = n ∧
    claimSlots N raws backend n relation =
      (.ok (refs.map Prod.snd), relation1) := by
  have htrace := claimSlots_eq_of_refs N raws backend n relation relation1 refs h
  cases hp : GetRelationBlockList backend .RELATION_FIXED_BLOCK_TYPE with
  | ok p =>
    obtain ⟨h1, h2, _⟩ := claimSlotRefs_nodup N raws backend p hp n relation
      relation1 refs h
    exact ⟨h1, h2, htrace⟩
  | error e =>
    cases n with
    | zero =>
      simp only [claimSlotRefs, Prod.mk.injEq, Except.ok.injEq] at h
      obtain ⟨h1, _⟩ := h
      subst h1
      exact ⟨List.nodup_nil, rfl, htrace⟩
    | succ n =>
      exfalso
      simp only [claimSlotRefs] at h
      cases hprev : claimSlotRefs N raws backend n relation with
      | mk res rel0 =>
        rw [hprev] at h
        cases res with
        | error e1 => simp at h
        | ok refs0 =>
          simp only at h
          rw [GetFixedLengthSlot_of_raise N (raws n) rel0 backend e hp] at h
          cases hblock : (GetFixedLengthBlockWithFreeSlot N (raws n) rel0
              backend).1 with
          | error e1 => rw [hblock] at h; simp at h
          | ok found => rw [hblock] at h; simp at h

/-- Witness for C14, amended: `N = 4`, five calls on an empty VM list. -/
theorem C14_block_and_index_distinct_witness :
    ([(0, 0), (0, 1), (0, 2), (0, 3), (1, 0)] : List (Nat × Int)).Nodup ∧
    ([(0, 0), (0, 1), (0, 2), (0, 3), (1, 0)] : List (Nat × Int)).length = 5 ∧
    claimSlots 4 (fun _ => zeroedChunk) .STORAGE_BACKEND_VM 5
        (emptyRelation sampleColumnGroups) =
      (.ok (([(0, 0), (0, 1), (0, 2), (0, 3), (1, 0)] :
          List (Nat × Int)).map Prod.snd),
        (claimSlotRefs 4 (fun _ => zeroedChunk) .STORAGE_BACKEND_VM 5
          (emptyRelation sampleColumnGroups)).2) :=
  C14_block_and_index_distinct 4 (fun _ => zeroedChunk) .STORAGE_BACKEND_VM 5
    (emptyRelation sampleColumnGroups) _ _ rfl

/-! ## `Index::Compare` -/

theorem compareSwitch_of_holds (diff : ValueCompare) (expr_type : ExpressionType)
    (h : expr_type.Holds diff) : compareSwitch diff expr_type = .next := by
  cases expr_type <;> simp only [ExpressionType.Holds] at h
  all_goals first
    | (subst h; rfl)
    | (rcases h with h | h <;> subst h <;> rfl)

theorem compareSwitch_of_not_holds (diff : ValueCompare)
    (expr_type : ExpressionType) (hdiff : diff.IsOrdering)
    (htype : expr_type.IsComparison) (h : ¬ expr_type.Holds diff) :
    compareSwitch diff expr_type = .returnFalse := by
  rcases hdiff with hd | hd | hd <;> subst hd <;> cases expr_type <;>
    first
    | rfl
    | exact absurd rfl (htype _)
    | exact absurd (by simp [ExpressionType.Holds]) h

theorem compareSwitch_of_unsupported (diff : ValueCompare)
    (expr_type : ExpressionType) (hdiff : diff.IsOrdering)
    (htype : ¬ expr_type.IsComparison) :
    compareSwitch diff expr_type = .throwUnsupported := by
  cases expr_type
  case other code => rcases hdiff with hd | hd | hd <;> subst hd <;> rfl
  all_goals exact absurd (fun code h => by cases h) htype

/-- A suffix of a list that starts with `c`: where it starts, and what comes
after. -/
theorem drop_eq_cons (l : List Nat) (k c : Nat) (rest : List Nat)
    (h : l.drop k = c :: rest) :
    k < l.length ∧ l[k]? = some c ∧ l.drop (k + 1) = rest := by
  have hlt : k < l.length := by
    by_contra hge
    rw [List.drop_eq_nil_of_le (by omega)] at h
    cases h
  refine ⟨hlt, ?_, ?_⟩
  · have := List.getElem?_drop (L := l) (i := k) (j := 0)
    rw [h] at this
    simpa using this.symm
  · have := List.drop_drop 1 k l
    rw [h] at this
    simpa [Nat.add_comm] using this.symm

/-- The loop of `Index::Compare` on vectors of one length, every comparison
yielding an ordering: it returns `true` when every position from
`key_column_itr` on holds; at the first position that does not hold it
returns `false` when the expression type there is a comparison and throws
otherwise. -/
theorem compareLoop_spec {Value ValueType : Type}
    (cmp : Value → Value → ValueCompare) (index_key : Tuple Value ValueType)
    (key_column_ids : List Nat) (expr_types : List ExpressionType)
    (values : List Value)
    (hT : expr_types.length = key_column_ids.length)
    (hV : values.length = key_column_ids.length)
    (hord : ComparesAsOrdering cmp index_key key_column_ids values) :
    ∀ (rest : List Nat) (k : Nat), key_column_ids.drop k = rest →
      ((∀ i, k ≤ i → i < key_column_ids.length →
          HoldsAt cmp index_key key_column_ids expr_types values i) →
        Index.compareLoop cmp index_key expr_types values rest k = .ok true) ∧
      (∀ (i : Nat) (t : ExpressionType), k ≤ i → expr_types[i]? = some t →
        (∀ j, k ≤ j → j < i →
          HoldsAt cmp index_key key_column_ids expr_types values j) →
        ¬ HoldsAt cmp index_key key_column_ids expr_types values i →
        Index.compareLoop cmp index_key expr_types values rest k =
          if t.IsComparison then .ok false else .error (.IndexException t)) := by
  intro rest
  induction rest with
  | nil =>
    intro k hdrop
    refine ⟨fun _ => rfl, ?_⟩
    intro i t hki hti _ _
    have hlt : i < expr_types.length := (List.getElem?_eq_some.mp hti).1
    have hge : key_column_ids.length ≤ k := by
      by_contra hlt2
      have hpos : 0 < (key_column_ids.drop k).length := by
        rw [List.length_drop]; omega
      rw [hdrop] at hpos
      simp at hpos
    omega
  | cons col rest ih =>
    intro k hdrop
    obtain ⟨hk, hcol, hnext⟩ := drop_eq_cons key_column_ids k col rest hdrop
    obtain ⟨ih1, ih2⟩ := ih (k + 1) hnext
    have hv : values[k]? = some values[k] := List.getElem?_eq_getElem (by omega)
    have ht : expr_types[k]? = some expr_types[k] :=
      List.getElem?_eq_getElem (by omega)
    have hd := hord k col _ hcol hv
    have hiff : HoldsAt cmp index_key key_column_ids expr_types values k ↔
        expr_types[k].Holds (cmp (index_key.GetValue col) values[k]) := by
      constructor
      · rintro ⟨c, t, r, hc, htt, hr, hh⟩
        rw [hcol] at hc
        rw [ht] at htt
        rw [hv] at hr
        cases hc
        cases htt
        cases hr
        exact hh
      · intro hh
        exact ⟨col, _, _, hcol, ht, hv, hh⟩
    constructor
    · intro hall
      have hh := hiff.mp (hall k (le_refl _) hk)
      simp only [Index.compareLoop, hv, ht, compareSwitch_of_holds _ _ hh]
      exact ih1 (fun i hi hlt => hall i (by omega) hlt)
    · intro i t hki hti hbefore hnot
      by_cases hik : i = k
      · subst hik
        rw [ht] at hti
        cases hti
        have hnh := fun hh => hnot (hiff.mpr hh)
        by_cases hcomp : expr_types[i].IsComparison
        · simp only [Index.compareLoop, hv, ht,
            compareSwitch_of_not_holds _ _ hd hcomp hnh, hcomp, if_true]
        · simp only [Index.compareLoop, hv, ht,
            compareSwitch_of_unsupported _ _ hd hcomp, hcomp, if_false]
      · have hh := hiff.mp (hbefore k (le_refl _) (by omega))
        simp only [Index.compareLoop, hv, ht, compareSwitch_of_holds _ _ hh]
        exact ih2 i t (by omega) hti
          (fun j hj hlt => hbefore j (by omega) hlt) hnot

/-- When some position does not hold there is a first one. -/
theorem exists_first_not_holding (P : Nat → Prop) (n : Nat)
    (h : ¬ ∀ i, i < n → P i) :
    ∃ i, i < n ∧ ¬ P i ∧ ∀ j, j < i → P j := by
  classical
  have hex : ∃ i, i < n ∧ ¬ P i := by
    by_contra hno
    exact h (fun i hi => by_contra fun hp => hno ⟨i, hi, hp⟩)
  refine ⟨Nat.find hex, (Nat.find_spec hex).1, (Nat.find_spec hex).2, ?_⟩
  intro j hj
  by_contra hp
  exact Nat.find_min hex hj ⟨lt_trans hj (Nat.find_spec hex).1, hp⟩

/-- C17: for a key, and for column ids, expression types and values of one
length `n`, every expression type being one of EQ, NE, LT, LTE, GT, GTE and
every comparison yielding EQUAL, LESSTHAN or GREATERTHAN, `Index::Compare`
returns (it does not throw), and it returns `true` exactly when at every
position `i < n` the value of the key at column `key_column_ids[i]` stands in
relation `expr_types[i]` to `values[i]`; with `n = 0` it returns `true`. -/
theorem C17_compare_is_conjunction {Value ValueType : Type}
    (cmp : Value → Value → ValueCompare) (index_key : Tuple Value ValueType)
    (key_column_ids : List Nat) (expr_types : List ExpressionType)
    (values : List Value)
    (hT : expr_types.length = key_column_ids.length)
    (hV : values.length = key_column_ids.length)
    (hsupp : ∀ t ∈ expr_types, t.IsComparison)
    (hord : ComparesAsOrdering cmp index_key key_column_ids values) :
    (∃ b, Index.Compare cmp index_key key_column_ids expr_types values =
      .ok b) ∧
    (Index.Compare cmp index_key key_column_ids expr_types values = .ok true ↔
      ∀ i, i < key_column_ids.length →
        HoldsAt cmp index_key key_column_ids expr_types values i) ∧
    (key_column_ids = [] →
      Index.Compare cmp index_key key_column_ids expr_types values =
        .ok true) := by
  obtain ⟨h1, h2⟩ := compareLoop_spec cmp index_key key_column_ids expr_types
    values hT hV hord key_column_ids 0 rfl
  have hnil : key_column_ids = [] →
      Index.Compare cmp index_key key_column_ids expr_types values =
        .ok true := by
    intro hempty
    subst hempty
    rfl
  by_cases hall : ∀ i, i < key_column_ids.length →
      HoldsAt cmp index_key key_column_ids expr_types values i
  · have hres := h1 (fun i _ hi => hall i hi)
    exact ⟨⟨true, hres⟩, ⟨fun _ => hall, fun _ => hres⟩, hnil⟩
  · obtain ⟨i, hi, hnot, hbefore⟩ := exists_first_not_holding _ _ hall
    have ht : expr_types[i]? = some expr_types[i] :=
      List.getElem?_eq_getElem (by omega)
    have hcomp : expr_types[i].IsComparison :=
      hsupp _ (List.getElem_mem _)
    have hres := h2 i _ (Nat.zero_le _) ht (fun j _ hj => hbefore j hj) hnot
    simp only [hcomp, if_true] at hres
    refine ⟨⟨false, hres⟩, ⟨?_, fun h => absurd h hall⟩, hnil⟩
    intro htrue
    unfold Index.Compare at htrue
    rw [hres] at htrue
    cases htrue

/-- Witness for C17: the key `(3, 8)` against `column 0 = 3` and
`column 1 > 5`. -/
theorem C17_compare_is_conjunction_witness :
    (∃ b, Index.Compare compareInt sampleKey [0, 1]
      [.EXPRESSION_TYPE_COMPARE_EQ, .EXPRESSION_TYPE_COMPARE_GT] [3, 5] =
        .ok b) ∧
    (Index.Compare compareInt sampleKey [0, 1]
      [.EXPRESSION_TYPE_COMPARE_EQ, .EXPRESSION_TYPE_COMPARE_GT] [3, 5] =
        .ok true ↔
      ∀ i, i < [0, 1].length →
        HoldsAt compareInt sampleKey [0, 1]
          [.EXPRESSION_TYPE_COMPARE_EQ, .EXPRESSION_TYPE_COMPARE_GT] [3, 5] i) ∧
    (([0, 1] : List Nat) = [] →
      Index.Compare compareInt sampleKey [0, 1]
        [.EXPRESSION_TYPE_COMPARE_EQ, .EXPRESSION_TYPE_COMPARE_GT] [3, 5] =
          .ok true) :=
  C17_compare_is_conjunction compareInt sampleKey [0, 1]
    [.EXPRESSION_TYPE_COMPARE_EQ, .EXPRESSION_TYPE_COMPARE_GT] [3, 5] rfl rfl
    (by decide)
    (by
      intro i column_id rhs _ _
      unfold compareInt ValueCompare.IsOrdering
      split_ifs <;> simp)

/-- When every comparison yields EQUAL, LESSTHAN or GREATERTHAN, and the
column ids, expression types and values have one length, `Index::Compare`
throws `IndexException` exactly when there is a position `i` whose expression
type is none of EQ, NE, LT, LTE, GT, GTE and such that every position before
`i` holds; and when a position with one of the six types does not hold while
every position before it holds, `Index::Compare` returns `false` whatever the
expression types after that position are. -/
theorem compare_throws_iff_of_orderings {Value ValueType : Type}
    (cmp : Value → Value → ValueCompare) (index_key : Tuple Value ValueType)
    (key_column_ids : List Nat) (expr_types : List ExpressionType)
    (values : List Value)
    (hT : expr_types.length = key_column_ids.length)
    (hV : values.length = key_column_ids.length)
    (hord : ComparesAsOrdering cmp index_key key_column_ids values) :
    ((∃ t, Index.Compare cmp index_key key_column_ids expr_types values =
        .error (.IndexException t)) ↔
      ∃ (i column_id : Nat) (t : ExpressionType) (rhs : Value),
        key_column_ids[i]? = some column_id ∧ expr_types[i]? = some t ∧
        values[i]? = some rhs ∧ ¬ t.IsComparison ∧
        (cmp (index_key.GetValue column_id) rhs).IsOrdering ∧
        ∀ j, j < i →
          HoldsAt cmp index_key key_column_ids expr_types values j) ∧
    (∀ (i : Nat) (t : ExpressionType), expr_types[i]? = some t →
      t.IsComparison →
      (∀ j, j < i → HoldsAt cmp index_key key_column_ids expr_types values j) →
      ¬ HoldsAt cmp index_key key_column_ids expr_types values i →
      Index.Compare cmp index_key key_column_ids expr_types values =
        .ok false) := by
  obtain ⟨h1, h2⟩ := compareLoop_spec cmp index_key key_column_ids expr_types
    values hT hV hord key_column_ids 0 rfl
  have hunsupported : ∀ (i : Nat) (t : ExpressionType),
      expr_types[i]? = some t → ¬ t.IsComparison →
      ¬ HoldsAt cmp index_key key_column_ids expr_types values i := by
    rintro i t ht hcomp ⟨c, t1, r, _, ht1, _, hh⟩
    rw [ht] at ht1
    cases ht1
    cases t
    case other code => exact hh
    all_goals exact hcomp (fun code h => by cases h)
  refine ⟨⟨?_, ?_⟩, ?_⟩
  · rintro ⟨t, hthrow⟩
    by_cases hall : ∀ i, i < key_column_ids.length →
        HoldsAt cmp index_key key_column_ids expr_types values i
    · have hres := h1 (fun i _ hi => hall i hi)
      unfold Index.Compare at hthrow
      rw [hres] at hthrow
      cases hthrow
    · obtain ⟨i, hi, hnot, hbefore⟩ := exists_first_not_holding _ _ hall
      have ht : expr_types[i]? = some expr_types[i] :=
        List.getElem?_eq_getElem (by omega)
      have hv : values[i]? = some values[i] :=
        List.getElem?_eq_getElem (by omega)
      have hc : key_column_ids[i]? = some key_column_ids[i] :=
        List.getElem?_eq_getElem hi
      have hres := h2 i _ (Nat.zero_le _) ht (fun j _ hj => hbefore j hj) hnot
      by_cases hcomp : expr_types[i].IsComparison
      · simp only [hcomp, if_true] at hres
        unfold Index.Compare at hthrow
        rw [hres] at hthrow
        cases hthrow
      · exact ⟨i, _, _, _, hc, ht, hv, hcomp, hord i _ _ hc hv, hbefore⟩
  · rintro ⟨i, c, t, r, _, ht, _, hcomp, _, hbefore⟩
    have hres := h2 i t (Nat.zero_le _) ht (fun j _ hj => hbefore j hj)
      (hunsupported i t ht hcomp)
    simp only [hcomp, if_false] at hres
    exact ⟨t, hres⟩
  · intro i t ht hcomp hbefore hnot
    have hres := h2 i t (Nat.zero_le _) ht (fun j _ hj => hbefore j hj) hnot
    simp only [hcomp, if_true] at hres
    exact hres

/-- The key `(3, 8)`: `column 0 = 4` does not hold, and the unsupported
expression type at the next position is not reported. -/
theorem compare_returns_false_sample :
    Index.Compare compareInt sampleKey [0, 1]
      [.EXPRESSION_TYPE_COMPARE_EQ, .other 99] [4, 5] = .ok false :=
  (compare_throws_iff_of_orderings compareInt sampleKey [0, 1]
    [.EXPRESSION_TYPE_COMPARE_EQ, .other 99] [4, 5] rfl rfl
    (by
      intro i column_id rhs _ _
      unfold compareInt ValueCompare.IsOrdering
      split_ifs <;> simp)).2 0 .EXPRESSION_TYPE_COMPARE_EQ rfl (by decide)
    (fun j hj => absurd hj (Nat.not_lt_zero j))
    (by
      rintro ⟨c, t, r, hc, ht, hr, hh⟩
      cases hc
      cases ht
      cases hr
      revert hh
      decide)

/-- The unsupported expression type is reported when the position before it
holds: the key `(3, 8)` against `column 0 = 3` and an unsupported type. -/
theorem Compare_throws_sample :
    Index.Compare compareInt sampleKey [0, 1]
      [.EXPRESSION_TYPE_COMPARE_EQ, .other 99] [3, 5] =
        .error (.IndexException (.other 99)) :=
  rfl

/-! ## `Index::SetLowerBoundTuple` -/

theorem findDistance_le (l : List Nat) (c : Nat) : findDistance l c ≤ l.length := by
  induction l with
  | nil => simp [findDistance]
  | cons x rest ih =>
    simp only [findDistance]
    split_ifs
    · exact Nat.zero_le _
    · simp only [List.length_cons]
      omega

/-- An offset below the size is the first occurrence of the column id. -/
theorem findDistance_first (l : List Nat) (c : Nat)
    (h : findDistance l c < l.length) :
    IsFirstOccurrence l c (findDistance l c) := by
  induction l with
  | nil => simp at h
  | cons x rest ih =>
    simp only [findDistance] at h ⊢
    by_cases hx : x = c
    · simp only [hx, if_true]
      exact ⟨by simp, fun j hj => absurd hj (Nat.not_lt_zero j)⟩
    · simp only [hx, if_false] at h ⊢
      obtain ⟨h1, h2⟩ := ih (by simpa using h)
      refine ⟨by simpa using h1, ?_⟩
      intro j hj
      cases j with
      | zero => simpa using hx
      | succ j => simpa using h2 j (by omega)

/-- An offset equal to the size means that the column id does not occur. -/
theorem findDistance_absent (l : List Nat) (c : Nat)
    (h : findDistance l c = l.length) : ∀ j : Nat, l[j]? ≠ some c := by
  induction l with
  | nil => intro j; simp
  | cons x rest ih =>
    simp only [findDistance] at h
    by_cases hx : x = c
    · simp [hx] at h
    · simp only [hx, if_false, List.length_cons, Nat.add_right_cancel_iff] at h
      intro j
      cases j with
      | zero => simpa using hx
      | succ j => simpa using ih h j

/-- The offset found is the first occurrence, when there is one. -/
theorem findDistance_eq_of_first (l : List Nat) (c offset : Nat)
    (h : IsFirstOccurrence l c offset) : findDistance l c = offset := by
  have hlt : offset < l.length := (List.getElem?_eq_some.mp h.1).1
  by_cases hfound : findDistance l c < l.length
  · obtain ⟨h1, h2⟩ := findDistance_first l c hfound
    by_contra hne
    rcases Nat.lt_or_gt_of_ne hne with hlt2 | hgt2
    · exact h.2 _ hlt2 h1
    · exact h2 _ hgt2 h.1
  · have hle := findDistance_le l c
    exact absurd h.1 (findDistance_absent l c (by omega) offset)

/-- The loop of `Index::SetLowerBoundTuple` when the expression types and the
values are at least as many as the column ids: it ends by returning; the flag
it returns is `true` exactly when it was `true` before and no column still to
visit clears it; the columns still to visit hold what their iteration
stored, the other columns and the schema are as before. -/
theorem lowerBoundLoop_spec {Value ValueType : Type}
    (GetMinValue : ValueType → Value) (schema : Schema ValueType)
    (values : List Value) (key_column_ids : List Nat)
    (expr_types : List ExpressionType)
    (hT : key_column_ids.length ≤ expr_types.length)
    (hV : key_column_ids.length ≤ values.length) :
    ∀ (fuel column_itr : Nat) (all_equal : Bool)
      (index_key : Tuple Value ValueType),
      column_itr + fuel = schema.column_count →
      ∃ (b : Bool) (index_key1 : Tuple Value ValueType),
        Index.lowerBoundLoop GetMinValue schema values key_column_ids
          expr_types fuel column_itr all_equal index_key =
            .ok (b, index_key1) ∧
        index_key1.schema = index_key.schema ∧
        (b = true ↔ all_equal = true ∧
          ∀ c, column_itr ≤ c → c < schema.column_count →
            EqOrAbsentAt key_column_ids expr_types c) ∧
        (∀ c, c < column_itr ∨ schema.column_count ≤ c →
          index_key1.data c = index_key.data c) ∧
        (∀ c, column_itr ≤ c → c < schema.column_count →
          LowerBoundCell GetMinValue schema values key_column_ids expr_types c
            (index_key1.data c)) := by
  intro fuel
  induction fuel with
  | zero =>
    intro column_itr all_equal index_key hsum
    refine ⟨all_equal, index_key, rfl, rfl, ?_, fun _ _ => rfl, ?_⟩
    · constructor
      · intro h
        exact ⟨h, fun c h1 h2 => by omega⟩
      · intro h
        exact h.1
    · intro c h1 h2
      omega
  | succ fuel ih =>
    intro column_itr all_equal index_key hsum
    have hlt : column_itr < schema.column_count := by omega
    have hle := findDistance_le key_column_ids column_itr
    simp only [Index.lowerBoundLoop, hlt, if_true]
    by_cases hfound : findDistance key_column_ids column_itr
        = key_column_ids.length
    · simp only [hfound, ne_eq, not_true_eq_false, if_false]
      obtain ⟨b, key1, hrun, hschema, hflag, hframe, hcells⟩ :=
        ih (column_itr + 1) all_equal
          (index_key.SetValue column_itr
            (GetMinValue (schema.column_type column_itr))) (by omega)
      refine ⟨b, key1, hrun, hschema, ?_, ?_, ?_⟩
      · rw [hflag]
        constructor
        · rintro ⟨h1, h2⟩
          refine ⟨h1, fun c hc1 hc2 => ?_⟩
          by_cases hc : c = column_itr
          · subst hc; exact Or.inl hfound
          · exact h2 c (by omega) hc2
        · rintro ⟨h1, h2⟩
          exact ⟨h1, fun c hc1 hc2 => h2 c (by omega) hc2⟩
      · intro c hc
        rw [hframe c (by omega)]
        have hne : c ≠ column_itr := by omega
        simp [Tuple.SetValue, hne]
      · intro c hc1 hc2
        by_cases hc : c = column_itr
        · subst hc
          rw [hframe c (by omega)]
          refine Or.inr ⟨fun h => h.1 hfound, ?_⟩
          simp [Tuple.SetValue]
        · exact hcells c (by omega) hc2
    · simp only [ne_eq, hfound, not_false_eq_true, if_true]
      have hoff : findDistance key_column_ids column_itr < expr_types.length := by
        omega
      have hoffv : findDistance key_column_ids column_itr < values.length := by
        omega
      rw [List.getElem?_eq_getElem hoff]
      simp only
      by_cases heq : expr_types[findDistance key_column_ids column_itr]
          = .EXPRESSION_TYPE_COMPARE_EQ
      · simp only [heq, if_true]
        rw [List.getElem?_eq_getElem hoffv]
        simp only
        obtain ⟨b, key1, hrun, hschema, hflag, hframe, hcells⟩ :=
          ih (column_itr + 1) all_equal
            (index_key.SetValue column_itr
              values[findDistance key_column_ids column_itr]) (by omega)
        refine ⟨b, key1, hrun, hschema, ?_, ?_, ?_⟩
        · rw [hflag]
          constructor
          · rintro ⟨h1, h2⟩
            refine ⟨h1, fun c hc1 hc2 => ?_⟩
            by_cases hc : c = column_itr
            · subst hc
              exact Or.inr (by rw [List.getElem?_eq_getElem hoff, heq])
            · exact h2 c (by omega) hc2
          · rintro ⟨h1, h2⟩
            exact ⟨h1, fun c hc1 hc2 => h2 c (by omega) hc2⟩
        · intro c hc
          rw [hframe c (by omega)]
          have hne : c ≠ column_itr := by omega
          simp [Tuple.SetValue, hne]
        · intro c hc1 hc2
          by_cases hc : c = column_itr
          · subst hc
            rw [hframe c (by omega)]
            refine Or.inl ⟨hfound, by rw [List.getElem?_eq_getElem hoff, heq], ?_⟩
            rw [List.getElem?_eq_getElem hoffv]
            simp [Tuple.SetValue]
          · exact hcells c (by omega) hc2
      · simp only [heq, if_false]
        obtain ⟨b, key1, hrun, hschema, hflag, hframe, hcells⟩ :=
          ih (column_itr + 1) false
            (index_key.SetValue column_itr
              (GetMinValue (schema.column_type column_itr))) (by omega)
        have hnoteq : ¬ EqOrAbsentAt key_column_ids expr_types column_itr := by
          rintro (h | h)
          · exact hfound h
          · rw [List.getElem?_eq_getElem hoff] at h
            exact heq (Option.some.inj h)
        refine ⟨b, key1, hrun, hschema, ?_, ?_, ?_⟩
        · rw [hflag]
          constructor
          · rintro ⟨h1, _⟩
            cases h1
          · rintro ⟨_, h2⟩
            exact absurd (h2 column_itr (le_refl _) hlt) hnoteq
        · intro c hc
          rw [hframe c (by omega)]
          have hne : c ≠ column_itr := by omega
          simp [Tuple.SetValue, hne]
        · intro c hc1 hc2
          by_cases hc : c = column_itr
          · subst hc
            rw [hframe c (by omega)]
            refine Or.inr ⟨fun h => ?_, ?_⟩
            · rw [List.getElem?_eq_getElem hoff] at h
              exact heq (Option.some.inj h.2)
            · simp [Tuple.SetValue]
          · exact hcells c (by omega) hc2

/-- The result of `Index::SetLowerBoundTuple` in terms of the offsets found by
`std::find`. -/
theorem SetLowerBoundTuple_spec {Value ValueType : Type}
    (GetMinValue : ValueType → Value) (index_key : Tuple Value ValueType)
    (values : List Value) (key_column_ids : List Nat)
    (expr_types : List ExpressionType)
    (hT : key_column_ids.length ≤ expr_types.length)
    (hV : key_column_ids.length ≤ values.length) :
    ∃ (b : Bool) (index_key1 : Tuple Value ValueType),
      Index.SetLowerBoundTuple GetMinValue index_key values key_column_ids
        expr_types = .ok (b, index_key1) ∧
      index_key1.schema = index_key.schema ∧
      (b = true ↔ index_key.schema.column_count ≤ values.length ∧
        ∀ c, c < index_key.schema.column_count →
          EqOrAbsentAt key_column_ids expr_types c) ∧
      (∀ c, index_key.schema.column_count ≤ c →
        index_key1.data c = index_key.data c) ∧
      (∀ c, c < index_key.schema.column_count →
        LowerBoundCell GetMinValue index_key.schema values key_column_ids
          expr_types c (index_key1.data c)) := by
  obtain ⟨b, key1, hrun, hschema, hflag, hframe, hcells⟩ :=
    lowerBoundLoop_spec GetMinValue index_key.schema values key_column_ids
      expr_types hT hV index_key.schema.column_count 0 true index_key
      (by omega)
  unfold Index.SetLowerBoundTuple
  simp only [hrun]
  by_cases hcount : index_key.schema.column_count > values.length
  · simp only [hcount, if_true]
    refine ⟨false, key1, rfl, hschema, ?_, fun c hc => hframe c (Or.inr hc),
      fun c hc => hcells c (Nat.zero_le _) hc⟩
    constructor
    · intro h; cases h
    · rintro ⟨h, _⟩; omega
  · simp only [hcount, if_false]
    refine ⟨b, key1, rfl, hschema, ?_, fun c hc => hframe c (Or.inr hc),
      fun c hc => hcells c (Nat.zero_le _) hc⟩
    rw [hflag]
    constructor
    · rintro ⟨_, h2⟩
      exact ⟨by omega, fun c hc => h2 c (Nat.zero_le _) hc⟩
    · rintro ⟨_, h2⟩
      exact ⟨rfl, fun c _ hc => h2 c hc⟩

/-- C19: when the expression types and the values are at least as many as the
column ids (no read past the end of a vector), `Index::SetLowerBoundTuple`
returns, and in the key it leaves, for every column `c` below `col_count`:
if `c` occurs in `key_column_ids` and the expression type at its first
occurrence is EQ, column `c` holds the value at that position; if `c` does not
occur, or the expression type at its first occurrence is not EQ (whatever the
later occurrences of `c` are), column `c` holds the minimum value of the type
of the column. -/
theorem C19_lower_bound_key {Value ValueType : Type}
    (GetMinValue : ValueType → Value) (index_key : Tuple Value ValueType)
    (values : List Value) (key_column_ids : List Nat)
    (expr_types : List ExpressionType)
    (hT : key_column_ids.length ≤ expr_types.length)
    (hV : key_column_ids.length ≤ values.length) :
    ∃ (b : Bool) (index_key1 : Tuple Value ValueType),
      Index.SetLowerBoundTuple GetMinValue index_key values key_column_ids
        expr_types = .ok (b, index_key1) ∧
      ∀ c, c < index_key.schema.column_count →
        (∀ (offset : Nat) (value : Value),
          IsFirstOccurrence key_column_ids c offset →
          expr_types[offset]? = some .EXPRESSION_TYPE_COMPARE_EQ →
          values[offset]? = some value →
          index_key1.GetValue c = value) ∧
        ((∀ j : Nat, key_column_ids[j]? ≠ some c) →
          index_key1.GetValue c =
            GetMinValue (index_key.schema.column_type c)) ∧
        (∀ offset : Nat, IsFirstOccurrence key_column_ids c offset →
          expr_types[offset]? ≠ some .EXPRESSION_TYPE_COMPARE_EQ →
          index_key1.GetValue c =
            GetMinValue (index_key.schema.column_type c)) := by
  obtain ⟨b, key1, hrun, _, _, _, hcells⟩ := SetLowerBoundTuple_spec GetMinValue
    index_key values key_column_ids expr_types hT hV
  refine ⟨b, key1, hrun, ?_⟩
  intro c hc
  have hcell := hcells c hc
  refine ⟨?_, ?_, ?_⟩
  · intro offset value hfirst heq hval
    have hoff := findDistance_eq_of_first key_column_ids c offset hfirst
    rcases hcell with ⟨_, _, hv⟩ | ⟨hnot, _⟩
    · rw [hoff, hval] at hv
      exact (Option.some.inj hv).symm
    · exfalso
      apply hnot
      rw [hoff]
      exact ⟨by have := (List.getElem?_eq_some.mp hfirst.1).1; omega, heq⟩
  · intro habsent
    rcases hcell with ⟨hfound, _, _⟩ | ⟨_, hv⟩
    · have hlt : findDistance key_column_ids c < key_column_ids.length := by
        have := findDistance_le key_column_ids c
        omega
      exact absurd (findDistance_first key_column_ids c hlt).1 (habsent _)
    · exact hv
  · intro offset hfirst hne
    have hoff := findDistance_eq_of_first key_column_ids c offset hfirst
    rcases hcell with ⟨_, heq, _⟩ | ⟨_, hv⟩
    · rw [hoff] at heq
      exact absurd heq hne
    · exact hv

/-- Witness for C19: three columns; column `0` is constrained first by LT and
later by EQ, column `1` by EQ, column `2` not at all: columns `0` and `2` hold
the minimum value, column `1` holds `7`. -/
theorem C19_lower_bound_key_witness :
    ∃ (b : Bool) (index_key1 : Tuple Int Unit),
      Index.SetLowerBoundTuple sampleMinValue
        { sampleKey with schema := { sampleKey.schema with column_count := 3 } }
        [5, 6, 7] [0, 0, 1]
        [.EXPRESSION_TYPE_COMPARE_LT, .EXPRESSION_TYPE_COMPARE_EQ,
          .EXPRESSION_TYPE_COMPARE_EQ] = .ok (b, index_key1) ∧
      index_key1.GetValue 0 = -1000 ∧ index_key1.GetValue 1 = 7 ∧
      index_key1.GetValue 2 = -1000 :=
  (C19_lower_bound_key sampleMinValue
    { sampleKey with schema := { sampleKey.schema with column_count := 3 } }
    [5, 6, 7] [0, 0, 1]
    [.EXPRESSION_TYPE_COMPARE_LT, .EXPRESSION_TYPE_COMPARE_EQ,
      .EXPRESSION_TYPE_COMPARE_EQ] (by decide) (by decide)).imp
    fun _ hb => hb.imp fun _ hk =>
      ⟨hk.1,
        (hk.2 0 (by decide)).2.2 0 ⟨rfl, by decide⟩ (by decide),
        (hk.2 1 (by decide)).1 2 7 ⟨rfl, by decide⟩ rfl rfl,
        (hk.2 2 (by decide)).2.1 (by
          intro j
          rcases j with _ | _ | _ | j <;> simp)⟩

/-- C20: when the expression types and the values are at least as many as the
column ids (no read past the end of a vector), `Index::SetLowerBoundTuple`
returns, and it returns `true` exactly when `col_count ≤ values.size()` and
every column below `col_count` that occurs in `key_column_ids` has expression
type EQ at its first occurrence; a column that does not occur is no part of
that condition, and the key holds the minimum value in it whether the result
is `true` or not. -/
theorem C20_lower_bound_result {Value ValueType : Type}
    (GetMinValue : ValueType → Value) (index_key : Tuple Value ValueType)
    (values : List Value) (key_column_ids : List Nat)
    (expr_types : List ExpressionType)
    (hT : key_column_ids.length ≤ expr_types.length)
    (hV : key_column_ids.length ≤ values.length) :
    ∃ (b : Bool) (index_key1 : Tuple Value ValueType),
      Index.SetLowerBoundTuple GetMinValue index_key values key_column_ids
        expr_types = .ok (b, index_key1) ∧
      (b = true ↔
        index_key.schema.column_count ≤ values.length ∧
        ∀ (c offset : Nat), c < index_key.schema.column_count →
          IsFirstOccurrence key_column_ids c offset →
          expr_types[offset]? = some .EXPRESSION_TYPE_COMPARE_EQ) ∧
      ∀ c, c < index_key.schema.column_count →
        (∀ j : Nat, key_column_ids[j]? ≠ some c) →
        index_key1.GetValue c =
          GetMinValue (index_key.schema.column_type c) := by
  obtain ⟨b, key1, hrun, _, hflag, _, hcells⟩ := SetLowerBoundTuple_spec
    GetMinValue index_key values key_column_ids expr_types hT hV
  refine ⟨b, key1, hrun, ?_, ?_⟩
  · rw [hflag]
    constructor
    · rintro ⟨hcount, hall⟩
      refine ⟨hcount, ?_⟩
      intro c offset hc hfirst
      have hoff := findDistance_eq_of_first key_column_ids c offset hfirst
      rcases hall c hc with habs | heq
      · exact absurd hfirst.1 (findDistance_absent key_column_ids c habs offset)
      · rw [hoff] at heq
        exact heq
    · rintro ⟨hcount, hall⟩
      refine ⟨hcount, ?_⟩
      intro c hc
      by_cases hfound : findDistance key_column_ids c = key_column_ids.length
      · exact Or.inl hfound
      · have hlt : findDistance key_column_ids c < key_column_ids.length := by
          have := findDistance_le key_column_ids c
          omega
        exact Or.inr (hall c _ hc (findDistance_first key_column_ids c hlt))
  · intro c hc habsent
    rcases hcells c hc with ⟨hfound, _, _⟩ | ⟨_, hv⟩
    · have hlt : findDistance key_column_ids c < key_column_ids.length := by
        have := findDistance_le key_column_ids c
        omega
      exact absurd (findDistance_first key_column_ids c hlt).1 (habsent _)
    · exact hv

/-- Witness for C20: two columns, two values, one constraint `column 0 = 5`:
the result is `true` although column `1`, which is not constrained, holds the
minimum value. -/
theorem C20_lower_bound_result_witness :
    ∃ index_key1 : Tuple Int Unit,
      Index.SetLowerBoundTuple sampleMinValue sampleKey [5, 9] [0]
        [.EXPRESSION_TYPE_COMPARE_EQ] = .ok (true, index_key1) ∧
      index_key1.GetValue 1 = sampleMinValue (sampleKey.schema.column_type 1) :=
  (C20_lower_bound_result sampleMinValue sampleKey [5, 9] [0]
    [.EXPRESSION_TYPE_COMPARE_EQ] (by decide) (by decide)).elim
    fun b hb => hb.elim fun key1 hk =>
      have htrue : b = true := hk.2.1.mpr ⟨by decide, by
        intro c offset hc hfirst
        have h0 : offset = 0 := by
          have := (List.getElem?_eq_some.mp hfirst.1).1
          simp at this
          omega
        subst h0
        rfl⟩
      ⟨key1, by rw [← htrue]; exact hk.1,
        hk.2.2 1 (by decide) (by
          intro j
          rcases j with _ | j <;> simp)⟩

/-! ## `Index::Compare` when a comparison is none of the three orderings -/

theorem compareSwitch_of_not_ordering (diff : ValueCompare)
    (expr_type : ExpressionType) (h : ¬ diff.IsOrdering) :
    compareSwitch diff expr_type = .next := by
  cases diff
  case other code => rfl
  all_goals exact absurd (by simp [ValueCompare.IsOrdering]) h

/-- The loop of `Index::Compare` on vectors of one length, whatever the
comparisons yield: it returns `true` when every position from
`key_column_itr` on holds or is skipped; at the first position that neither
holds nor is skipped it returns `false` when the expression type there is a
comparison and throws otherwise. -/
theorem compareLoop_general {Value ValueType : Type}
    (cmp : Value → Value → ValueCompare) (index_key : Tuple Value ValueType)
    (key_column_ids : List Nat) (expr_types : List ExpressionType)
    (values : List Value)
    (hT : expr_types.length = key_column_ids.length)
    (hV : values.length = key_column_ids.length) :
    ∀ (rest : List Nat) (k : Nat), key_column_ids.drop k = rest →
      ((∀ i, k ≤ i → i < key_column_ids.length →
          HoldsAt cmp index_key key_column_ids expr_types values i ∨
            SkippedAt cmp index_key key_column_ids values i) →
        Index.compareLoop cmp index_key expr_types values rest k = .ok true) ∧
      (∀ (i : Nat) (t : ExpressionType), k ≤ i → expr_types[i]? = some t →
        (∀ j, k ≤ j → j < i →
          HoldsAt cmp index_key key_column_ids expr_types values j ∨
            SkippedAt cmp index_key key_column_ids values j) →
        ¬ (HoldsAt cmp index_key key_column_ids expr_types values i ∨
            SkippedAt cmp index_key key_column_ids values i) →
        Index.compareLoop cmp index_key expr_types values rest k =
          if t.IsComparison then .ok false else .error (.IndexException t)) := by
  intro rest
  induction rest with
  | nil =>
    intro k hdrop
    refine ⟨fun _ => rfl, ?_⟩
    intro i t hki hti _ _
    have hlt : i < expr_types.length := (List.getElem?_eq_some.mp hti).1
    have hge : key_column_ids.length ≤ k := by
      by_contra hlt2
      have hpos : 0 < (key_column_ids.drop k).length := by
        rw [List.length_drop]; omega
      rw [hdrop] at hpos
      simp at hpos
    omega
  | cons col rest ih =>
    intro k hdrop
    obtain ⟨hk, hcol, hnext⟩ := drop_eq_cons key_column_ids k col rest hdrop
    obtain ⟨ih1, ih2⟩ := ih (k + 1) hnext
    have hv : values[k]? = some values[k] := List.getElem?_eq_getElem (by omega)
    have ht : expr_types[k]? = some expr_types[k] :=
      List.getElem?_eq_getElem (by omega)
    have hiff : HoldsAt cmp index_key key_column_ids expr_types values k ↔
        expr_types[k].Holds (cmp (index_key.GetValue col) values[k]) := by
      constructor
      · rintro ⟨c, t, r, hc, htt, hr, hh⟩
        rw [hcol] at hc
        rw [ht] at htt
        rw [hv] at hr
        cases hc
        cases htt
        cases hr
        exact hh
      · intro hh
        exact ⟨col, _, _, hcol, ht, hv, hh⟩
    have hskip : SkippedAt cmp index_key key_column_ids values k ↔
        ¬ (cmp (index_key.GetValue col) values[k]).IsOrdering := by
      constructor
      · rintro ⟨c, r, hc, hr, hh⟩
        rw [hcol] at hc
        rw [hv] at hr
        cases hc
        cases hr
        exact hh
      · intro hh
        exact ⟨col, _, hcol, hv, hh⟩
    have hpass : (HoldsAt cmp index_key key_column_ids expr_types values k ∨
        SkippedAt cmp index_key key_column_ids values k) →
        compareSwitch (cmp (index_key.GetValue col) values[k]) expr_types[k] =
          .next := by
      rintro (hh | hs)
      · exact compareSwitch_of_holds _ _ (hiff.mp hh)
      · exact compareSwitch_of_not_ordering _ _ (hskip.mp hs)
    constructor
    · intro hall
      simp only [Index.compareLoop, hv, ht, hpass (hall k (le_refl _) hk)]
      exact ih1 (fun i hi hlt => hall i (by omega) hlt)
    · intro i t hki hti hbefore hnot
      by_cases hik : i = k
      · subst hik
        rw [ht] at hti
        cases hti
        have hnh : ¬ expr_types[i].Holds
            (cmp (index_key.GetValue col) values[i]) :=
          fun hh => hnot (Or.inl (hiff.mpr hh))
        have hd : (cmp (index_key.GetValue col) values[i]).IsOrdering := by
          by_contra hno
          exact hnot (Or.inr (hskip.mpr hno))
        by_cases hcomp : expr_types[i].IsComparison
        · simp only [Index.compareLoop, hv, ht,
            compareSwitch_of_not_holds _ _ hd hcomp hnh, hcomp, if_true]
        · simp only [Index.compareLoop, hv, ht,
            compareSwitch_of_unsupported _ _ hd hcomp, hcomp, if_false]
      · simp only [Index.compareLoop, hv, ht,
          hpass (hbefore k (le_refl _) (by omega))]
        exact ih2 i t (by omega) hti
          (fun j hj hlt => hbefore j (by omega) hlt) hnot

/-- C18 as stated fails: on the key `(null, 8)` with `column 0 = 4` and an
unsupported expression type on column `1`, the comparison at position `0`
yields none of the three orderings, the loop passes that position without
testing it, and `Index::Compare` throws at position `1`, although position `0`
does not hold: no position has an unsupported type, a comparison that is an
ordering and only holding positions before it. -/
theorem C18_compare_throws_after_skipped_position :
    Index.Compare compareNullable nullableKey [0, 1]
        [.EXPRESSION_TYPE_COMPARE_EQ, .other 99] [some 4, some 5] =
      .error (.IndexException (.other 99)) ∧
    ¬ ∃ (i column_id : Nat) (t : ExpressionType) (rhs : Option Int),
      ([0, 1] : List Nat)[i]? = some column_id ∧
      ([.EXPRESSION_TYPE_COMPARE_EQ, .other 99] : List ExpressionType)[i]? =
        some t ∧
      ([some 4, some 5] : List (Option Int))[i]? = some rhs ∧
      ¬ t.IsComparison ∧
      (compareNullable (nullableKey.GetValue column_id) rhs).IsOrdering ∧
      ∀ j, j < i →
        HoldsAt compareNullable nullableKey [0, 1]
          [.EXPRESSION_TYPE_COMPARE_EQ, .other 99] [some 4, some 5] j := by
  refine ⟨rfl, ?_⟩
  rintro ⟨i, c, t, r, hc, ht, hr, hcomp, _, hbefore⟩
  rcases i with _ | _ | i
  · simp only [List.getElem?_cons_zero, Option.some.injEq] at ht
    subst ht
    exact hcomp (by decide)
  · obtain ⟨c0, t0, r0, hc0, ht0, hr0, hh⟩ := hbefore 0 (by omega)
    simp only [List.getElem?_cons_zero, Option.some.injEq] at hc0 ht0 hr0
    subst hc0 ht0 hr0
    revert hh
    decide
  · simp at hc

/-- C18, amended: for column ids, expression types and values of one length,
`Index::Compare` throws `IndexException` exactly when there is a position `i`
whose expression type is none of EQ, NE, LT, LTE, GT, GTE, whose comparison
yields EQUAL, LESSTHAN or GREATERTHAN, and such that every position before `i`
holds or has a comparison that yields none of the three (the loop passes such
a position without testing it); and when a position with one of the six types
and a comparison among the three does not hold, every position before it
holding or being passed, `Index::Compare` returns `false` whatever the
expression types after that position are. -/
theorem C18_compare_throws_iff_unskipped {Value ValueType : Type}
    (cmp : Value → Value → ValueCompare) (index_key : Tuple Value ValueType)
    (key_column_ids : List Nat) (expr_types : List ExpressionType)
    (values : List Value)
    (hT : expr_types.length = key_column_ids.length)
    (hV : values.length = key_column_ids.length) :
    ((∃ t, Index.Compare cmp index_key key_column_ids expr_types values =
        .error (.IndexException t)) ↔
      ∃ (i column_id : Nat) (t : ExpressionType) (rhs : Value),
        key_column_ids[i]? = some column_id ∧ expr_types[i]? = some t ∧
        values[i]? = some rhs ∧ ¬ t.IsComparison ∧
        (cmp (index_key.GetValue column_id) rhs).IsOrdering ∧
        ∀ j, j < i →
          HoldsAt cmp index_key key_column_ids expr_types values j ∨
            SkippedAt cmp index_key key_column_ids values j) ∧
    (∀ (i column_id : Nat) (t : ExpressionType) (rhs : Value),
      key_column_ids[i]? = some column_id → expr_types[i]? = some t →
      values[i]? = some rhs → t.IsComparison →
      (cmp (index_key.GetValue column_id) rhs).IsOrdering →
      ¬ t.Holds (cmp (index_key.GetValue column_id) rhs) →
      (∀ j, j < i →
        HoldsAt cmp index_key key_column_ids expr_types values j ∨
          SkippedAt cmp index_key key_column_ids values j) →
      Index.Compare cmp index_key key_column_ids expr_types values =
        .ok false) := by
  obtain ⟨h1, h2⟩ := compareLoop_general cmp index_key key_column_ids
    expr_types values hT hV key_column_ids 0 rfl
  have hstops : ∀ (i column_id : Nat) (t : ExpressionType) (rhs : Value),
      key_column_ids[i]? = some column_id → expr_types[i]? = some t →
      values[i]? = some rhs →
      (cmp (index_key.GetValue column_id) rhs).IsOrdering →
      ¬ t.Holds (cmp (index_key.GetValue column_id) rhs) →
      ¬ (HoldsAt cmp index_key key_column_ids expr_types values i ∨
          SkippedAt cmp index_key key_column_ids values i) := by
    intro i c t r hc ht hr hd hnh
    rintro (⟨c1, t1, r1, hc1, ht1, hr1, hh⟩ | ⟨c1, r1, hc1, hr1, hno⟩)
    · rw [hc] at hc1
      rw [ht] at ht1
      rw [hr] at hr1
      cases hc1
      cases ht1
      cases hr1
      exact hnh hh
    · rw [hc] at hc1
      rw [hr] at hr1
      cases hc1
      cases hr1
      exact hno hd
  have hnohold : ∀ (t : ExpressionType) (d : ValueCompare),
      ¬ t.IsComparison → ¬ t.Holds d := by
    intro t d hcomp hh
    cases t
    case other code => exact hh
    all_goals exact hcomp (fun code h => by cases h)
  refine ⟨⟨?_, ?_⟩, ?_⟩
  · rintro ⟨t, hthrow⟩
    by_cases hall : ∀ i, i < key_column_ids.length →
        HoldsAt cmp index_key key_column_ids expr_types values i ∨
          SkippedAt cmp index_key key_column_ids values i
    · have hres := h1 (fun i _ hi => hall i hi)
      unfold Index.Compare at hthrow
      rw [hres] at hthrow
      cases hthrow
    · obtain ⟨i, hi, hnot, hbefore⟩ := exists_first_not_holding _ _ hall
      have ht : expr_types[i]? = some expr_types[i] :=
        List.getElem?_eq_getElem (by omega)
      have hv : values[i]? = some values[i] :=
        List.getElem?_eq_getElem (by omega)
      have hc : key_column_ids[i]? = some key_column_ids[i] :=
        List.getElem?_eq_getElem hi
      have hres := h2 i _ (Nat.zero_le _) ht (fun j _ hj => hbefore j hj) hnot
      have hd : (cmp (index_key.GetValue key_column_ids[i])
          values[i]).IsOrdering := by
        by_contra hno
        exact hnot (Or.inr ⟨_, _, hc, hv, hno⟩)
      by_cases hcomp : expr_types[i].IsComparison
      · simp only [hcomp, if_true] at hres
        unfold Index.Compare at hthrow
        rw [hres] at hthrow
        cases hthrow
      · exact ⟨i, _, _, _, hc, ht, hv, hcomp, hd, hbefore⟩
  · rintro ⟨i, c, t, r, hc, ht, hr, hcomp, hd, hbefore⟩
    have hres := h2 i t (Nat.zero_le _) ht (fun j _ hj => hbefore j hj)
      (hstops i c t r hc ht hr hd (hnohold t _ hcomp))
    simp only [hcomp, if_false] at hres
    exact ⟨t, hres⟩
  · intro i c t r hc ht hr hcomp hd hnh hbefore
    have hres := h2 i t (Nat.zero_le _) ht (fun j _ hj => hbefore j hj)
      (hstops i c t r hc ht hr hd hnh)
    simp only [hcomp, if_true] at hres
    exact hres

/-- Witness for C18, amended: the key `(null, 8)`; the comparison at position
`0` is none of the three orderings, position `1` has an unsupported
expression type and a comparison that is an ordering: `Index::Compare`
throws. -/
theorem C18_compare_throws_iff_unskipped_witness :
    ∃ t, Index.Compare compareNullable nullableKey [0, 1]
      [.EXPRESSION_TYPE_COMPARE_EQ, .other 99] [some 4, some 5] =
        .error (.IndexException t) :=
  (C18_compare_throws_iff_unskipped compareNullable nullableKey [0, 1]
    [.EXPRESSION_TYPE_COMPARE_EQ, .other 99] [some 4, some 5] rfl rfl).1.mpr
    ⟨1, 1, .other 99, some 5, rfl, rfl, rfl, by decide, by decide,
      fun j hj => Or.inr ⟨0, some 4,
        by
          have h0 : j = 0 := by omega
          subst h0
          rfl,
        by
          have h0 : j = 0 := by omega
          subst h0
          rfl,
        by decide⟩⟩

end Peloton
